import Mathlib

/-!
# Verification of the utDataflow core against its specification

This development shallowly embeds the parts of the utDataflow/utGraph code
base (attribute algebra, event queue, generic graph store, pattern matcher,
SRG manager, dataflow-network priority assignment) that the checked claims
are about, and proves or refutes each claim over the embedding.

Conventions of the embedding:
* C++ `std::map` containers are modelled as association lists; the checked
  claims are insensitive to `std::map`'s key ordering, so insertion order of
  the association list stands in for the sorted iteration order.
* C++ `std::set< std::string >` is modelled as a duplicate-free list with
  membership-based insertion; all properties proved about such sets are
  extensional (membership-based).
* Shared pointers are modelled by arena indices (`Nat`); a weak pointer is an
  optional arena index.
* `double` values that originate from attribute text are modelled as exact
  decimals `mant * 10 ^ exp` produced by a decimal-grammar model of `strtod`
  (leading spaces, sign, mantissa digits with optional decimal point,
  optional exponent).  The hexadecimal/inf/nan forms of `strtod` and IEEE
  rounding are outside the scope of the claims checked here, which only
  concern which comparison path is taken and when conversion fails.
* Functions that can `UBITRACK_THROW` are modelled in `Except String`.
-/

namespace UtDataflow

/-! ## Attribute values (src/utGraph/AttributeValue.{h,cpp})

The embedding covers text-backed attribute values (the constructor from
`std::string`), which is the only constructor exercised by the claims; the
XML-node-backed and double-backed constructors are not needed.
-/

/-- Model of the charwise decimal-digit parser used inside the `strtod`
model: consumes leading digits, returning (number of digits, their value,
rest). -/
def parseDigits : List Char → Nat × Nat × List Char
  | [] => (0, 0, [])
  | c :: r =>
    if c.isDigit then
      let (n, v, rest) := parseDigits r
      (n + 1, (c.toNat - '0'.toNat) * 10 ^ n + v, rest)
    else (0, 0, c :: r)

/-- C `isspace` for the default locale. -/
def isSpaceC (c : Char) : Bool :=
  c = ' ' || c = '\t' || c = '\n' || c = '\r' || c = '\x0b' || c = '\x0c'

/-- An exact decimal number `mant * 10 ^ exp`; the model of the `double`
values that the code obtains from attribute text. -/
structure Dec where
  mant : Int
  exp : Int
deriving DecidableEq, Repr

namespace Dec

/-- Bring two decimals to a common exponent and return the two scaled
integer mantissas. -/
def aligned (a b : Dec) : Int × Int :=
  let m : Int := if a.exp ≤ b.exp then a.exp else b.exp
  (a.mant * ((10 ^ (a.exp - m).toNat : Nat) : Int),
   b.mant * ((10 ^ (b.exp - m).toNat : Nat) : Int))

/-- Value equality of two decimals (the `==` of the modelled doubles). -/
def beq (a b : Dec) : Bool := (aligned a b).1 == (aligned a b).2

/-- Value order of two decimals (the `<` of the modelled doubles). -/
def blt (a b : Dec) : Bool := (aligned a b).1 < (aligned a b).2

/-- Value order of two decimals (the `<=` of the modelled doubles). -/
def ble (a b : Dec) : Bool := (aligned a b).1 ≤ (aligned a b).2

/-- Addition of two decimals. -/
def add (a b : Dec) : Dec :=
  ⟨(aligned a b).1 + (aligned a b).2, if a.exp ≤ b.exp then a.exp else b.exp⟩

/-- Multiplication of two decimals. -/
def mul (a b : Dec) : Dec := ⟨a.mant * b.mant, a.exp + b.exp⟩

/-- Absolute value (the `fabs` of the modelled doubles). -/
def dabs (a : Dec) : Dec := ⟨(a.mant.natAbs : Int), a.exp⟩

/-- A decimal from a natural number. -/
def ofNat (n : Nat) : Dec := ⟨(n : Int), 0⟩

end Dec

instance exceptDecEq {ε α : Type} [DecidableEq ε] [DecidableEq α] : DecidableEq (Except ε α)
  | .error x, .error y =>
    if h : x = y then .isTrue (by rw [h]) else .isFalse (fun hc => by cases hc; exact h rfl)
  | .error _, .ok _ => .isFalse (fun hc => by cases hc)
  | .ok _, .error _ => .isFalse (fun hc => by cases hc)
  | .ok x, .ok y =>
    if h : x = y then .isTrue (by rw [h]) else .isFalse (fun hc => by cases hc; exact h rfl)

/-- Model of C `strtod` on the decimal grammar: skips leading whitespace,
parses an optional sign, a digit sequence with optional decimal point and an
optional exponent.  Returns `none` when no conversion could be performed
(`endptr == nptr` in the C code), otherwise the parsed value and the
unconsumed rest of the input. -/
def strtodM (s : List Char) : Option (Dec × List Char) :=
  let s1 := s.dropWhile isSpaceC
  let (sgn, s2) : Int × List Char :=
    match s1 with
    | '-' :: r => (-1, r)
    | '+' :: r => (1, r)
    | r => (1, r)
  let (n1, v1, s3) := parseDigits s2
  let (hasDot, s3') : Bool × List Char :=
    match s3 with
    | '.' :: r => (true, r)
    | r => (false, r)
  let (n2, v2, s4) := if hasDot then parseDigits s3' else (0, 0, s3)
  if n1 + n2 = 0 then none
  else
    let mant : Dec := ⟨sgn * (((v1 * 10 ^ n2 + v2 : Nat) : Int)), -(n2 : Int)⟩
    match s4 with
    | c :: r =>
      if c = 'e' || c = 'E' then
        let (esgn, r2) : Bool × List Char :=
          match r with
          | '-' :: r2 => (true, r2)
          | '+' :: r2 => (false, r2)
          | r2 => (false, r2)
        let (ne, ve, r3) := parseDigits r2
        if ne = 0 then
          -- no exponent digits: the exponent part is not consumed
          some (mant, s4)
        else
          some (⟨mant.mant, mant.exp + (if esgn then -(ve : Int) else (ve : Int))⟩, r3)
      else some (mant, s4)
    | [] => some (mant, [])

/-- The four content states of `AttributeValue`. -/
inductive ContentState
  | stateEmpty
  | stateUnchecked
  | stateNumber
  | stateNoNumber
deriving DecidableEq, Repr

/-- Text-backed `AttributeValue`: the stored string, the cached double
(modelled as an exact decimal) and the content state. -/
structure AttributeValue where
  m_string : String
  m_double : Dec := ⟨0, 0⟩
  m_contentState : ContentState
deriving DecidableEq, Repr

namespace AttributeValue

/-- The constructor `AttributeValue( const std::string& str )`. -/
def fromText (s : String) : AttributeValue :=
  { m_string := s
    m_contentState := if s.isEmpty then .stateEmpty else .stateUnchecked }

/-- `AttributeValue::checkNumber`: runs `strtod` on the stored string; the
state becomes `stateNumber` exactly when a conversion was performed and it
consumed the whole string. -/
def checkNumber (v : AttributeValue) : AttributeValue :=
  match strtodM v.m_string.toList with
  | none => { v with m_double := ⟨0, 0⟩, m_contentState := .stateNoNumber }
  | some (d, rest) =>
    { v with m_double := d
             m_contentState := if rest.isEmpty then .stateNumber else .stateNoNumber }

/-- `AttributeValue::getText` for text-backed values: returns the stored
string (the XML and double rendering branches concern the constructors not
modelled here). -/
def getText (v : AttributeValue) : String := v.m_string

/-- `AttributeValue::isNumber`. -/
def isNumber (v : AttributeValue) : Bool :=
  if v.m_contentState = .stateEmpty then false
  else
    let v' := if v.m_contentState = .stateUnchecked then checkNumber v else v
    v'.m_contentState = .stateNumber

/-- The value of `m_double` after lazy conversion (what the C++ code reads
after a successful `isNumber`/`getNumber`). -/
def numValue (v : AttributeValue) : Dec :=
  (if v.m_contentState = .stateUnchecked then checkNumber v else v).m_double

/-- `AttributeValue::getNumber`: throws when the value is empty or does not
parse as a number in its entirety. -/
def getNumber (v : AttributeValue) : Except String Dec :=
  let v' := if v.m_contentState = .stateUnchecked then checkNumber v else v
  if v'.m_contentState = .stateEmpty || v'.m_contentState = .stateNoNumber then
    .error ("Attribute is no number! (" ++ v'.m_string ++ ")")
  else .ok v'.m_double

/-- `AttributeValue::operator==` for text-backed values (the XML-pointer
short-circuit concerns the constructor not modelled here). -/
def attrEq (a b : AttributeValue) : Bool :=
  (isNumber a && isNumber b && Dec.beq (numValue a) (numValue b)) || getText a == getText b

end AttributeValue

/-- `true` iff the `strtod` model performs a conversion that consumes the
entire string. -/
def strtodConsumesAll (s : String) : Bool :=
  match strtodM s.toList with
  | some (_, []) => true
  | _ => false

/-! ## Comparison predicates (src/utGraph/Predicate.cpp) -/

/-- The six comparison operators of `PredicateCompare`. -/
inductive CompareType
  | equals
  | notEquals
  | greater
  | greaterEquals
  | less
  | lessEquals
deriving DecidableEq, Repr

/-- `PredicateCompare::doCompare`.  The ordering operators call `getNumber`
on both operands unconditionally, so they propagate its exception for
non-numeric operands. -/
def doCompare (t : CompareType) (a b : AttributeValue) : Except String Bool :=
  match t with
  | .equals =>
    if a.isNumber then
      if b.isNumber then do
        let x ← a.getNumber
        let y ← b.getNumber
        pure (Dec.beq x y)
      else pure false
    else pure (a.getText == b.getText)
  | .notEquals =>
    if a.isNumber then
      if b.isNumber then do
        let x ← a.getNumber
        let y ← b.getNumber
        pure (!Dec.beq x y)
      else pure true
    else pure (a.getText != b.getText)
  | .greater => do
    let x ← a.getNumber
    let y ← b.getNumber
    pure (Dec.blt y x)
  | .greaterEquals => do
    let x ← a.getNumber
    let y ← b.getNumber
    pure (Dec.ble y x)
  | .less => do
    let x ← a.getNumber
    let y ← b.getNumber
    pure (Dec.blt x y)
  | .lessEquals => do
    let x ← a.getNumber
    let y ← b.getNumber
    pure (Dec.ble x y)

/-! ## Claims C10 and C7: attribute-value numeric classification and
comparison semantics -/

/-- The lexicographic (std::string) order on text forms that the spec's
"compares their text forms lexicographically" refers to. -/
def specLexLt : List Char → List Char → Bool
  | [], [] => false
  | [], _ :: _ => true
  | _ :: _, [] => false
  | a :: as, b :: bs => if a < b then true else if b < a then false else specLexLt as bs

namespace AttributeValue

/-- After `checkNumber` the content state is `stateNumber` or
`stateNoNumber`. -/
theorem checkNumber_state (v : AttributeValue) :
    (checkNumber v).m_contentState = .stateNumber ∨
    (checkNumber v).m_contentState = .stateNoNumber := by
  unfold checkNumber
  rcases h : strtodM v.m_string.toList with _ | ⟨d, rest⟩
  · right; rfl
  · by_cases hr : rest.isEmpty <;> simp [hr]

/-- `checkNumber` keeps the stored string. -/
theorem checkNumber_string (v : AttributeValue) :
    (checkNumber v).m_string = v.m_string := by
  unfold checkNumber
  rcases h : strtodM v.m_string.toList with _ | ⟨d, rest⟩ <;> simp

/-- `getNumber` succeeds exactly on values classified as numbers, and then
returns the converted value. -/
theorem getNumber_isNumber (v : AttributeValue) :
    (v.isNumber = true → v.getNumber = .ok v.numValue) ∧
    (v.isNumber = false → ∃ e, v.getNumber = .error e) := by
  unfold isNumber getNumber numValue
  rcases hs : v.m_contentState with _ | _ | _ | _ <;> simp [hs]
  · rcases checkNumber_state v with h | h <;> simp [h]

end AttributeValue

open AttributeValue in
/-- C10: a text value is classified as a number exactly when the whole
non-empty string is consumed by the numeric parse; `getNumber` throws
precisely on the empty and the not-fully-numeric values; `getText` is total
and returns the stored text; `isNumber` of the empty value is `false`. -/
theorem c10_number_classification (s : String) :
    (isNumber (fromText s) = true ↔ (s ≠ "" ∧ strtodConsumesAll s = true)) ∧
    ((∃ e, getNumber (fromText s) = .error e) ↔ (s = "" ∨ strtodConsumesAll s = false)) ∧
    getText (fromText s) = s ∧
    isNumber (fromText "") = false := by
  have hnum : isNumber (fromText s) = true ↔ (s ≠ "" ∧ strtodConsumesAll s = true) := by
    by_cases hs : s = ""
    · subst hs; decide
    · have hne : s.isEmpty = false := by
        cases h : s.isEmpty
        · rfl
        · exact absurd ((String.isEmpty_iff s).mp h) hs
      have hfrom : fromText s = ⟨s, ⟨0, 0⟩, .stateUnchecked⟩ := by
        simp [fromText, hne]
      rw [hfrom]
      unfold isNumber checkNumber strtodConsumesAll
      rcases h : strtodM s.toList with _ | ⟨dd, rest⟩
      · simp [hs]
      · rcases rest with _ | ⟨c, cs⟩ <;> simp [hs]
  refine ⟨hnum, ?_, rfl, by decide⟩
  constructor
  · intro ⟨e, he⟩
    by_contra hc
    push_neg at hc
    have : isNumber (fromText s) = true := by
      rw [hnum]
      refine ⟨hc.1, ?_⟩
      cases h : strtodConsumesAll s
      · exact absurd h hc.2
      · rfl
    rw [(getNumber_isNumber (fromText s)).1 this] at he
    cases he
  · intro h
    have : isNumber (fromText s) = false := by
      cases hn : isNumber (fromText s)
      · rfl
      · rcases hnum.mp hn with ⟨h1, h2⟩
        rcases h with h | h
        · exact absurd h h1
        · rw [h2] at h; cases h
    exact (getNumber_isNumber (fromText s)).2 this

/-- C7 counterexample: the claim predicts that `Compare(<, "abc", "abd")`
falls back to lexicographic text comparison (which would yield `true`, since
"abc" precedes "abd"), but `doCompare` calls `getNumber` unconditionally for
the ordering operators and therefore throws on the non-numeric operand. -/
theorem c7_counterexample :
    doCompare .less (AttributeValue.fromText "abc") (AttributeValue.fromText "abd")
        = .error "Attribute is no number! (abc)" ∧
    specLexLt "abc".toList "abd".toList = true := by
  constructor
  · decide
  · decide

open AttributeValue in
/-- C7 (amended): for `==` and `!=` the comparison is numeric when both
operands parse as numbers, yields the constant `false`/`true` when exactly
the left operand is numeric, and otherwise compares the text forms for
(in)equality; for `<`, `<=`, `>`, `>=` both operands are converted with
`getNumber`, which throws when an operand is not a number — there is no
lexicographic fallback for the ordering operators. -/
theorem c7_compare_numeric_or_textual (a b : String) :
    (isNumber (fromText a) = true → isNumber (fromText b) = true →
      ∀ x y, getNumber (fromText a) = .ok x → getNumber (fromText b) = .ok y →
        doCompare .less (fromText a) (fromText b) = .ok (Dec.blt x y) ∧
        doCompare .lessEquals (fromText a) (fromText b) = .ok (Dec.ble x y) ∧
        doCompare .greater (fromText a) (fromText b) = .ok (Dec.blt y x) ∧
        doCompare .greaterEquals (fromText a) (fromText b) = .ok (Dec.ble y x) ∧
        doCompare .equals (fromText a) (fromText b) = .ok (Dec.beq x y) ∧
        doCompare .notEquals (fromText a) (fromText b) = .ok (!Dec.beq x y)) ∧
    (isNumber (fromText a) = false →
        doCompare .equals (fromText a) (fromText b) = .ok (a == b) ∧
        doCompare .notEquals (fromText a) (fromText b) = .ok (a != b) ∧
        ∀ t ∈ [CompareType.less, .lessEquals, .greater, .greaterEquals],
          ∃ e, doCompare t (fromText a) (fromText b) = .error e) ∧
    (isNumber (fromText a) = true → isNumber (fromText b) = false →
        doCompare .equals (fromText a) (fromText b) = .ok false ∧
        doCompare .notEquals (fromText a) (fromText b) = .ok true ∧
        ∀ t ∈ [CompareType.less, .lessEquals, .greater, .greaterEquals],
          ∃ e, doCompare t (fromText a) (fromText b) = .error e) := by
  refine ⟨?_, ?_, ?_⟩
  · intro ha hb x y hx hy
    refine ⟨?_, ?_, ?_, ?_, ?_, ?_⟩ <;> simp [doCompare, ha, hb, hx, hy] <;> rfl
  · intro ha
    obtain ⟨e, he⟩ := (getNumber_isNumber (fromText a)).2 ha
    refine ⟨?_, ?_, ?_⟩
    · simp only [doCompare, ha]; rfl
    · simp only [doCompare, ha]; rfl
    · intro t ht
      fin_cases ht <;> exact ⟨e, by simp [doCompare, he] <;> rfl⟩
  · intro ha hb
    have hx := (getNumber_isNumber (fromText a)).1 ha
    obtain ⟨e, he⟩ := (getNumber_isNumber (fromText b)).2 hb
    refine ⟨?_, ?_, ?_⟩
    · simp [doCompare, ha, hb] <;> rfl
    · simp [doCompare, ha, hb] <;> rfl
    · intro t ht
      fin_cases ht <;> exact ⟨e, by simp [doCompare, hx, he] <;> rfl⟩

/-- Witness for `c7_compare_numeric_or_textual` at concrete inputs: "2" and
"10" are compared numerically (2 < 10, although "10" precedes "2"
lexicographically), and the numeric "7" compared with the text "xyz" for
equality yields `false`. -/
theorem c7_compare_numeric_or_textual_witness :
    doCompare .less (AttributeValue.fromText "2") (AttributeValue.fromText "10") = .ok true ∧
    doCompare .equals (AttributeValue.fromText "7") (AttributeValue.fromText "xyz") = .ok false := by
  constructor
  · have h := ((c7_compare_numeric_or_textual "2" "10").1 (by decide) (by decide)
      ⟨2, 0⟩ ⟨10, 0⟩ (by decide) (by decide)).1
    rw [h]
    have hb : Dec.blt ⟨2, 0⟩ ⟨10, 0⟩ = true := by decide
    rw [hb]
  · exact ((c7_compare_numeric_or_textual "7" "xyz").2.2 (by decide) (by decide)).1

/-! ## Event queue (src/utDataflow/EventQueue.{h,cpp})

The queue is a list of `QueueData` sorted by priority; each entry optionally
points to a `ReceiverInfo` (per-receiver maximum queue length and current
count), modelled here as a keyed store.  The type-erased event callable is
modelled as an opaque tag. -/

/-- `EventQueue::ReceiverInfo` (the port pointer and mutex are identity /
locking artefacts that the queueing claims do not touch). -/
structure ReceiverInfo where
  nMaxQueueLength : Int
  nQueuedEvents : Int
deriving DecidableEq, Repr

/-- `EventQueue::QueueData`: receiver-info reference, event callable (an
opaque tag) and priority (`unsigned long long`). -/
structure QueueData where
  pReceiverInfo : Option String
  event : Nat
  priority : Nat
deriving DecidableEq, Repr

/-- The store of `ReceiverInfo` objects, keyed by the receiver identity that
stands in for the C++ pointer. -/
abbrev Receivers := List (String × ReceiverInfo)

/-- Look up a receiver info. -/
def recvFind (rs : Receivers) (r : String) : Option ReceiverInfo :=
  match rs with
  | [] => none
  | (n, i) :: t => if n = r then some i else recvFind t r

/-- Update a receiver info in place. -/
def recvUpdate (rs : Receivers) (r : String) (f : ReceiverInfo → ReceiverInfo) : Receivers :=
  match rs with
  | [] => []
  | (n, i) :: t => if n = r then (n, f i) :: t else (n, i) :: recvUpdate t r f

/-- The mutable state of the event queue that the claims concern: the sorted
event list and the receiver-info objects. -/
structure EQState where
  m_Queue : List QueueData
  recvs : Receivers
deriving DecidableEq, Repr

/-- The front-scan of `EventQueue::queue`: `while (it->priority <
pos->priority) it++; m_Queue.insert(it, *pos)` — the new event is inserted
*before* the first existing event of greater or equal priority. -/
def insertScan : List QueueData → QueueData → List QueueData
  | [], e => [e]
  | x :: xs, e => if x.priority < e.priority then x :: insertScan xs e else e :: x :: xs

/-- One insertion of `EventQueue::queue`: empty queue, fast path at the back
(`back().priority <= pos->priority`), otherwise the front scan. -/
def enqueueOne (q : List QueueData) (e : QueueData) : List QueueData :=
  match q.getLast? with
  | none => [e]
  | some lastE => if lastE.priority ≤ e.priority then q ++ [e] else insertScan q e

/-- `pos->pReceiverInfo->nQueuedEvents++`. -/
def incrCount (rs : Receivers) (d : QueueData) : Receivers :=
  match d.pReceiverInfo with
  | none => rs
  | some r => recvUpdate rs r (fun i => { i with nQueuedEvents := i.nQueuedEvents + 1 })

/-- `...->nQueuedEvents--`. -/
def decrCount (rs : Receivers) (d : QueueData) : Receivers :=
  match d.pReceiverInfo with
  | none => rs
  | some r => recvUpdate rs r (fun i => { i with nQueuedEvents := i.nQueuedEvents - 1 })

/-- The insertion loop of `EventQueue::queue`: each batch event is sorted
into the queue and its receiver count incremented. -/
def insertAll (st : EQState) (batch : List QueueData) : EQState :=
  batch.foldl (fun st d => ⟨enqueueOne st.m_Queue d, incrCount st.recvs d⟩) st

/-- The cap test on the front event: `front().pReceiverInfo &&
front->nMaxQueueLength > 0 && front->nQueuedEvents > front->nMaxQueueLength`. -/
def overCap (rs : Receivers) (d : QueueData) : Bool :=
  match d.pReceiverInfo with
  | none => false
  | some r =>
    match recvFind rs r with
    | none => false
    | some i => decide (0 < i.nMaxQueueLength) && decide (i.nMaxQueueLength < i.nQueuedEvents)

/-- The drop loop at the end of `EventQueue::queue`: drops front events while
the front's receiver exceeds its cap, decrementing the count. -/
def dropLoopAux : List QueueData → Receivers → List QueueData × Receivers
  | [], rs => ([], rs)
  | d :: rest, rs =>
    if overCap rs d then dropLoopAux rest (decrCount rs d) else (d :: rest, rs)

/-- `EventQueue::queue( batch )`: insert all events, then run the drop loop. -/
def queueBatch (st : EQState) (batch : List QueueData) : EQState :=
  let st1 := insertAll st batch
  let p := dropLoopAux st1.m_Queue st1.recvs
  ⟨p.1, p.2⟩

/-- The dispatch order of `EventQueue::threadFunction` (equally of
`dispatchNow`): pops the front event, re-checks the cap (dropping without
dispatch when exceeded), decrements the count, and invokes the callable.
Returns the dispatched events in order. -/
def dispatchList : List QueueData → Receivers → List QueueData
  | [], _ => []
  | d :: rest, rs =>
    let rs2 := decrCount rs d
    if overCap rs d then dispatchList rest rs2 else d :: dispatchList rest rs2

/-! ### Claims C1 and C2: queue FIFO ordering and per-receiver cap -/

theorem insertScan_length (e : QueueData) (q : List QueueData) :
    (insertScan q e).length = q.length + 1 := by
  induction q with
  | nil => rfl
  | cons x xs ih => unfold insertScan; split <;> simp [ih]

theorem mem_insertScan (e : QueueData) (q : List QueueData) (d : QueueData) :
    d ∈ insertScan q e ↔ d ∈ q ∨ d = e := by
  induction q with
  | nil => simp [insertScan]
  | cons x xs ih => unfold insertScan; split <;> simp [ih] <;> tauto

theorem mem_getLastQ {l : List QueueData} {a : QueueData} (h : l.getLast? = some a) :
    a ∈ l := by
  induction l with
  | nil => cases h
  | cons x xs ih =>
    rcases xs with _ | ⟨y, ys⟩
    · simp_all [List.getLast?]
    · rw [List.getLast?_cons_cons] at h
      exact List.mem_cons_of_mem x (ih h)

theorem enqueueOne_length (e : QueueData) (q : List QueueData) :
    (enqueueOne q e).length = q.length + 1 := by
  unfold enqueueOne
  rcases h : q.getLast? with _ | lastE
  · rw [List.getLast?_eq_none_iff] at h
    subst h; rfl
  · show (if lastE.priority ≤ e.priority then q ++ [e] else insertScan q e).length = q.length + 1
    split <;> simp [insertScan_length]

theorem mem_enqueueOne (e : QueueData) (q : List QueueData) (d : QueueData) :
    d ∈ enqueueOne q e ↔ d ∈ q ∨ d = e := by
  unfold enqueueOne
  rcases h : q.getLast? with _ | lastE
  · rw [List.getLast?_eq_none_iff] at h
    subst h; simp
  · show d ∈ (if lastE.priority ≤ e.priority then q ++ [e] else insertScan q e) ↔ d ∈ q ∨ d = e
    split
    · simp
    · exact mem_insertScan e q d

/-- If every event already in the queue has priority at most that of the new
event, the insertion appends at the back. -/
theorem enqueueOne_append_of_le (e : QueueData) (q : List QueueData)
    (h : ∀ d ∈ q, d.priority ≤ e.priority) :
    enqueueOne q e = q ++ [e] := by
  unfold enqueueOne
  rcases hl : q.getLast? with _ | lastE
  · rw [List.getLast?_eq_none_iff] at hl
    subst hl; rfl
  · show (if lastE.priority ≤ e.priority then q ++ [e] else insertScan q e) = q ++ [e]
    rw [if_pos (h lastE (mem_getLastQ hl))]

/-- The insertion loop appends the whole batch in order when no event of
strictly higher priority is pending. -/
theorem insertAll_append (p : Nat) (b : List QueueData) :
    ∀ q (rs : Receivers), (∀ d ∈ q, d.priority ≤ p) → (∀ d ∈ b, d.priority = p) →
      (insertAll ⟨q, rs⟩ b).m_Queue = q ++ b := by
  induction b with
  | nil => intro q rs _ _; simp [insertAll]
  | cons e bs ih =>
    intro q rs hq hb
    have he : e.priority = p := hb e (List.mem_cons_self e bs)
    have hstep : enqueueOne q e = q ++ [e] :=
      enqueueOne_append_of_le e q (fun d hd => he ▸ hq d hd)
    show (insertAll ⟨enqueueOne q e, incrCount rs e⟩ bs).m_Queue = q ++ e :: bs
    rw [hstep]
    rw [ih (q ++ [e]) (incrCount rs e) ?_ (fun d hd => hb d (List.mem_cons_of_mem e hd))]
    · simp
    · intro d hd
      rcases List.mem_append.mp hd with h | h
      · exact hq d h
      · simp only [List.mem_singleton] at h
        subst h; rw [he]

theorem recvFind_mem {rs : Receivers} {r : String} {i : ReceiverInfo}
    (h : recvFind rs r = some i) : (r, i) ∈ rs := by
  induction rs with
  | nil => cases h
  | cons x t ih =>
    unfold recvFind at h
    split at h
    · rename_i heq
      cases h
      subst heq
      exact List.mem_cons_self _ _
    · exact List.mem_cons_of_mem _ (ih h)

theorem mem_recvUpdate {rs : Receivers} {r : String} {f : ReceiverInfo → ReceiverInfo}
    {x : String × ReceiverInfo} (h : x ∈ recvUpdate rs r f) :
    x ∈ rs ∨ ∃ y : String × ReceiverInfo, y ∈ rs ∧ x = (y.1, f y.2) := by
  induction rs with
  | nil => cases h
  | cons z t ih =>
    unfold recvUpdate at h
    split at h
    · rcases List.mem_cons.mp h with h | h
      · right; exact ⟨z, List.mem_cons_self _ _, by simp [h]⟩
      · left; exact List.mem_cons_of_mem _ h
    · rcases List.mem_cons.mp h with h | h
      · left; rw [h]; exact List.mem_cons_self _ _
      · rcases ih h with h | ⟨y, hy, hxy⟩
        · left; exact List.mem_cons_of_mem _ h
        · right; exact ⟨y, List.mem_cons_of_mem _ hy, hxy⟩

/-- A list of receivers in which every maximum queue length is non-positive
(infinite, in the code's convention). -/
def noCaps (rs : Receivers) : Prop := ∀ x ∈ rs, (x.2).nMaxQueueLength ≤ 0

theorem noCaps_incr {rs : Receivers} (h : noCaps rs) (d : QueueData) :
    noCaps (incrCount rs d) := by
  unfold incrCount
  rcases hp : d.pReceiverInfo with _ | r
  · exact h
  · intro x hx
    rcases mem_recvUpdate hx with hx | ⟨y, hy, hxy⟩
    · exact h x hx
    · rw [hxy]; exact h y hy

theorem noCaps_decr {rs : Receivers} (h : noCaps rs) (d : QueueData) :
    noCaps (decrCount rs d) := by
  unfold decrCount
  rcases hp : d.pReceiverInfo with _ | r
  · exact h
  · intro x hx
    rcases mem_recvUpdate hx with hx | ⟨y, hy, hxy⟩
    · exact h x hx
    · rw [hxy]; exact h y hy

theorem overCap_false_of_noCaps {rs : Receivers} (h : noCaps rs) (d : QueueData) :
    overCap rs d = false := by
  unfold overCap
  rcases hp : d.pReceiverInfo with _ | r
  · rfl
  · show (match recvFind rs r with
      | none => false
      | some i => decide (0 < i.nMaxQueueLength) && decide (i.nMaxQueueLength < i.nQueuedEvents)) = false
    rcases hf : recvFind rs r with _ | i
    · rfl
    · have h2 : i.nMaxQueueLength ≤ 0 := h (r, i) (recvFind_mem hf)
      show (decide (0 < i.nMaxQueueLength) && decide (i.nMaxQueueLength < i.nQueuedEvents)) = false
      simp only [Bool.and_eq_false_iff, decide_eq_false_iff_not]
      left
      omega

theorem dropLoopAux_id {q : List QueueData} {rs : Receivers} (h : noCaps rs) :
    dropLoopAux q rs = (q, rs) := by
  rcases q with _ | ⟨d, rest⟩
  · rfl
  · unfold dropLoopAux
    rw [overCap_false_of_noCaps h d]
    simp

theorem dispatchList_all {q : List QueueData} :
    ∀ {rs : Receivers}, noCaps rs → dispatchList q rs = q := by
  induction q with
  | nil => intro rs _; rfl
  | cons d rest ih =>
    intro rs h
    unfold dispatchList
    rw [overCap_false_of_noCaps h d]
    simp [ih (noCaps_decr h d)]

theorem insertAll_noCaps (b : List QueueData) :
    ∀ q (rs : Receivers), noCaps rs → noCaps (insertAll ⟨q, rs⟩ b).recvs := by
  induction b with
  | nil => intro q rs h; exact h
  | cons e bs ih => intro q rs h; exact ih _ _ (noCaps_incr h e)

/-- C1 counterexample.  Receivers `R` and `S` have unlimited queues; events
`e1 = (R, tag 1, priority 5)`, `x = (S, tag 2, priority 10)` and
`e2 = (R, tag 3, priority 5)` are enqueued in one batch in that order.
`e1` and `e2` go to the same receiver with identical priority and `e1` is
enqueued first, yet the dispatch order is `e2, e1, x` (tags `3, 1, 2`):
because the higher-priority event `x` sits at the back, the insertion of
`e2` takes the front scan, which stops at the first event of *equal*
priority and inserts `e2` before `e1`. -/
theorem c1_counterexample :
    (dispatchList
        (queueBatch ⟨[], [("R", ⟨-1, 0⟩), ("S", ⟨-1, 0⟩)]⟩
          [⟨some "R", 1, 5⟩, ⟨some "S", 2, 10⟩, ⟨some "R", 3, 5⟩]).m_Queue
        (queueBatch ⟨[], [("R", ⟨-1, 0⟩), ("S", ⟨-1, 0⟩)]⟩
          [⟨some "R", 1, 5⟩, ⟨some "S", 2, 10⟩, ⟨some "R", 3, 5⟩]).recvs).map QueueData.event
      = [3, 1, 2] := by decide

/-- C1 (amended): events of one priority `p` are dispatched in enqueue order
(FIFO) — also across successive batches, since the conclusion allows an
arbitrary already-queued prefix — *provided* no event of strictly greater
priority is pending at the insertions (and no receiver cap interferes;
here all caps are infinite).  Under these hypotheses every insertion takes
the back fast path, so the queue is exactly `previous ++ batch` and dispatch
delivers it in that order. -/
theorem c1_fifo_equal_priority (p : Nat) (q b : List QueueData) (rs : Receivers)
    (hq : ∀ d ∈ q, d.priority ≤ p) (hb : ∀ d ∈ b, d.priority = p)
    (hcap : noCaps rs) :
    (queueBatch ⟨q, rs⟩ b).m_Queue = q ++ b ∧
    dispatchList (queueBatch ⟨q, rs⟩ b).m_Queue (queueBatch ⟨q, rs⟩ b).recvs = q ++ b := by
  have hins : (insertAll ⟨q, rs⟩ b).m_Queue = q ++ b := insertAll_append p b q rs hq hb
  have hcaps2 : noCaps (insertAll ⟨q, rs⟩ b).recvs := insertAll_noCaps b q rs hcap
  have hdrop := dropLoopAux_id (q := (insertAll ⟨q, rs⟩ b).m_Queue) hcaps2
  constructor
  · show (dropLoopAux (insertAll ⟨q, rs⟩ b).m_Queue (insertAll ⟨q, rs⟩ b).recvs).1 = q ++ b
    rw [hdrop, hins]
  · show dispatchList
      (dropLoopAux (insertAll ⟨q, rs⟩ b).m_Queue (insertAll ⟨q, rs⟩ b).recvs).1
      (dropLoopAux (insertAll ⟨q, rs⟩ b).m_Queue (insertAll ⟨q, rs⟩ b).recvs).2 = q ++ b
    rw [hdrop]
    show dispatchList (insertAll ⟨q, rs⟩ b).m_Queue (insertAll ⟨q, rs⟩ b).recvs = q ++ b
    rw [dispatchList_all hcaps2, hins]

/-- Witness for `c1_fifo_equal_priority` at a concrete instance: one event of
priority 4 is already queued, two equal-priority events for receiver `R`
arrive in one batch and are dispatched in arrival order. -/
theorem c1_fifo_equal_priority_witness :
    (queueBatch ⟨[⟨some "R", 0, 4⟩], [("R", ⟨-1, 1⟩)]⟩
        [⟨some "R", 1, 5⟩, ⟨some "R", 2, 5⟩]).m_Queue
      = [⟨some "R", 0, 4⟩, ⟨some "R", 1, 5⟩, ⟨some "R", 2, 5⟩] ∧
    dispatchList
        (queueBatch ⟨[⟨some "R", 0, 4⟩], [("R", ⟨-1, 1⟩)]⟩
          [⟨some "R", 1, 5⟩, ⟨some "R", 2, 5⟩]).m_Queue
        (queueBatch ⟨[⟨some "R", 0, 4⟩], [("R", ⟨-1, 1⟩)]⟩
          [⟨some "R", 1, 5⟩, ⟨some "R", 2, 5⟩]).recvs
      = [⟨some "R", 0, 4⟩, ⟨some "R", 1, 5⟩, ⟨some "R", 2, 5⟩] := by
  have h := c1_fifo_equal_priority 5 [⟨some "R", 0, 4⟩]
    [⟨some "R", 1, 5⟩, ⟨some "R", 2, 5⟩] [("R", ⟨-1, 1⟩)]
    (by decide) (by decide)
    (by intro x hx; simp only [List.mem_singleton] at hx; subst hx; decide)
  exact ⟨h.1, h.2⟩

/-- C2 counterexample.  Receiver `R` has maximum queue length `K = 0` and a
single event (`K + 1 = 1`) is enqueued in one batch into an empty queue.
The claim demands that exactly one event be dropped and the pending count be
`K = 0`; but the drop loop requires `nMaxQueueLength > 0`, so nothing is
dropped: the queue keeps the event and the count stays 1. -/
theorem c2_counterexample :
    (queueBatch ⟨[], [("R", ⟨0, 0⟩)]⟩ [⟨some "R", 1, 5⟩]).m_Queue.length = 1 ∧
    recvFind (queueBatch ⟨[], [("R", ⟨0, 0⟩)]⟩ [⟨some "R", 1, 5⟩]).recvs "R"
      = some ⟨0, 1⟩ := by decide

theorem insertAll_single_recv (r : String) (K : Int) :
    ∀ (b q : List QueueData) (c : Int), (∀ d ∈ b, d.pReceiverInfo = some r) →
      (insertAll ⟨q, [(r, ⟨K, c⟩)]⟩ b).recvs = [(r, ⟨K, c + b.length⟩)] ∧
      (insertAll ⟨q, [(r, ⟨K, c⟩)]⟩ b).m_Queue.length = q.length + b.length := by
  intro b
  induction b with
  | nil =>
    intro q c _
    exact ⟨by simp [insertAll], rfl⟩
  | cons e bs ih =>
    intro q c hb
    have he : e.pReceiverInfo = some r := hb e (List.mem_cons_self e bs)
    have hinc : incrCount [(r, ⟨K, c⟩)] e = [(r, ⟨K, c + 1⟩)] := by
      simp [incrCount, he, recvUpdate]
    show (insertAll ⟨enqueueOne q e, incrCount [(r, ⟨K, c⟩)] e⟩ bs).recvs
        = [(r, ⟨K, c + ((bs.length + 1 : Nat) : Int)⟩)] ∧
      (insertAll ⟨enqueueOne q e, incrCount [(r, ⟨K, c⟩)] e⟩ bs).m_Queue.length
        = q.length + (bs.length + 1)
    rw [hinc]
    obtain ⟨h1, h2⟩ := ih (enqueueOne q e) (c + 1) (fun d hd => hb d (List.mem_cons_of_mem e hd))
    constructor
    · rw [h1]
      have : c + 1 + (bs.length : Int) = c + ((bs.length + 1 : Nat) : Int) := by
        push_cast
        ring
      rw [this]
    · rw [h2, enqueueOne_length]
      omega

theorem insertAll_mem_prop (P : QueueData → Prop) :
    ∀ (b q : List QueueData) (rs : Receivers), (∀ d ∈ q, P d) → (∀ d ∈ b, P d) →
      ∀ d ∈ (insertAll ⟨q, rs⟩ b).m_Queue, P d := by
  intro b
  induction b with
  | nil => intro q rs hq _ d hd; exact hq d hd
  | cons e bs ih =>
    intro q rs hq hb d hd
    refine ih (enqueueOne q e) (incrCount rs e) ?_
      (fun x hx => hb x (List.mem_cons_of_mem e hx)) d hd
    intro x hx
    rcases (mem_enqueueOne e q x).mp hx with h | h
    · exact hq x h
    · rw [h]; exact hb e (List.mem_cons_self e bs)

theorem overCap_single (r : String) (K c : Int) (d : QueueData)
    (hd : d.pReceiverInfo = some r) :
    overCap [(r, ⟨K, c⟩)] d = (decide (0 < K) && decide (K < c)) := by
  simp [overCap, hd, recvFind]

theorem decrCount_single (r : String) (K c : Int) (d : QueueData)
    (hd : d.pReceiverInfo = some r) :
    decrCount [(r, ⟨K, c⟩)] d = [(r, ⟨K, c - 1⟩)] := by
  simp [decrCount, hd, recvUpdate]

/-- C2 (amended): for a receiver with maximum queue length `K ≥ 1`, when
`K + 1` events for that receiver are enqueued in one batch *into an empty
queue* (no pending events of any other receiver either), exactly one event
is dropped and the pending count afterwards equals `K`.  The two amendments
are forced by the code: a cap of `K = 0` never drops (the drop condition
requires `nMaxQueueLength > 0`), and the drop loop inspects only the queue
front, so pending events of other receivers ahead of this receiver's events
block the drop entirely. -/
theorem c2_cap_exactly_one_drop (K : Nat) (r : String) (b : List QueueData)
    (hK : 1 ≤ K) (hlen : b.length = K + 1) (hb : ∀ d ∈ b, d.pReceiverInfo = some r) :
    (queueBatch ⟨[], [(r, ⟨(K : Int), 0⟩)]⟩ b).m_Queue.length = K ∧
    recvFind (queueBatch ⟨[], [(r, ⟨(K : Int), 0⟩)]⟩ b).recvs r
      = some ⟨(K : Int), (K : Int)⟩ := by
  obtain ⟨hrecv, hqlen⟩ := insertAll_single_recv r (K : Int) b [] 0 hb
  have hmem := insertAll_mem_prop (fun d => d.pReceiverInfo = some r) b []
    [(r, ⟨(K : Int), 0⟩)] (by intro d hd; cases hd) hb
  set st1 := insertAll ⟨[], [(r, ⟨(K : Int), 0⟩)]⟩ b with hst1
  have hc : (0 : Int) + (b.length : Int) = ((K : Int) + 1) := by
    rw [hlen]; push_cast; ring
  rw [hc] at hrecv
  have hlen1 : st1.m_Queue.length = K + 1 := by rw [hqlen, hlen]; simp
  rcases hq1 : st1.m_Queue with _ | ⟨d1, q2⟩
  · rw [hq1] at hlen1; simp at hlen1
  rcases hq2 : q2 with _ | ⟨d2, q3⟩
  · rw [hq1, hq2] at hlen1
    simp at hlen1
    omega
  have hd1 : d1.pReceiverInfo = some r := hmem d1 (by rw [hq1]; exact List.mem_cons_self _ _)
  have hd2 : d2.pReceiverInfo = some r := hmem d2 (by
    rw [hq1, hq2]
    exact List.mem_cons_of_mem _ (List.mem_cons_self _ _))
  have hoc1 : overCap [(r, ⟨(K : Int), (K : Int) + 1⟩)] d1 = true := by
    rw [overCap_single r _ _ d1 hd1]
    simp only [Bool.and_eq_true, decide_eq_true_eq]
    omega
  have hdec : decrCount [(r, ⟨(K : Int), (K : Int) + 1⟩)] d1 = [(r, ⟨(K : Int), (K : Int)⟩)] := by
    rw [decrCount_single r _ _ d1 hd1]
    norm_num
  have hoc2 : overCap [(r, ⟨(K : Int), (K : Int)⟩)] d2 = false := by
    rw [overCap_single r _ _ d2 hd2]
    simp
  have hdl : dropLoopAux st1.m_Queue st1.recvs
      = (d2 :: q3, [(r, ⟨(K : Int), (K : Int)⟩)]) := by
    rw [hq1, hrecv]
    unfold dropLoopAux
    rw [hoc1, hdec]
    simp only [if_true]
    rw [hq2]
    unfold dropLoopAux
    rw [hoc2]
    simp
  constructor
  · show (dropLoopAux st1.m_Queue st1.recvs).1.length = K
    rw [hdl]
    have : q2.length = K := by
      rw [hq1] at hlen1
      simpa using hlen1
    rw [hq2] at this
    simpa using this
  · show recvFind (dropLoopAux st1.m_Queue st1.recvs).2 r = some ⟨(K : Int), (K : Int)⟩
    rw [hdl]
    simp [recvFind]

/-- Witness for `c2_cap_exactly_one_drop`: cap `K = 1`, two events in one
batch, one is dropped and the count ends at 1. -/
theorem c2_cap_exactly_one_drop_witness :
    (queueBatch ⟨[], [("R", ⟨1, 0⟩)]⟩ [⟨some "R", 1, 5⟩, ⟨some "R", 2, 5⟩]).m_Queue.length = 1 ∧
    recvFind (queueBatch ⟨[], [("R", ⟨1, 0⟩)]⟩
      [⟨some "R", 1, 5⟩, ⟨some "R", 2, 5⟩]).recvs "R" = some ⟨1, 1⟩ := by
  have h := c2_cap_exactly_one_drop 1 "R" [⟨some "R", 1, 5⟩, ⟨some "R", 2, 5⟩]
    (by decide) (by decide) (by decide)
  exact ⟨h.1, h.2⟩

/-! ## Generic graph store (src/utGraph/Graph.h)

`Graph< NodeAttributes, EdgeAttributes >` keeps nodes and edges in
name-keyed `std::map`s of shared pointers; nodes hold weak-pointer lists of
incident edges and edges hold weak pointers to their endpoints.  Shared
pointers are modelled as arena indices; arena entries persist (an object
lives as long as anything references it), and the name maps model
`m_Nodes` / `m_Edges`. -/

/-- Lookup in a name-keyed `std::map` modelled as an association list. -/
def alookup {β : Type} : List (String × β) → String → Option β
  | [], _ => none
  | (k, v) :: t, key => if k = key then some v else alookup t key

/-- `map[key] = value` (replace or append). -/
def aset {β : Type} : List (String × β) → String → β → List (String × β)
  | [], key, b => [(key, b)]
  | (k, v) :: t, key, b => if k = key then (k, b) :: t else (k, v) :: aset t key b

/-- `std::map::insert`: keeps an existing binding for the key. -/
def ainsert {β : Type} (m : List (String × β)) (key : String) (b : β) : List (String × β) :=
  match alookup m key with
  | some _ => m
  | none => m ++ [(key, b)]

/-- `std::map::erase(key)`. -/
def aerase {β : Type} : List (String × β) → String → List (String × β)
  | [], _ => []
  | (k, v) :: t, key => if k = key then t else (k, v) :: aerase t key

/-- Lookup in the arena of live objects. -/
def nlookup {β : Type} : List (Nat × β) → Nat → Option β
  | [], _ => none
  | (k, v) :: t, key => if k = key then some v else nlookup t key

/-- Mutation of an arena object in place. -/
def nset {β : Type} : List (Nat × β) → Nat → β → List (Nat × β)
  | [], _, _ => []
  | (k, v) :: t, key, b => if k = key then (k, b) :: t else (k, v) :: nset t key b

/-- Remove the first occurrence of an element of a list (the
search-compare-erase-break loops of `Graph::removeEdge`). -/
def removeFirst : List Nat → Nat → List Nat
  | [], _ => []
  | x :: t, y => if x = y then t else x :: removeFirst t y

/-- `GraphNode`: name, weak-pointer lists of incoming and outgoing edges,
and the `NodeAttributes` base. -/
structure GraphNode (NA : Type) where
  m_Name : String
  m_InEdges : List Nat := []
  m_OutEdges : List Nat := []
  attr : NA
deriving DecidableEq, Repr

/-- `GraphEdge`: name, weak pointers to source and target (reset to `none`
by `removeEdge`), and the `EdgeAttributes` base. -/
structure GraphEdge (EA : Type) where
  m_Name : String
  m_Source : Option Nat
  m_Target : Option Nat
  attr : EA
deriving DecidableEq, Repr

/-- `Graph< NodeAttributes, EdgeAttributes >`. -/
structure Graph (NA EA : Type) where
  nextId : Nat := 0
  nodeArena : List (Nat × GraphNode NA) := []
  edgeArena : List (Nat × GraphEdge EA) := []
  m_Nodes : List (String × Nat) := []
  m_Edges : List (String × Nat) := []
deriving DecidableEq, Repr

namespace Graph

variable {NA EA : Type}

/-- Mutate a node object through its (shared or weak) pointer. -/
def updateNode (g : Graph NA EA) (nid : Nat) (f : GraphNode NA → GraphNode NA) : Graph NA EA :=
  match nlookup g.nodeArena nid with
  | none => g
  | some nd => { g with nodeArena := nset g.nodeArena nid (f nd) }

/-- Mutate an edge object through its pointer. -/
def updateEdge (g : Graph NA EA) (eid : Nat) (f : GraphEdge EA → GraphEdge EA) : Graph NA EA :=
  match nlookup g.edgeArena eid with
  | none => g
  | some ed => { g with edgeArena := nset g.edgeArena eid (f ed) }

/-- `Graph::hasNode`. -/
def hasNode (g : Graph NA EA) (nodeName : String) : Bool :=
  (alookup g.m_Nodes nodeName).isSome

/-- `Graph::getNode` (throws when absent). -/
def getNode (g : Graph NA EA) (nodeName : String) : Except String Nat :=
  match alookup g.m_Nodes nodeName with
  | none => .error ("Trying to get a non present node " ++ nodeName)
  | some nid => .ok nid

/-- `Graph::hasEdge`. -/
def hasEdge (g : Graph NA EA) (edgeName : String) : Bool :=
  (alookup g.m_Edges edgeName).isSome

/-- `Graph::getEdge` (throws when absent). -/
def getEdge (g : Graph NA EA) (edgeName : String) : Except String Nat :=
  match alookup g.m_Edges edgeName with
  | none => .error ("Trying to get a non present edge " ++ edgeName)
  | some eid => .ok eid

/-- `Graph::addNode`: throws on a duplicate name, otherwise creates an
isolated node and binds the name to it. -/
def addNode (g : Graph NA EA) (nodeName : String) (data : NA) :
    Except String (Graph NA EA × Nat) :=
  if (alookup g.m_Nodes nodeName).isSome then
    .error "Trying to insert already present node"
  else
    let nid := g.nextId
    .ok ({ g with
            nextId := nid + 1
            nodeArena := g.nodeArena ++ [(nid, { m_Name := nodeName, attr := data })]
            m_Nodes := aset g.m_Nodes nodeName nid }, nid)

/-- `Graph::addEdge`: a duplicate edge name only logs a warning (the throw
is commented out in the source); `m_Edges.insert` then keeps the existing
binding, yet the new edge is still appended to the endpoints' incidence
lists. -/
def addEdge (g : Graph NA EA) (edgeName : String) (source target : Nat) (data : EA) :
    Graph NA EA × Nat :=
  let eid := g.nextId
  let g1 : Graph NA EA :=
    { g with
        nextId := eid + 1
        edgeArena := g.edgeArena ++
          [(eid, { m_Name := edgeName, m_Source := some source, m_Target := some target,
                   attr := data })]
        m_Edges := ainsert g.m_Edges edgeName eid }
  let g2 := updateNode g1 source (fun nd => { nd with m_OutEdges := nd.m_OutEdges ++ [eid] })
  let g3 := updateNode g2 target (fun nd => { nd with m_InEdges := nd.m_InEdges ++ [eid] })
  (g3, eid)

/-- `Graph::removeEdge( EdgePtr )`: unhook the edge from its endpoints'
incidence lists (first occurrence, then break), reset its weak pointers, and
erase the map entry found under the edge's *name*.  The C++ code runs into
undefined behaviour (`erase(end())`) when the name is unbound; this is
modelled as an error. -/
def removeEdge (g : Graph NA EA) (eid : Nat) : Except String (Graph NA EA) :=
  match nlookup g.edgeArena eid with
  | none => .error "removeEdge: dangling edge pointer"
  | some ed =>
    let g1 := match ed.m_Source with
      | some srcId =>
        updateNode g srcId (fun nd => { nd with m_OutEdges := removeFirst nd.m_OutEdges eid })
      | none => g
    let g2 := match ed.m_Target with
      | some tgtId =>
        updateNode g1 tgtId (fun nd => { nd with m_InEdges := removeFirst nd.m_InEdges eid })
      | none => g1
    let g3 := updateEdge g2 eid (fun e => { e with m_Source := none, m_Target := none })
    match alookup g3.m_Edges ed.m_Name with
    | none => .error ("Cannot find edge in edge map: " ++ ed.m_Name)
    | some _ => .ok { g3 with m_Edges := aerase g3.m_Edges ed.m_Name }

/-- The `while (!m_OutEdges.empty()) removeEdge(...); while (!m_InEdges...)`
loops of `Graph::removeNode`, fuel-bounded (each removal shortens the
incidence lists of a consistent graph by one). -/
def removeNodeLoop : Nat → Graph NA EA → Nat → Except String (Graph NA EA)
  | 0, _, _ => .error "removeNode: incidence loop did not terminate"
  | fuel + 1, g, nid =>
    match nlookup g.nodeArena nid with
    | none => .error "removeNode: dangling node pointer"
    | some nd =>
      match nd.m_OutEdges with
      | e :: _ => do removeNodeLoop fuel (← removeEdge g e) nid
      | [] =>
        match nd.m_InEdges with
        | e :: _ => do removeNodeLoop fuel (← removeEdge g e) nid
        | [] => .ok { g with m_Nodes := aerase g.m_Nodes nd.m_Name }

/-- `Graph::removeNode( NodePtr )`. -/
def removeNode (g : Graph NA EA) (nid : Nat) : Except String (Graph NA EA) :=
  match nlookup g.nodeArena nid with
  | none => .error "removeNode: dangling node pointer"
  | some nd => removeNodeLoop (nd.m_OutEdges.length + nd.m_InEdges.length + 1) g nid

/-- `Graph::removeNode( name )`. -/
def removeNodeByName (g : Graph NA EA) (nodeName : String) : Except String (Graph NA EA) := do
  removeNode g (← getNode g nodeName)

/-- `Graph::size` (number of edges in the map). -/
def size (g : Graph NA EA) : Nat := g.m_Edges.length

/-- `Graph::order` (number of nodes in the map). -/
def order (g : Graph NA EA) : Nat := g.m_Nodes.length

end Graph

/-! ### Claim C9: duplicate-name `addEdge` -/

theorem ainsert_existing {β : Type} {m : List (String × β)} {k : String} {v : β} (b : β)
    (h : alookup m k = some v) : ainsert m k b = m := by
  unfold ainsert
  rw [h]

theorem nlookup_nset_other {β : Type} {a : List (Nat × β)} {i j : Nat} {b : β}
    (h : j ≠ i) : nlookup (nset a i b) j = nlookup a j := by
  induction a with
  | nil => rfl
  | cons x t ih =>
    rcases x with ⟨k, v⟩
    unfold nset
    by_cases hk : k = i
    · rw [if_pos hk]
      unfold nlookup
      rw [if_neg (by omega), if_neg (by omega)]
    · rw [if_neg hk]
      unfold nlookup
      split
      · rfl
      · exact ih

theorem nlookup_nset_self {β : Type} {a : List (Nat × β)} {i : Nat} {b : β}
    (h : (nlookup a i).isSome) : nlookup (nset a i b) i = some b := by
  induction a with
  | nil => simp [nlookup] at h
  | cons x t ih =>
    rcases x with ⟨k, v⟩
    unfold nset
    by_cases hk : k = i
    · rw [if_pos hk]
      unfold nlookup
      rw [if_pos hk]
    · rw [if_neg hk]
      unfold nlookup
      rw [if_neg hk]
      unfold nlookup at h
      rw [if_neg hk] at h
      exact ih h

theorem nlookup_append_fresh {β : Type} {a : List (Nat × β)} {i : Nat} {x : β}
    (h : ∀ p ∈ a, p.1 ≠ i) : nlookup (a ++ [(i, x)]) i = some x := by
  induction a with
  | nil => simp [nlookup]
  | cons y t ih =>
    rcases y with ⟨k, v⟩
    show (if k = i then some v else nlookup (t ++ [(i, x)]) i) = some x
    rw [if_neg (h (k, v) (List.mem_cons_self _ _))]
    exact ih (fun p hp => h p (List.mem_cons_of_mem _ hp))

theorem updateNode_m_Edges {NA EA : Type} (g : Graph NA EA) (nid : Nat)
    (f : GraphNode NA → GraphNode NA) : (g.updateNode nid f).m_Edges = g.m_Edges := by
  unfold Graph.updateNode
  split <;> rfl

theorem updateNode_edgeArena {NA EA : Type} (g : Graph NA EA) (nid : Nat)
    (f : GraphNode NA → GraphNode NA) : (g.updateNode nid f).edgeArena = g.edgeArena := by
  unfold Graph.updateNode
  split <;> rfl

theorem updateNode_lookup_self {NA EA : Type} (g : Graph NA EA) (nid : Nat)
    (f : GraphNode NA → GraphNode NA) {nd : GraphNode NA}
    (h : nlookup g.nodeArena nid = some nd) :
    nlookup (g.updateNode nid f).nodeArena nid = some (f nd) := by
  unfold Graph.updateNode
  rw [h]
  exact nlookup_nset_self (by rw [h]; rfl)

theorem updateNode_lookup_other {NA EA : Type} (g : Graph NA EA) (nid : Nat)
    (f : GraphNode NA → GraphNode NA) {j : Nat} (h : j ≠ nid) :
    nlookup (g.updateNode nid f).nodeArena j = nlookup g.nodeArena j := by
  unfold Graph.updateNode
  split
  · rfl
  · exact nlookup_nset_other h

/-- C9: `Graph::addEdge` with an already-present edge name raises no error;
the edge map keeps its old binding for that name, yet a fresh edge object is
created and appended to the source's out-edge list and the target's in-edge
list, so an incidence-list entry exists that is not reachable through the
edge map by name. -/
theorem c9_addEdge_duplicate_name {NA EA : Type} (g : Graph NA EA) (n : String)
    (oldId s t : Nat) (d : EA)
    (hdup : alookup g.m_Edges n = some oldId)
    (hvals : ∀ p ∈ g.m_Edges, p.2 < g.nextId)
    (harena : ∀ p ∈ g.edgeArena, p.1 < g.nextId) :
    (g.addEdge n s t d).1.m_Edges = g.m_Edges ∧
    alookup (g.addEdge n s t d).1.m_Edges n = some oldId ∧
    nlookup (g.addEdge n s t d).1.edgeArena g.nextId
      = some { m_Name := n, m_Source := some s, m_Target := some t, attr := d } ∧
    (∀ nds, nlookup g.nodeArena s = some nds →
        ∃ nd', nlookup (g.addEdge n s t d).1.nodeArena s = some nd' ∧
          g.nextId ∈ nd'.m_OutEdges) ∧
    (∀ ndt, nlookup g.nodeArena t = some ndt →
        ∃ nd', nlookup (g.addEdge n s t d).1.nodeArena t = some nd' ∧
          g.nextId ∈ nd'.m_InEdges) ∧
    (∀ p ∈ (g.addEdge n s t d).1.m_Edges, p.2 ≠ g.nextId) := by
  have hmap : (g.addEdge n s t d).1.m_Edges = g.m_Edges := by
    unfold Graph.addEdge
    rw [updateNode_m_Edges, updateNode_m_Edges]
    exact ainsert_existing _ hdup
  have hare : (g.addEdge n s t d).1.edgeArena
      = g.edgeArena ++ [(g.nextId,
          { m_Name := n, m_Source := some s, m_Target := some t, attr := d })] := by
    unfold Graph.addEdge
    rw [updateNode_edgeArena, updateNode_edgeArena]
  refine ⟨hmap, by rw [hmap]; exact hdup, ?_, ?_, ?_, ?_⟩
  · rw [hare]
    exact nlookup_append_fresh (fun p hp => by have := harena p hp; omega)
  · intro nds hs
    unfold Graph.addEdge
    by_cases hts : t = s
    · subst hts
      refine ⟨_, updateNode_lookup_self _ _ _ (updateNode_lookup_self _ _ _ hs), ?_⟩
      simp
    · exact ⟨_,
        by rw [updateNode_lookup_other _ _ _ (fun h => hts h.symm)]
           exact updateNode_lookup_self _ _ _ hs,
        by simp⟩
  · intro ndt ht
    unfold Graph.addEdge
    by_cases hts : t = s
    · subst hts
      refine ⟨_, updateNode_lookup_self _ _ _ (updateNode_lookup_self _ _ _ ht), ?_⟩
      simp
    · exact ⟨_,
        updateNode_lookup_self _ _ _
          (by rw [updateNode_lookup_other _ _ _ hts]; exact ht),
        by simp⟩
  · intro p hp
    rw [hmap] at hp
    have := hvals p hp
    omega

/-- Witness for `c9_addEdge_duplicate_name`: a two-node graph already
containing an edge named "e"; adding a second edge "e" keeps the map binding
to edge 2, while edge 3 appears only in the incidence lists. -/
theorem c9_addEdge_duplicate_name_witness :
    let g : Graph Unit Unit :=
      { nextId := 3
        nodeArena := [(0, { m_Name := "A", m_OutEdges := [2], attr := () }),
                      (1, { m_Name := "B", m_InEdges := [2], attr := () })]
        edgeArena := [(2, { m_Name := "e", m_Source := some 0, m_Target := some 1,
                            attr := () })]
        m_Nodes := [("A", 0), ("B", 1)]
        m_Edges := [("e", 2)] }
    alookup (g.addEdge "e" 0 1 ()).1.m_Edges "e" = some 2 ∧
    (∃ nd', nlookup (g.addEdge "e" 0 1 ()).1.nodeArena 0 = some nd' ∧
      3 ∈ nd'.m_OutEdges) ∧
    (∀ p ∈ (g.addEdge "e" 0 1 ()).1.m_Edges, p.2 ≠ 3) := by
  intro g
  have h := c9_addEdge_duplicate_name g "e" 2 0 1 ()
    (by decide)
    (by intro p hp; simp only [List.mem_singleton] at hp; subst hp; decide)
    (by intro p hp; simp only [List.mem_singleton] at hp; subst hp; decide)
  exact ⟨h.2.1,
    h.2.2.2.1 { m_Name := "A", m_InEdges := [], m_OutEdges := [2], attr := () } (by decide),
    h.2.2.2.2.2⟩

/-! ## Key-value attributes (src/utGraph/KeyValueAttributes.{h,cpp}) -/

/-- `KeyValueAttributes`: a map from attribute name to `AttributeValue`. -/
abbrev KVAttrs := List (String × AttributeValue)

namespace KVAttrs

/-- `KeyValueAttributes::hasAttribute`. -/
def hasAttribute (m : KVAttrs) (k : String) : Bool := (alookup m k).isSome

/-- `KeyValueAttributes::getAttribute` (throws for unknown keys). -/
def getAttribute (m : KVAttrs) (k : String) : Except String AttributeValue :=
  match alookup m k with
  | none => .error "Unknown key in get attribute"
  | some v => .ok v

/-- `KeyValueAttributes::setAttribute` / `operator[]=`. -/
def setAttribute (m : KVAttrs) (k : String) (v : AttributeValue) : KVAttrs := aset m k v

/-- `KeyValueAttributes::mergeAttributes`: sets every attribute of `src` in
`dst` (last write wins per key). -/
def mergeAttributes (dst src : KVAttrs) : KVAttrs :=
  src.foldl (fun d p => aset d p.1 p.2) dst

/-- `KeyValueAttributes::getAttributeString`: the text of the attribute, or
the empty string when absent. -/
def getAttributeString (m : KVAttrs) (k : String) : String :=
  match alookup m k with
  | none => ""
  | some v => v.getText

end KVAttrs

/-! ## Attribute expressions and predicates
(src/utGraph/AttributeExpression.{h,cpp}, src/utGraph/Predicate.{h,cpp})

The embedded expression fragment covers constants and unqualified attribute
references — the forms that occur in node and edge predicates, which is all
the checked claims exercise.  Arithmetic operators and the numeric built-in
functions (`syncError`, `steadyState`) evaluate measurement statistics that
none of the claims depend on and are outside the embedding. -/

/-- The node/edge-local evaluation context: the attribute map of one node or
edge (the provenance set only feeds the global-context functions, which are
not part of the embedded fragment). -/
structure EvaluationContext where
  attrs : KVAttrs
deriving DecidableEq, Repr

/-- `AttributeExpressionConstant` and `AttributeExpressionAttribute` (the
latter with its `m_nodeEdge` qualifier, empty when the reference was not
qualified). -/
inductive AttributeExpression
  | const (v : AttributeValue)
  | attrRef (nodeEdge : String) (name : String)
deriving DecidableEq, Repr

/-- `AttributeExpression::evaluate` on a local context: a constant returns
its value; an attribute reference returns the context's attribute when
present and the empty `AttributeValue()` otherwise (the local branch ignores
the qualifier). -/
def AttributeExpression.evaluate : AttributeExpression → EvaluationContext → AttributeValue
  | .const v, _ => v
  | .attrRef _ n, c =>
    match alookup c.attrs n with
    | some v => v
    | none => AttributeValue.fromText ""

/-- `AttributeExpression::evaluate` on the global (whole-matching) context:
the qualifier selects the input node or edge; an unresolvable qualifier or
a missing attribute yields the empty `AttributeValue()`. -/
def AttributeExpression.evaluateGlobal :
    AttributeExpression → List (String × KVAttrs) → AttributeValue
  | .const v, _ => v
  | .attrRef q n, allInput =>
    match alookup allInput q with
    | none => AttributeValue.fromText ""
    | some attrs =>
      match alookup attrs n with
      | some v => v
      | none => AttributeValue.fromText ""

/-- The predicate tree: `PredicateNot`, `PredicateAnd`, `PredicateOr`,
`PredicateCompare` (the global-context `PredicateFunction inSourceSet` is
outside the embedded fragment). -/
inductive Predicate
  | pnot (p : Predicate)
  | pand (p q : Predicate)
  | por (p q : Predicate)
  | pcompare (t : CompareType) (lhs rhs : AttributeExpression)
deriving DecidableEq, Repr

/-- `Predicate::evaluate`; comparison failures (`getNumber` throws) escape
to the caller, which treats them as "does not match". -/
def Predicate.evaluate : Predicate → EvaluationContext → Except String Bool
  | .pnot p, c => do pure (!(← p.evaluate c))
  | .pand p q, c => do
    if (← p.evaluate c) then q.evaluate c else pure false
  | .por p q, c => do
    if (← p.evaluate c) then pure true else q.evaluate c
  | .pcompare t l r, c => doCompare t (l.evaluate c) (r.evaluate c)

/-- `Predicate::getConjunctiveEqualities`: the `(attribute, literal)` pairs
implied by top-level equality conjuncts of the form `attr == constant`. -/
def Predicate.getConjunctiveEqualities : Predicate → List (String × String)
  | .pand p q => p.getConjunctiveEqualities ++ q.getConjunctiveEqualities
  | .pcompare .equals (.attrRef _ n) (.const v) => [(n, v.getText)]
  | _ => []

/-! ## UTQL subgraphs (src/utGraph/UTQLSubgraph.h, src/utGraph/InOutAttribute.h,
src/utGraph/PatternAttributes.h) -/

/-- `InOutAttribute::Tag`. -/
inductive InOutTag
  | Input
  | Output
deriving DecidableEq, Repr

/-- `UTQLNode`: in/out tag, attributes, predicates, attribute expressions
and the qualified (global) name. -/
structure UTQLNode where
  m_Tag : InOutTag
  attrs : KVAttrs := []
  m_predicateList : List Predicate := []
  m_attributeExpressions : List (String × AttributeExpression) := []
  m_InformationSources : List String := []
  m_QualifiedName : String := ""
deriving DecidableEq, Repr

/-- `UTQLEdge`: in/out tag, attributes, predicates, attribute expressions
and the edge reference `(subgraph id, local edge name)` of instantiated
inputs. -/
structure UTQLEdge where
  m_Tag : InOutTag
  attrs : KVAttrs := []
  m_predicateList : List Predicate := []
  m_attributeExpressions : List (String × AttributeExpression) := []
  m_InformationSources : List String := []
  m_EdgeReference : Option (String × String) := none
deriving DecidableEq, Repr

/-- `UTQLSubgraph : Graph< UTQLNode, UTQLEdge >` plus its id, name and the
opaque dataflow configuration. -/
structure UTQLSubgraph where
  graph : Graph UTQLNode UTQLEdge := {}
  m_ID : String := ""
  m_Name : String := ""
  m_DataflowConfiguration : AttributeValue := AttributeValue.fromText ""
deriving DecidableEq, Repr

/-- `InOutAttribute::isInput`. -/
def UTQLNode.isInput (n : UTQLNode) : Bool := n.m_Tag = InOutTag.Input

/-- `InOutAttribute::isOutput`. -/
def UTQLNode.isOutput (n : UTQLNode) : Bool := n.m_Tag = InOutTag.Output

/-- `InOutAttribute::isInput`. -/
def UTQLEdge.isInput (e : UTQLEdge) : Bool := e.m_Tag = InOutTag.Input

/-- `InOutAttribute::isOutput`. -/
def UTQLEdge.isOutput (e : UTQLEdge) : Bool := e.m_Tag = InOutTag.Output

/-! ## SRG store (src/utGraph/SRGraph.h) -/

/-- `SRGNodeAttributes`: attributes, the set of spawning subgraph ids and
the set of references to merged pattern nodes (identified here by
`(subgraph id, node name)`). -/
structure SRGNodeAttributes where
  attrs : KVAttrs := []
  m_SubgraphIDs : List String := []
  m_NodeRefs : List (String × String) := []
deriving DecidableEq, Repr

/-- `SRGEdgeAttributes`: attributes, producing subgraph id, pattern name,
local name, information sources and dependent subgraph ids. -/
structure SRGEdgeAttributes where
  attrs : KVAttrs := []
  m_SubgraphID : String
  m_PatternName : String := ""
  m_LocalName : String
  m_InformationSources : List String := []
  m_DependantSubgraphIDs : List String := []
deriving DecidableEq, Repr

/-- `SRGraph : Graph< SRGNodeAttributes, SRGEdgeAttributes >` with the
parallel id-keyed node map `m_NodeIDMap`. -/
structure SRGraph where
  graph : Graph SRGNodeAttributes SRGEdgeAttributes := {}
  m_NodeIDMap : List (String × Nat) := []
deriving DecidableEq, Repr

namespace SRGraph

/-- `SRGraph::hasNode` (consults `m_NodeIDMap`). -/
def hasNode (srg : SRGraph) (id : String) : Bool := (alookup srg.m_NodeIDMap id).isSome

/-- `SRGraph::getNode` (throws for unregistered ids). -/
def getNode (srg : SRGraph) (id : String) : Except String Nat :=
  match alookup srg.m_NodeIDMap id with
  | none => .error "Trying to get node for unregistered id"
  | some nid => .ok nid

end SRGraph

/-- Insertion of a string into a `std::set< std::string >`. -/
def insertS (l : List String) (x : String) : List String :=
  if x ∈ l then l else l ++ [x]

/-! ## Edge matchings (src/utGraph/EdgeMatching.h)

Pattern nodes and edges are identified by their arena index in the pattern
subgraph, SRG nodes and edges by their arena index in the world SRG (both
stand in for the C++ shared pointers that key the `std::map`s). -/

/-- `EdgeMatching< UTQLSubgraph, SRGraph >`. -/
structure EdgeMatching where
  m_edgeForwardMap : List (Nat × Nat) := []
  m_edgeBackwardMap : List (Nat × Nat) := []
  m_vertexForwardMap : List (Nat × (Nat × Nat)) := []
  m_vertexBackwardMap : List (Nat × (Nat × Nat)) := []
  m_expandedEdgeAttributes : List (String × KVAttrs) := []
  m_expandedNodeAttributes : List (String × KVAttrs) := []
  m_allInputAttributes : List (String × KVAttrs) := []
  m_informationSources : List String := []
  m_iSearchPlanStep : Nat := 0
deriving DecidableEq, Repr

namespace EdgeMatching

/-- Update (or default-construct, `operator[]`) a vertex-map entry: store
the correspondence and bump the association count. -/
def vmapBump (m : List (Nat × (Nat × Nat))) (key corr : Nat) : List (Nat × (Nat × Nat)) :=
  match nlookup m key with
  | some (_, c) => nset m key (corr, c + 1)
  | none => m ++ [(key, (corr, 1))]

/-- `EdgeMatching::isPatternEdgeMatched`. -/
def isPatternEdgeMatched (m : EdgeMatching) (e : Nat) : Bool :=
  (nlookup m.m_edgeForwardMap e).isSome

/-- `EdgeMatching::isSrgEdgeMatched`. -/
def isSrgEdgeMatched (m : EdgeMatching) (f : Nat) : Bool :=
  (nlookup m.m_edgeBackwardMap f).isSome

/-- `EdgeMatching::isPatternVertexMatched`. -/
def isPatternVertexMatched (m : EdgeMatching) (u : Nat) : Bool :=
  (nlookup m.m_vertexForwardMap u).isSome

/-- `EdgeMatching::isSrgVertexMatched`. -/
def isSrgVertexMatched (m : EdgeMatching) (v : Nat) : Bool :=
  (nlookup m.m_vertexBackwardMap v).isSome

/-- `EdgeMatching::getCorrespondingSrgVertex`. -/
def getCorrespondingSrgVertex (m : EdgeMatching) (u : Nat) : Option Nat :=
  (nlookup m.m_vertexForwardMap u).map Prod.fst

/-- `EdgeMatching::getCorrespondingSrgEdge`. -/
def getCorrespondingSrgEdge (m : EdgeMatching) (e : Nat) : Option Nat :=
  nlookup m.m_edgeForwardMap e

/-- `EdgeMatching::addMatchedVertex`. -/
def addMatchedVertex (m : EdgeMatching) (u v : Nat) : EdgeMatching :=
  { m with
      m_vertexForwardMap := vmapBump m.m_vertexForwardMap u v
      m_vertexBackwardMap := vmapBump m.m_vertexBackwardMap v u }

/-- `EdgeMatching::addMatchedEdge`: records the edge correspondence and
bumps the vertex correspondences of both endpoint pairs. -/
def addMatchedEdge (m : EdgeMatching) (e f : Nat) (ue ve uf vf : Nat) : EdgeMatching :=
  { m with
      m_edgeForwardMap := m.m_edgeForwardMap ++ [(e, f)]
      m_edgeBackwardMap := m.m_edgeBackwardMap ++ [(f, e)]
      m_vertexForwardMap := vmapBump (vmapBump m.m_vertexForwardMap ue uf) ve vf
      m_vertexBackwardMap := vmapBump (vmapBump m.m_vertexBackwardMap uf ue) vf ve }

end EdgeMatching

/-! ## Pattern and search plan (src/utGraph/Pattern.h) -/

/-- `Pattern::SearchPlanElement`: match a node (with optional required id)
or match an edge. -/
inductive SearchPlanElement
  | node (nodeId : Nat) (sId : String)
  | edge (edgeId : Nat)
deriving DecidableEq, Repr

/-- Internal state of the search-plan construction. -/
structure PlanBuildState where
  plan : List SearchPlanElement := []
  matchedEdges : List String := []
  matchedNodes : List String := []
  nodeStack : List Nat := []
deriving Repr

/-- First pass of the `Pattern` constructor: every input node whose first
predicate implies an `id == constant` equality becomes an id-pinned plan
element; the first input node with any predicate is remembered as the
fallback start. -/
def planIdPass (g : Graph UTQLNode UTQLEdge) : PlanBuildState × Option Nat :=
  g.m_Nodes.foldl
    (fun (acc : PlanBuildState × Option Nat) (p : String × Nat) =>
      match nlookup g.nodeArena p.2 with
      | none => acc
      | some nd =>
        if nd.attr.m_Tag = InOutTag.Input ∧ nd.attr.m_predicateList ≠ [] then
          let (st, pFirst) := acc
          let st' :=
            match nd.attr.m_predicateList.head? with
            | some pr =>
              match (pr.getConjunctiveEqualities.filter (fun a => a.1 = "id")).head? with
              | some a =>
                { st with
                    plan := st.plan ++ [SearchPlanElement.node p.2 a.2]
                    matchedNodes := st.matchedNodes ++ [p.1]
                    nodeStack := p.2 :: st.nodeStack }
              | none => st
            | none => st
          (st', if pFirst.isNone then some p.2 else pFirst)
        else acc)
    ({}, none)

/-- Fallback start of the plan when no id-pinned node exists: the first
input node with predicates, else the endpoints of the first input edge. -/
def planFallback (g : Graph UTQLNode UTQLEdge) (st : PlanBuildState) (pFirst : Option Nat) :
    PlanBuildState :=
  if st.nodeStack ≠ [] then st
  else
    match pFirst with
    | some nid =>
      match nlookup g.nodeArena nid with
      | some nd =>
        { st with
            plan := st.plan ++ [SearchPlanElement.node nid ""]
            matchedNodes := st.matchedNodes ++ [nd.m_Name]
            nodeStack := nid :: st.nodeStack }
      | none => st
    | none =>
      match (g.m_Edges.filter (fun p =>
          match nlookup g.edgeArena p.2 with
          | some ed => decide (ed.attr.m_Tag = InOutTag.Input)
          | none => false)).head? with
      | some (_, eid) =>
        match nlookup g.edgeArena eid with
        | some ed =>
          let st1 :=
            { st with
                plan := st.plan ++ [SearchPlanElement.edge eid]
                matchedEdges := st.matchedEdges ++ [ed.m_Name] }
          let st2 :=
            match ed.m_Source with
            | some srcId =>
              match nlookup g.nodeArena srcId with
              | some snd =>
                { st1 with
                    nodeStack := srcId :: st1.nodeStack
                    matchedNodes := st1.matchedNodes ++ [snd.m_Name] }
              | none => st1
            | none => st1
          match ed.m_Target with
          | some tgtId =>
            match nlookup g.nodeArena tgtId with
            | some tnd =>
              { st2 with
                  nodeStack := tgtId :: st2.nodeStack
                  matchedNodes := st2.matchedNodes ++ [tnd.m_Name] }
            | none => st2
          | none => st2
        | none => st
      | none => st

/-- Process one incident edge during the plan walk: unmatched input edges
are appended to the plan and their far endpoint is scheduled (with its own
plan element when it has predicates to check). -/
def planVisitEdge (g : Graph UTQLNode UTQLEdge) (st : PlanBuildState)
    (eid : Nat) (takeTarget : Bool) : PlanBuildState :=
  match nlookup g.edgeArena eid with
  | none => st
  | some ed =>
    if ed.attr.m_Tag = InOutTag.Input ∧ ed.m_Name ∉ st.matchedEdges then
      let st1 :=
        { st with
            plan := st.plan ++ [SearchPlanElement.edge eid]
            matchedEdges := st.matchedEdges ++ [ed.m_Name] }
      match (if takeTarget then ed.m_Target else ed.m_Source) with
      | none => st1
      | some otherId =>
        match nlookup g.nodeArena otherId with
        | none => st1
        | some ond =>
          if ond.m_Name ∉ st1.matchedNodes then
            let st2 :=
              if ond.attr.m_predicateList ≠ [] then
                { st1 with plan := st1.plan ++ [SearchPlanElement.node otherId ""] }
              else st1
            { st2 with
                matchedNodes := st2.matchedNodes ++ [ond.m_Name]
                nodeStack := otherId :: st2.nodeStack }
          else st1
    else st

/-- The do/while graph walk of the `Pattern` constructor: pop a node,
follow its out-edges (far end: target) then its in-edges (far end:
source); when the stack runs dry, pick the first still-unmatched input node
and continue.  Fuel-bounded (every iteration matches a new node or pops the
stack). -/
def planWalk (g : Graph UTQLNode UTQLEdge) : Nat → PlanBuildState → PlanBuildState
  | 0, st => st
  | fuel + 1, st =>
    match st.nodeStack with
    | [] =>
      -- any unmatched input nodes left? (prefer none: take the first)
      match (g.m_Nodes.filter (fun p =>
          (match nlookup g.nodeArena p.2 with
           | some nd => decide (nd.attr.m_Tag = InOutTag.Input)
           | none => false) && decide (p.1 ∉ st.matchedNodes))).head? with
      | some (nm, nid) =>
        planWalk g fuel
          { st with
              plan := st.plan ++ [SearchPlanElement.node nid ""]
              matchedNodes := st.matchedNodes ++ [nm]
              nodeStack := [nid] }
      | none => st
    | nid :: rest =>
      match nlookup g.nodeArena nid with
      | none => planWalk g fuel { st with nodeStack := rest }
      | some nd =>
        let st1 := nd.m_OutEdges.foldl
          (fun acc eid => planVisitEdge g acc eid true) { st with nodeStack := rest }
        let st2 := nd.m_InEdges.foldl
          (fun acc eid => planVisitEdge g acc eid false) st1
        planWalk g fuel st2

/-- `Pattern`: the parsed subgraph plus the precomputed search plan. -/
structure Pattern where
  m_Name : String
  m_clientId : String
  m_Graph : UTQLSubgraph
  m_searchPlan : List SearchPlanElement
deriving Repr

/-- The `Pattern` constructor: id pass, fallback start, then the graph
walk. -/
def mkPattern (pGraph : UTQLSubgraph) (clientId : String) : Pattern :=
  if pGraph.graph.m_Nodes = [] then
    { m_Name := pGraph.m_Name, m_clientId := clientId, m_Graph := pGraph, m_searchPlan := [] }
  else
    let (st0, pFirst) := planIdPass pGraph.graph
    let st1 := planFallback pGraph.graph st0 pFirst
    let stFinal := planWalk pGraph.graph
      (2 * (pGraph.graph.m_Nodes.length + pGraph.graph.m_Edges.length) + 4) st1
    { m_Name := pGraph.m_Name, m_clientId := clientId, m_Graph := pGraph,
      m_searchPlan := stFinal.plan }

/-! ## Pattern matching (src/utGraph/Pattern.h, `PatternFunc`) -/

/-- `PatternFunc::isVertexCompatible`: every predicate must evaluate to
`true` on the candidate's local context; a thrown evaluation error counts
as "does not match". -/
def isVertexCompatible (patternNode : UTQLNode) (srgAttrs : KVAttrs) : Bool :=
  patternNode.m_predicateList.all fun p => decide (p.evaluate ⟨srgAttrs⟩ = .ok true)

/-- `PatternFunc::isEdgeCompatible`. -/
def isEdgeCompatible (patternEdge : UTQLEdge) (srgAttrs : KVAttrs) : Bool :=
  patternEdge.m_predicateList.all fun p => decide (p.evaluate ⟨srgAttrs⟩ = .ok true)

/-- The attribute map of an SRG node. -/
def srgNodeAttrs (srg : SRGraph) (nid : Nat) : KVAttrs :=
  match nlookup srg.graph.nodeArena nid with
  | some nd => nd.attr.attrs
  | none => []

/-- Result of processing one popped matching in `checkPattern`: either the
search plan is exhausted (a detected match) or a list of refined matchings
to push (in candidate order). -/
inductive StepResult
  | complete (m : EdgeMatching)
  | pushes (l : List EdgeMatching)
deriving Repr

/-- The popped state with its search-plan step advanced
(`state.m_iSearchPlanStep++`). -/
def bumpStep (st : EdgeMatching) : EdgeMatching :=
  { st with m_iSearchPlanStep := st.m_iSearchPlanStep + 1 }

open EdgeMatching in
/-- Processing of a "match edge" plan element on the advanced state. -/
def stepEdge (p : Pattern) (srg : SRGraph) (state : EdgeMatching) (eid : Nat) : StepResult :=
  match nlookup p.m_Graph.graph.edgeArena eid with
  | none => .pushes []
  | some pEdge =>
    match pEdge.m_Source, pEdge.m_Target with
    | some ue, some ve =>
      if state.isPatternVertexMatched ue then
        -- source already matched: iterate the SRG node's out-edges
        match state.getCorrespondingSrgVertex ue with
        | none => .pushes []
        | some startId =>
          match nlookup srg.graph.nodeArena startId with
          | none => .pushes []
          | some startNode =>
            .pushes (startNode.m_OutEdges.foldl (fun acc fid =>
              match nlookup srg.graph.edgeArena fid with
              | none => acc
              | some fEdge =>
                if state.isSrgEdgeMatched fid then acc
                else if state.isPatternVertexMatched ve ∧
                    state.getCorrespondingSrgVertex ve ≠ fEdge.m_Target then acc
                else if ¬ isEdgeCompatible pEdge.attr fEdge.attr.attrs then acc
                else
                  match fEdge.m_Source, fEdge.m_Target with
                  | some uf, some vf => acc ++ [state.addMatchedEdge eid fid ue ve uf vf]
                  | _, _ => acc) [])
      else if state.isPatternVertexMatched ve then
        -- target already matched: iterate the SRG node's in-edges
        match state.getCorrespondingSrgVertex ve with
        | none => .pushes []
        | some startId =>
          match nlookup srg.graph.nodeArena startId with
          | none => .pushes []
          | some startNode =>
            .pushes (startNode.m_InEdges.foldl (fun acc fid =>
              match nlookup srg.graph.edgeArena fid with
              | none => acc
              | some fEdge =>
                if state.isSrgEdgeMatched fid then acc
                else if state.isPatternVertexMatched ue ∧
                    state.getCorrespondingSrgVertex ue ≠ fEdge.m_Source then acc
                else if ¬ isEdgeCompatible pEdge.attr fEdge.attr.attrs then acc
                else
                  match fEdge.m_Source, fEdge.m_Target with
                  | some uf, some vf => acc ++ [state.addMatchedEdge eid fid ue ve uf vf]
                  | _, _ => acc) [])
      else
        -- neither endpoint matched: scan all SRG edges
        .pushes (srg.graph.m_Edges.foldl (fun acc pr =>
          match nlookup srg.graph.edgeArena pr.2 with
          | none => acc
          | some fEdge =>
            if state.isSrgEdgeMatched pr.2 then acc
            else
              match fEdge.m_Source, fEdge.m_Target with
              | some uf, some vf =>
                if state.isSrgVertexMatched uf then acc
                else if state.isSrgVertexMatched vf then acc
                else if ¬ isEdgeCompatible pEdge.attr fEdge.attr.attrs then acc
                else acc ++ [state.addMatchedEdge eid pr.2 ue ve uf vf]
              | _, _ => acc) [])
    | _, _ => .pushes []

open EdgeMatching in
/-- Processing of a "match node" plan element on the advanced state. -/
def stepNode (p : Pattern) (srg : SRGraph) (state : EdgeMatching) (nid : Nat) (sId : String) :
    StepResult :=
  match nlookup p.m_Graph.graph.nodeArena nid with
  | none => .pushes []
  | some pNode =>
    if state.isPatternVertexMatched nid then
      -- already matched via edges: only re-check the predicates
      match state.getCorrespondingSrgVertex nid with
      | none => .pushes []
      | some corrId =>
        if isVertexCompatible pNode.attr (srgNodeAttrs srg corrId) then .pushes [state]
        else .pushes []
    else if sId = "" then
      -- no required id: try all SRG nodes
      .pushes (srg.graph.m_Nodes.foldl (fun acc pr =>
        if state.isSrgVertexMatched pr.2 then acc
        else if ¬ isVertexCompatible pNode.attr (srgNodeAttrs srg pr.2) then acc
        else acc ++ [state.addMatchedVertex nid pr.2]) [])
    else
      -- required id: direct lookup, no predicate check
      if srg.hasNode sId then
        match alookup srg.m_NodeIDMap sId with
        | some srgNid => .pushes [state.addMatchedVertex nid srgNid]
        | none => .pushes []
      else .pushes []

/-- One iteration of the `PatternFunc::checkPattern` stack loop: pop a
state, advance its search-plan step and process the plan element. -/
def checkPatternStep (p : Pattern) (srg : SRGraph) (state0 : EdgeMatching) : StepResult :=
  match p.m_searchPlan[state0.m_iSearchPlanStep]? with
  | none => .complete (bumpStep state0)
  | some (.edge eid) => stepEdge p srg (bumpStep state0) eid
  | some (.node nid sId) => stepNode p srg (bumpStep state0) nid sId

/-- The stack loop of `PatternFunc::checkPattern`, fuel-bounded; pushed
candidates go on top in reverse candidate order (the last pushed is popped
first).  Returns `none` only on fuel exhaustion. -/
def checkPatternLoop (p : Pattern) (srg : SRGraph) :
    Nat → List EdgeMatching → List EdgeMatching → Option (List EdgeMatching)
  | _, [], acc => some acc
  | 0, _ :: _, _ => none
  | fuel + 1, st :: rest, acc =>
    match checkPatternStep p srg st with
    | .complete m => checkPatternLoop p srg fuel rest (acc ++ [m])
    | .pushes l => checkPatternLoop p srg fuel (l.reverse ++ rest) acc

/-- `PatternFunc::checkPattern`: start from the completely unmatched
pattern. -/
def checkPattern (p : Pattern) (srg : SRGraph) (fuel : Nat) :
    Option (List EdgeMatching) :=
  checkPatternLoop p srg fuel [{}] []

/-! ### Claim C6: node matching with a required id skips the predicates -/

theorem nlookup_append_of_none {β : Type} {m : List (Nat × β)} {k : Nat} {x : β}
    (h : nlookup m k = none) : nlookup (m ++ [(k, x)]) k = some x := by
  induction m with
  | nil => simp [nlookup]
  | cons y t ih =>
    rcases y with ⟨k2, v⟩
    unfold nlookup at h
    show (if k2 = k then some v else nlookup (t ++ [(k, x)]) k) = some x
    split at h
    · cases h
    · rename_i hne
      rw [if_neg hne]
      exact ih h

/-- C6 (amended): for a search-plan step that matches a node `N` carrying a
required id `S`, when `N` is not yet bound via edges and the SRG contains a
node with id `S`, the partial matching is extended with that node
*unconditionally*: `N`'s predicates are not evaluated on the candidate (the
`isVertexCompatible` check appears only on the already-bound and the
scan-all paths).  No compatibility hypothesis occurs below: the extension
happens even when predicates of `N` fail on the found node. -/
theorem c6_required_id_no_predicate_check (p : Pattern) (srg : SRGraph)
    (st : EdgeMatching) (nid : Nat) (sId : String)
    (hstep : p.m_searchPlan[st.m_iSearchPlanStep]? = some (.node nid sId))
    (hsid : sId ≠ "")
    (pNode : GraphNode UTQLNode)
    (hnode : nlookup p.m_Graph.graph.nodeArena nid = some pNode)
    (hunmatched : st.isPatternVertexMatched nid = false)
    (srgNid : Nat) (hfound : alookup srg.m_NodeIDMap sId = some srgNid) :
    checkPatternStep p srg st
      = .pushes [EdgeMatching.addMatchedVertex (bumpStep st) nid srgNid] ∧
    (EdgeMatching.addMatchedVertex (bumpStep st) nid srgNid
      ).getCorrespondingSrgVertex nid = some srgNid := by
  constructor
  · have h0 : checkPatternStep p srg st = stepNode p srg (bumpStep st) nid sId := by
      unfold checkPatternStep
      rw [hstep]
    rw [h0]
    unfold stepNode
    split
    · rename_i heq
      rw [hnode] at heq
      cases heq
    · rename_i pNode2 heq
      have hum : (bumpStep st).isPatternVertexMatched nid = false := hunmatched
      rw [hum]
      have hhas : srg.hasNode sId = true := by
        unfold SRGraph.hasNode
        rw [hfound]
        rfl
      simp only [Bool.false_eq_true, if_false, if_neg hsid, hhas, if_true]
      rw [hfound]
  · unfold EdgeMatching.getCorrespondingSrgVertex EdgeMatching.addMatchedVertex
      EdgeMatching.vmapBump
    have hnone : nlookup st.m_vertexForwardMap nid = none := by
      unfold EdgeMatching.isPatternVertexMatched at hunmatched
      rcases h : nlookup st.m_vertexForwardMap nid with _ | v
      · rfl
      · rw [h] at hunmatched; cases hunmatched
    have hnone2 : nlookup (bumpStep st).m_vertexForwardMap nid = none := hnone
    simp only [hnone2]
    rw [nlookup_append_of_none hnone2]
    rfl

/-- The pattern of the C6 counterexample: a single input node `X` whose one
predicate is the conjunction `id == "A" && foo == "bar"`; the search-plan
builder turns the `id` equality into a required id. -/
def c6predX : Predicate :=
  .pand (.pcompare .equals (.attrRef "" "id") (.const (AttributeValue.fromText "A")))
        (.pcompare .equals (.attrRef "" "foo") (.const (AttributeValue.fromText "bar")))

/-- The pattern node `X` of the C6 counterexample. -/
def c6nodeX : UTQLNode := { m_Tag := .Input, m_predicateList := [c6predX] }

/-- The pattern graph of the C6 counterexample. -/
def c6pg : Graph UTQLNode UTQLEdge :=
  { nextId := 1, nodeArena := [(0, { m_Name := "X", attr := c6nodeX })], m_Nodes := [("X", 0)] }

/-- The C6 counterexample pattern. -/
def c6pat : Pattern := mkPattern { graph := c6pg, m_Name := "q" } "client"

/-- The SRG of the C6 counterexample: one node with id "A" and no `foo`
attribute. -/
def c6srgNodeA : SRGNodeAttributes :=
  { attrs := [("id", AttributeValue.fromText "A")], m_SubgraphIDs := ["base"] }

/-- The SRG graph store of the C6 counterexample. -/
def c6srg : SRGraph :=
  { graph := { nextId := 1,
               nodeArena := [(0, { m_Name := "A", attr := c6srgNodeA })],
               m_Nodes := [("A", 0)] },
    m_NodeIDMap := [("A", 0)] }

/-- C6 counterexample: the pattern's node `X` carries the required id "A"
and the additional predicate `foo == "bar"`; the SRG node "A" has no `foo`
attribute, so `X`'s predicates evaluate to `false` on it — yet
`checkPattern` returns a completed matching that binds `X` to that node,
because the required-id branch never evaluates the predicates. -/
theorem c6_counterexample :
    c6pat.m_searchPlan = [.node 0 "A"] ∧
    checkPattern c6pat c6srg 10
      = some [{ m_vertexForwardMap := [(0, (0, 1))],
                m_vertexBackwardMap := [(0, (0, 1))],
                m_iSearchPlanStep := 2 }] ∧
    isVertexCompatible c6nodeX (srgNodeAttrs c6srg 0) = false := by
  refine ⟨by decide, by decide, by decide⟩

/-- Witness for `c6_required_id_no_predicate_check` at the counterexample
instance. -/
theorem c6_required_id_no_predicate_check_witness :
    checkPatternStep c6pat c6srg {}
      = .pushes [EdgeMatching.addMatchedVertex (bumpStep {}) 0 0] ∧
    (EdgeMatching.addMatchedVertex (bumpStep {}) 0 0
      ).getCorrespondingSrgVertex 0 = some 0 := by
  have h := c6_required_id_no_predicate_check c6pat c6srg {} 0 "A"
    (by decide) (by decide) { m_Name := "X", attr := c6nodeX }
    (by decide) (by decide) 0 (by decide)
  exact ⟨h.1, h.2⟩

/-! ## SRG manager (src/utGraph/UTQLSRGManager.h)

The manager holds the world SRG, the repository of instantiated subgraphs
and the running id counter for pattern applications.  The configured
stage-1 strictness is `ERQ_DISJOINT_INFORMATION_SOURCES` and
`ALLOW_WORSE_EDGES` is defined, exactly as in the source. -/

/-- Direction entries of the known-attribute table. -/
inductive AttrDirection
  | biggerIsBetter
  | smallerIsBetter
deriving DecidableEq, Repr

/-- The seeded `m_knownAttributes` table of the `UTQLSRGManager`
constructor. -/
def knownAttributes : List (String × AttrDirection) :=
  [("latency", .smallerIsBetter), ("gaussT", .smallerIsBetter),
   ("gaussR", .smallerIsBetter), ("staticT", .smallerIsBetter),
   ("staticR", .smallerIsBetter), ("updateTime", .smallerIsBetter),
   ("availability", .biggerIsBetter)]

/-- `UTQLSRGManager::InstantiatedPattern`: a subgraph plus its client id. -/
structure InstantiatedPattern where
  graph : UTQLSubgraph
  m_clientId : String
deriving DecidableEq, Repr

/-- The state of the `UTQLSRGManager` that the claims concern (pattern and
query repositories live outside the checked operations). -/
structure SRGManager where
  m_GlobalSrg : SRGraph := {}
  m_GraphRepository : List (String × InstantiatedPattern) := []
  patternApplicationID : Nat := 2000
deriving DecidableEq, Repr

/-- Do two SRG edges share an information source? -/
def sharesInformationSource (srg : SRGraph) (f1 f2 : Nat) : Bool :=
  match nlookup srg.graph.edgeArena f1, nlookup srg.graph.edgeArena f2 with
  | some e1, some e2 =>
    e1.attr.m_InformationSources.any (fun src => src ∈ e2.attr.m_InformationSources)
  | _, _ => false

/-- `UTQLSRGManager::decidePattern1` under the configured
`ERQ_DISJOINT_INFORMATION_SOURCES` strictness: a matching with more than one
matched input edge is rejected as soon as two distinct matched edges share
an information source. -/
def decidePattern1 (srg : SRGraph) (m : EdgeMatching) : Bool :=
  if 1 < m.m_edgeForwardMap.length then
    !(m.m_edgeForwardMap.any fun a =>
        m.m_edgeForwardMap.any fun b =>
          decide (a.1 ≠ b.1) && sharesInformationSource srg a.2 b.2)
  else true

/-- Body of the first loop of `expandMatchingAttributes`: an input edge
unions its matched SRG edge's information sources into the matching and
records its attribute map under the pattern edge's name. -/
def expandInputEdgeStep (p : Pattern) (srg : SRGraph) (m : EdgeMatching)
    (pr : String × Nat) : Except String EdgeMatching := do
  match nlookup p.m_Graph.graph.edgeArena pr.2 with
  | none => throw "dangling pattern edge"
  | some pe =>
    if pe.attr.isInput then
      match m.getCorrespondingSrgEdge pr.2 with
      | none => throw "Edge not matched in getCorrespondingSrgEdge: "
      | some fid =>
        match nlookup srg.graph.edgeArena fid with
        | none => throw "dangling srg edge"
        | some fe =>
          pure { m with
              m_informationSources :=
                fe.attr.m_InformationSources.foldl insertS m.m_informationSources
              m_allInputAttributes :=
                aset m.m_allInputAttributes pe.m_Name fe.attr.attrs }
    else pure m

/-- Body of the second loop of `expandMatchingAttributes`: an input node
records its matched SRG node's attribute map. -/
def expandInputNodeStep (p : Pattern) (srg : SRGraph) (m : EdgeMatching)
    (pr : String × Nat) : Except String EdgeMatching := do
  match nlookup p.m_Graph.graph.nodeArena pr.2 with
  | none => throw "dangling pattern node"
  | some pn =>
    if pn.attr.isInput then
      match m.getCorrespondingSrgVertex pr.2 with
      | none => throw "Vertex not matched in getCorrespondingSrgVertex"
      | some fid =>
        match nlookup srg.graph.nodeArena fid with
        | none => throw "dangling srg node"
        | some fn =>
          pure { m with
              m_allInputAttributes := aset m.m_allInputAttributes pn.m_Name fn.attr.attrs }
    else pure m

/-- Body of the third loop of `expandMatchingAttributes`: an output edge's
attribute expressions are evaluated on the collected input context. -/
def expandOutputEdgeStep (p : Pattern) (m : EdgeMatching)
    (pr : String × Nat) : Except String EdgeMatching := do
  match nlookup p.m_Graph.graph.edgeArena pr.2 with
  | none => throw "dangling pattern edge"
  | some pe =>
    if pe.attr.isOutput then
      let newAttributes := pe.attr.m_attributeExpressions.foldl
        (fun (acc : KVAttrs) ex =>
          aset acc ex.1 (ex.2.evaluateGlobal m.m_allInputAttributes))
        pe.attr.attrs
      pure { m with
          m_expandedEdgeAttributes := aset m.m_expandedEdgeAttributes pe.m_Name newAttributes }
    else pure m

/-- Body of the fourth loop of `expandMatchingAttributes`: an output node's
attribute expressions are evaluated on the collected input context. -/
def expandOutputNodeStep (p : Pattern) (m : EdgeMatching)
    (pr : String × Nat) : Except String EdgeMatching := do
  match nlookup p.m_Graph.graph.nodeArena pr.2 with
  | none => throw "dangling pattern node"
  | some pn =>
    if pn.attr.isOutput then
      let newAttributes := pn.attr.m_attributeExpressions.foldl
        (fun (acc : KVAttrs) ex =>
          aset acc ex.1 (ex.2.evaluateGlobal m.m_allInputAttributes))
        pn.attr.attrs
      pure { m with
          m_expandedNodeAttributes := aset m.m_expandedNodeAttributes pn.m_Name newAttributes }
    else pure m

/-- `UTQLSRGManager::expandMatchingAttributes`: clear the matching's derived
data, collect the union of the matched input edges' information sources and
the input attribute maps, then evaluate the output attribute expressions on
the global context. -/
def expandMatchingAttributes (p : Pattern) (srg : SRGraph) (m0 : EdgeMatching) :
    Except String EdgeMatching := do
  let mInit : EdgeMatching :=
    { m0 with
        m_informationSources := []
        m_expandedNodeAttributes := []
        m_expandedEdgeAttributes := [] }
  -- run over all input edges in the pattern
  let m1 ← p.m_Graph.graph.m_Edges.foldlM (expandInputEdgeStep p srg) mInit
  -- run over all input nodes in the pattern
  let m2 ← p.m_Graph.graph.m_Nodes.foldlM (expandInputNodeStep p srg) m1
  -- evaluate attribute expressions on all output edges
  let m3 ← p.m_Graph.graph.m_Edges.foldlM (expandOutputEdgeStep p) m2
  -- evaluate attribute expressions on all output nodes
  p.m_Graph.graph.m_Nodes.foldlM (expandOutputNodeStep p) m3

/-- `UTQLSRGManager::instanciatePattern`: clone the pattern into a fully
qualified subgraph.  The result is the instance plus the mutated pattern
and matching (the source `swap`s the expanded attribute maps with the
pattern's output-node attributes and the instance's output-edge
attributes). -/
def instNodeStep (srg : SRGraph)
    (acc : UTQLSubgraph × Graph UTQLNode UTQLEdge × EdgeMatching) (pr : String × Nat) :
    Except String (UTQLSubgraph × Graph UTQLNode UTQLEdge × EdgeMatching) := do
  let (sg, pg, m) := acc
  match nlookup pg.nodeArena pr.2 with
  | none => throw "dangling pattern node"
  | some pn =>
    match m.getCorrespondingSrgVertex pr.2 with
    | none => throw "Vertex not matched in getCorrespondingSrgVertex"
    | some srgNid =>
      match nlookup srg.graph.nodeArena srgNid with
      | none => throw "dangling srg node"
      | some srgNode =>
        let matchedID := srgNode.m_Name
        let utqlNodeAttr : UTQLNode :=
          { pn.attr with
              attrs := KVAttrs.mergeAttributes pn.attr.attrs srgNode.attr.attrs
              m_QualifiedName := matchedID
              m_predicateList := [] }
        match sg.graph.addNode pn.m_Name utqlNodeAttr with
        | .error e => throw e
        | .ok (g2, _) =>
          -- output nodes: swap the pattern node's attributes with the
          -- expanded map entry
          if pn.attr.isOutput then
            let expanded :=
              match alookup m.m_expandedNodeAttributes pn.m_Name with
              | some a => a
              | none => []
            let pg' := pg.updateNode pr.2
              (fun nd => { nd with attr := { nd.attr with attrs := expanded } })
            let m' : EdgeMatching :=
              { m with
                  m_expandedNodeAttributes :=
                    aset m.m_expandedNodeAttributes pn.m_Name pn.attr.attrs }
            pure ({ sg with graph := g2 }, pg', m')
          else
            pure ({ sg with graph := g2 }, pg, m)

def instEdgeStep (srg : SRGraph) (pg1 : Graph UTQLNode UTQLEdge)
    (acc : UTQLSubgraph × EdgeMatching) (pr : String × Nat) :
    Except String (UTQLSubgraph × EdgeMatching) := do
  let (sg, m) := acc
  match nlookup pg1.edgeArena pr.2 with
  | none => throw "dangling pattern edge"
  | some pe =>
    match pe.m_Source, pe.m_Target with
    | some srcPid, some tgtPid =>
      match nlookup pg1.nodeArena srcPid, nlookup pg1.nodeArena tgtPid with
      | some srcNode, some tgtNode =>
        match alookup sg.graph.m_Nodes srcNode.m_Name,
            alookup sg.graph.m_Nodes tgtNode.m_Name with
        | some src, some tgt =>
          if pe.attr.isInput then do
            match m.getCorrespondingSrgEdge pr.2 with
            | none => throw "Edge not matched in getCorrespondingSrgEdge: "
            | some fid =>
              match nlookup srg.graph.edgeArena fid with
              | none => throw "dangling srg edge"
              | some fe =>
                let utqlEdgeAttr : UTQLEdge :=
                  { m_Tag := .Input
                    attrs := KVAttrs.mergeAttributes [] fe.attr.attrs
                    m_EdgeReference := some (fe.attr.m_SubgraphID, fe.attr.m_LocalName) }
                let (g2, _) := sg.graph.addEdge pe.m_Name src tgt utqlEdgeAttr
                pure ({ sg with graph := g2 }, m)
          else if pe.attr.isOutput then do
            let expanded :=
              match alookup m.m_expandedEdgeAttributes pe.m_Name with
              | some a => a
              | none => []
            let utqlEdgeAttr : UTQLEdge :=
              { m_Tag := .Output
                attrs := expanded
                m_InformationSources := m.m_informationSources }
            let (g2, _) := sg.graph.addEdge pe.m_Name src tgt utqlEdgeAttr
            let m' : EdgeMatching :=
              { m with
                  m_expandedEdgeAttributes :=
                    aset m.m_expandedEdgeAttributes pe.m_Name [] }
            pure ({ sg with graph := g2 }, m')
          else pure (sg, m)
        | _, _ => throw "instance node not found"
      | _, _ => throw "dangling pattern endpoint"
    | _, _ => throw "pattern edge without endpoints"

def instanciatePattern (p : Pattern) (srg : SRGraph) (m : EdgeMatching) :
    Except String (UTQLSubgraph × Pattern × EdgeMatching) := do
  let subgraph0 : UTQLSubgraph :=
    { m_Name := p.m_Name
      m_DataflowConfiguration := p.m_Graph.m_DataflowConfiguration }
  -- run over all nodes in the pattern
  let (subgraph1, pg1, m1) ← p.m_Graph.graph.m_Nodes.foldlM (instNodeStep srg)
    (subgraph0, p.m_Graph.graph, m)
  -- now run over all edges in the pattern
  let (subgraph2, m2) ← pg1.m_Edges.foldlM (instEdgeStep srg pg1) (subgraph1, m1)
  pure (subgraph2, { p with m_Graph := { p.m_Graph with graph := pg1 } }, m2)

/-- Set equality of two modelled `std::set< std::string >`. -/
def setEqS (a b : List String) : Bool :=
  a.all (fun x => x ∈ b) && b.all (fun x => x ∈ a)

/-- `UTQLSRGManager::subgraphDependsOnSubgraph`, fuel-bounded recursion
through the input edge references of the repository (acyclic in every
reachable configuration). -/
def subgraphDependsOnSubgraph (repo : List (String × InstantiatedPattern)) :
    Nat → String → String → Bool
  | 0, _, _ => false
  | fuel + 1, edgeSubgraphId, subgraphId =>
    if edgeSubgraphId = subgraphId then true
    else
      match alookup repo edgeSubgraphId with
      | none => false
      | some ip =>
        ip.graph.graph.m_Edges.any (fun pr =>
          match nlookup ip.graph.graph.edgeArena pr.2 with
          | some ed =>
            ed.attr.isInput &&
              (match ed.attr.m_EdgeReference with
               | some (gid, _) => subgraphDependsOnSubgraph repo fuel gid subgraphId
               | none => subgraphDependsOnSubgraph repo fuel "" subgraphId)
          | none => false)

/-- The value `0.1` used by the known-attribute improvement threshold. -/
def decTenth : Dec := ⟨1, -1⟩

/-- One step of the known/fixed attribute comparison loop of
`decidePattern2`, over one expanded attribute.  Returns
`(bFixedAttributesEqual, bBetterKnownAttributes, bAllKnownAttributesBetter,
loop-broken)`. -/
def dp2AttrStep (patternEdge : UTQLEdge) (srgAttrs : KVAttrs)
    (k : String) (v : AttributeValue) (st : Bool × Bool × Bool) :
    (Bool × Bool × Bool) × Bool :=
  let (fixedEq, better, allBetter) := st
  let otherAttr := alookup srgAttrs k
  -- fixed (non-expression) attribute: differing value breaks the loop
  if patternEdge.attrs.hasAttribute k &&
      (match otherAttr with
       | none => true
       | some ov => ! AttributeValue.attrEq ov v) then
    ((false, better, allBetter), true)
  else
    match alookup knownAttributes k with
    | none => ((fixedEq, better, allBetter), false)
    | some dir =>
      match otherAttr with
      | none => ((fixedEq, true, allBetter), false)
      | some ov =>
        match v.getNumber, ov.getNumber with
        | .ok myNum, .ok otherNum =>
          let hi := Dec.add otherNum (Dec.mul (Dec.dabs otherNum) decTenth)
          let lo := Dec.add otherNum (Dec.mul (Dec.dabs otherNum) ⟨-1, -1⟩)
          (match dir with
           | .biggerIsBetter =>
             if Dec.blt hi myNum then ((fixedEq, true, allBetter), false)
             else if Dec.blt myNum lo then ((fixedEq, better, false), false)
             else ((fixedEq, better, allBetter), false)
           | .smallerIsBetter =>
             if Dec.blt myNum lo then ((fixedEq, true, allBetter), false)
             else if Dec.blt hi myNum then ((fixedEq, better, false), false)
             else ((fixedEq, better, allBetter), false))
        | _, _ => ((fixedEq, better, allBetter), false)

/-- The attribute comparison loop of `decidePattern2` (with early break on
a differing fixed attribute). -/
def dp2AttrLoop (patternEdge : UTQLEdge) (srgAttrs : KVAttrs) :
    List (String × AttributeValue) → (Bool × Bool × Bool) → Bool × Bool × Bool
  | [], st => st
  | (k, v) :: rest, st =>
    let (st', broke) := dp2AttrStep patternEdge srgAttrs k v st
    if broke then st' else dp2AttrLoop patternEdge srgAttrs rest st'

/-- The out-edge comparison loop of `decidePattern2` for one proposed
output edge: accumulates redundancy and the supersede list, stopping at the
first redundant finding (the loop condition `!redundant && ...`). -/
def dp2EdgeLoop (p : Pattern) (srg : SRGraph) (repo : List (String × InstantiatedPattern))
    (m : EdgeMatching) (patternEdge : UTQLEdge) (expandedAttributes : KVAttrs)
    (target : Nat) : List Nat → (Bool × List String) → Except String (Bool × List String)
  | [], st => pure st
  | fid :: rest, (red, sup) => do
    if red then pure (red, sup)
    else
      match nlookup srg.graph.edgeArena fid with
      | none => dp2EdgeLoop p srg repo m patternEdge expandedAttributes target rest (red, sup)
      | some fe =>
        if fe.m_Target = some target then do
          let (fixedEq, better, allBetter) :=
            dp2AttrLoop patternEdge fe.attr.attrs expandedAttributes (true, false, true)
          -- ALLOW_WORSE_EDGES is defined: redundancy additionally requires
          -- identical information source sets
          let red' := red ||
            (fixedEq && !better && setEqS m.m_informationSources fe.attr.m_InformationSources)
          let sup' ← do
            if fixedEq && better && allBetter then do
              -- does the new instance depend on the subgraph to delete?
              let dependent ← p.m_Graph.graph.m_Edges.foldlM
                (fun (acc : Bool) pr => do
                  if acc then pure acc
                  else
                    match nlookup p.m_Graph.graph.edgeArena pr.2 with
                    | none => pure acc
                    | some pe =>
                      if pe.attr.isInput then
                        match m.getCorrespondingSrgEdge pr.2 with
                        | none => throw "Edge not matched in getCorrespondingSrgEdge: "
                        | some gid =>
                          match nlookup srg.graph.edgeArena gid with
                          | none => throw "dangling srg edge"
                          | some ge =>
                            pure (subgraphDependsOnSubgraph repo (repo.length + 1)
                              ge.attr.m_SubgraphID fe.attr.m_SubgraphID)
                      else pure acc) false
              if dependent then pure sup else pure (sup ++ [fe.attr.m_SubgraphID])
            else pure sup
          dp2EdgeLoop p srg repo m patternEdge expandedAttributes target rest (red', sup')
        else dp2EdgeLoop p srg repo m patternEdge expandedAttributes target rest (red, sup)

/-- `UTQLSRGManager::decidePattern2`: accept the matching when at least one
proposed output edge is not redundant; collect the subgraphs it
supersedes. -/
def decidePattern2 (p : Pattern) (srg : SRGraph)
    (repo : List (String × InstantiatedPattern)) (m : EdgeMatching) :
    Except String (Bool × List String) := do
  p.m_Graph.graph.m_Edges.foldlM (fun (acc : Bool × List String) pr => do
    let (createsNewEdge, supersedes) := acc
    match nlookup p.m_Graph.graph.edgeArena pr.2 with
    | none => pure acc
    | some pe =>
      if pe.attr.isOutput then
        match pe.m_Source, pe.m_Target with
        | some srcPid, some tgtPid =>
          match m.getCorrespondingSrgVertex srcPid, m.getCorrespondingSrgVertex tgtPid with
          | some source, some target =>
            if source = target then pure acc
            else do
              let expandedAttributes :=
                match alookup m.m_expandedEdgeAttributes pe.m_Name with
                | some a => a
                | none => []
              match nlookup srg.graph.nodeArena source with
              | none => throw "dangling srg node"
              | some srcNode => do
                let (red, sup') ← dp2EdgeLoop p srg repo m pe.attr expandedAttributes
                  target srcNode.m_OutEdges (false, supersedes)
                pure ((if !red then true else createsNewEdge), sup')
          | _, _ => throw "Vertex not matched in getCorrespondingSrgVertex"
        | _, _ => throw "pattern edge without endpoints"
      else pure acc) (false, [])

/-- `UTQLSRGManager::applyDetectedPattern`: instantiate the matching under a
fresh subgraph id, back-link the matched input edges, insert the output
edges into the world SRG and record the instance in the repository.  The
mutated pattern and matching are returned alongside the new state. -/
def newSrgEdgeAttrs (newId pName : String) (m2 : EdgeMatching) (localName : String)
    (instEdge : GraphEdge UTQLEdge) : SRGEdgeAttributes :=
  { attrs := instEdge.attr.attrs
    m_SubgraphID := newId
    m_LocalName := localName
    m_InformationSources := m2.m_informationSources
    m_PatternName := pName }

def applyEdgeStep (pg : Graph UTQLNode UTQLEdge) (m2 : EdgeMatching)
    (newId pName : String) (subgraph : UTQLSubgraph)
    (srg : SRGraph) (pr : String × Nat) : Except String SRGraph := do
  match nlookup pg.edgeArena pr.2 with
  | none => throw "dangling pattern edge"
  | some pe =>
    if pe.attr.isInput then
      match m2.getCorrespondingSrgEdge pr.2 with
      | none => throw "Edge not matched in getCorrespondingSrgEdge: "
      | some fid =>
        pure { srg with graph := srg.graph.updateEdge fid (fun e =>
          { e with attr := { e.attr with
              m_DependantSubgraphIDs :=
                insertS e.attr.m_DependantSubgraphIDs newId } }) }
    else if pe.attr.isOutput then
      match pe.m_Source, pe.m_Target with
      | some srcPid, some tgtPid =>
        match m2.getCorrespondingSrgVertex srcPid, m2.getCorrespondingSrgVertex tgtPid with
        | some source, some target => do
          let edgeName := newId ++ ":" ++ pe.m_Name
          -- attributes come from the instantiated subgraph's edge
          match subgraph.graph.getEdge pe.m_Name with
          | .error e => throw e
          | .ok instEid =>
            match nlookup subgraph.graph.edgeArena instEid with
            | none => throw "dangling instance edge"
            | some instEdge =>
              let (g2, _) := srg.graph.addEdge edgeName source target
                (newSrgEdgeAttrs newId pName m2 pe.m_Name instEdge)
              pure { srg with graph := g2 }
        | _, _ => throw "Vertex not matched in getCorrespondingSrgVertex"
      | _, _ => throw "pattern edge without endpoints"
    else pure srg

/-- `UTQLSRGManager::applyDetectedPattern`: instantiate the matching under a
fresh subgraph id, back-link the matched input edges, insert the output
edges into the world SRG and record the instance in the repository.  The
mutated pattern and matching are returned alongside the new state. -/
def applyDetectedPattern (st : SRGManager) (p : Pattern) (m : EdgeMatching) :
    Except String (SRGManager × Pattern × EdgeMatching) := do
  let newId := p.m_Name ++ toString st.patternApplicationID
  let (subgraph0, p2, m2) ← instanciatePattern p st.m_GlobalSrg m
  let subgraph := { subgraph0 with m_ID := newId }
  let srg2 ← p2.m_Graph.graph.m_Edges.foldlM
    (applyEdgeStep p2.m_Graph.graph m2 newId p2.m_Name subgraph) st.m_GlobalSrg
  pure ({ st with
      m_GlobalSrg := srg2
      m_GraphRepository := aset st.m_GraphRepository newId ⟨subgraph, p2.m_clientId⟩
      patternApplicationID := st.patternApplicationID + 1 }, p2, m2)

/-- The body of the per-matching loop of `UTQLSRGManager::applyPattern`:
stage-1 decision, attribute expansion, stage-2 decision, application.  The
`Bool` reports whether the matching was applied. -/
def applyOneMatching (st : SRGManager) (p : Pattern) (m : EdgeMatching) :
    Except String (SRGManager × Pattern × List String × Bool) := do
  if decidePattern1 st.m_GlobalSrg m then do
    let m1 ← expandMatchingAttributes p st.m_GlobalSrg m
    let (ok2, supersedes) ← decidePattern2 p st.m_GlobalSrg st.m_GraphRepository m1
    if ok2 then do
      let (st2, p2, _) ← applyDetectedPattern st p m1
      pure (st2, p2, supersedes, true)
    else pure (st, p, [], false)
  else pure (st, p, [], false)

/-! ## C5: stage-1 rejection of matchings with shared information sources -/

/-- A concrete world SRG: nodes `A`, `B`, a base edge `A -> B` with
information source `trackerA`, and its derived inverse `B -> A` carrying the
same source. -/
def c5srg : SRGraph :=
  { graph :=
      { nextId := 4
        nodeArena :=
          [(0, { m_Name := "A", m_OutEdges := [2], m_InEdges := [3],
                 attr := { m_SubgraphIDs := ["base"] } }),
           (1, { m_Name := "B", m_OutEdges := [3], m_InEdges := [2],
                 attr := { m_SubgraphIDs := ["base"] } })]
        edgeArena :=
          [(2, { m_Name := "base:AB", m_Source := some 0, m_Target := some 1,
                 attr := { m_SubgraphID := "base", m_LocalName := "AB",
                           m_InformationSources := ["trackerA"] } }),
           (3, { m_Name := "inv1:BA", m_Source := some 1, m_Target := some 0,
                 attr := { m_SubgraphID := "inv1", m_LocalName := "BA",
                           m_PatternName := "inv",
                           m_InformationSources := ["trackerA"] } })]
        m_Nodes := [("A", 0), ("B", 1)]
        m_Edges := [("base:AB", 2), ("inv1:BA", 3)] }
    m_NodeIDMap := [("A", 0), ("B", 1)] }

/-- The manager state holding `c5srg`. -/
def c5st : SRGManager := { m_GlobalSrg := c5srg }

/-- A concatenation pattern (two input edges, one output edge) as matched
against `c5srg`: its input edge 10 maps to the base edge, input edge 11 to
the inverse edge. -/
def c5m : EdgeMatching :=
  { m_edgeForwardMap := [(10, 2), (11, 3)]
    m_edgeBackwardMap := [(2, 10), (3, 11)]
    m_vertexForwardMap := [(20, (0, 1)), (21, (1, 1)), (22, (0, 1))]
    m_vertexBackwardMap := [(0, (20, 1)), (1, (21, 1))] }

/-- A placeholder concatenation pattern; stage-1 rejection never consults
the pattern itself. -/
def c5pat : Pattern :=
  { m_Name := "concat", m_clientId := "", m_Graph := {}, m_searchPlan := [] }

/-- C5: a matching with more than one matched input edge in which two
distinct matched SRG edges share an information source is rejected by the
stage-1 decision, and the per-matching application step leaves the manager
state unchanged (no output edge is inserted; in particular no `A -> A`
edge arises from a base edge and its inverse). -/
theorem c5_shared_source_rejected (st : SRGManager) (p : Pattern) (m : EdgeMatching)
    (e1 e2 : Nat × Nat)
    (hlen : 1 < m.m_edgeForwardMap.length)
    (h1 : e1 ∈ m.m_edgeForwardMap) (h2 : e2 ∈ m.m_edgeForwardMap)
    (hne : e1.1 ≠ e2.1)
    (hshare : sharesInformationSource st.m_GlobalSrg e1.2 e2.2 = true) :
    decidePattern1 st.m_GlobalSrg m = false ∧
    applyOneMatching st p m = .ok (st, p, [], false) := by
  have hd : decidePattern1 st.m_GlobalSrg m = false := by
    unfold decidePattern1
    rw [if_pos hlen]
    simp only [Bool.not_eq_false', List.any_eq_true]
    exact ⟨e1, h1, ⟨e2, h2, by simp [hne, hshare]⟩⟩
  refine ⟨hd, ?_⟩
  unfold applyOneMatching
  rw [hd]
  rfl

/-- Witness: in the `A -> B` / derived `B -> A` scenario the matching of the
concatenation pattern is rejected and nothing is inserted. -/
theorem c5_shared_source_rejected_witness :
    decidePattern1 c5st.m_GlobalSrg c5m = false ∧
    applyOneMatching c5st c5pat c5m = .ok (c5st, c5pat, [], false) :=
  c5_shared_source_rejected c5st c5pat c5m (10, 2) (11, 3)
    (by decide) (by decide) (by decide) (by decide) (by decide)

/-! ## C3: information sources of inserted output edges

Generic plumbing for reasoning about the `Except`-monadic folds of the SRG
manager. -/

theorem exceptBind_ok {ε α β : Type} (a : α) (f : α → Except ε β) :
    ((Except.ok a : Except ε α) >>= f) = f a := rfl

theorem exceptBind_error {ε α β : Type} (e : ε) (f : α → Except ε β) :
    ((Except.error e : Except ε α) >>= f) = .error e := rfl

/-- A plain invariant survives a monadic fold. -/
theorem foldlM_inv {σ α : Type} {f : σ → α → Except String σ} (P : σ → Prop)
    (hf : ∀ s a s', f s a = .ok s' → P s → P s')
    (L : List α) :
    ∀ (s s' : σ), L.foldlM f s = .ok s' → P s → P s' := by
  induction L with
  | nil =>
    intro s s' h hp
    rw [List.foldlM_nil] at h
    cases h
    exact hp
  | cons a t ih =>
    intro s s' h hp
    rw [List.foldlM_cons] at h
    cases hstep : f s a with
    | error e => rw [hstep, exceptBind_error] at h; exact Except.noConfusion h
    | ok s1 => rw [hstep, exceptBind_ok] at h; exact ih s1 s' h (hf s a s1 hstep hp)

theorem mem_insertS {l : List String} {x y : String} :
    y ∈ insertS l x ↔ y ∈ l ∨ y = x := by
  unfold insertS
  split
  · rename_i hx
    constructor
    · exact Or.inl
    · rintro (h | rfl)
      · exact h
      · exact hx
  · simp [List.mem_append]

theorem mem_foldl_insertS (srcs : List String) :
    ∀ (acc : List String) (y : String),
      y ∈ srcs.foldl insertS acc ↔ y ∈ acc ∨ y ∈ srcs := by
  induction srcs with
  | nil => simp
  | cons s t ih =>
    intro acc y
    rw [List.foldl_cons, ih, mem_insertS]
    simp only [List.mem_cons]
    tauto

theorem alookup_append_some {β : Type} {m l : List (String × β)} {k : String} {v : β}
    (h : alookup m k = some v) : alookup (m ++ l) k = some v := by
  induction m with
  | nil => exact absurd h (by simp [alookup])
  | cons x t ih =>
    rcases x with ⟨k1, v1⟩
    show (if k1 = k then some v1 else alookup (t ++ l) k) = some v
    unfold alookup at h
    by_cases hk : k1 = k
    · rw [if_pos hk] at h ⊢; exact h
    · rw [if_neg hk] at h ⊢; exact ih h

theorem alookup_ainsert_some {β : Type} {m : List (String × β)} {k k2 : String} {v : β}
    (b : β) (h : alookup m k = some v) : alookup (ainsert m k2 b) k = some v := by
  unfold ainsert
  split
  · exact h
  · exact alookup_append_some h

theorem alookup_append_single_ne {β : Type} {m : List (String × β)} {k k2 : String}
    {b : β} (h : alookup m k = none) (hne : k2 ≠ k) :
    alookup (m ++ [(k2, b)]) k = none := by
  induction m with
  | nil => show (if k2 = k then some b else none) = none; rw [if_neg hne]
  | cons x t ih =>
    rcases x with ⟨k1, v1⟩
    show (if k1 = k then some v1 else alookup (t ++ [(k2, b)]) k) = none
    unfold alookup at h
    by_cases hk : k1 = k
    · rw [if_pos hk] at h; exact absurd h (by simp)
    · rw [if_neg hk] at h ⊢; exact ih h

theorem alookup_ainsert_none_ne {β : Type} {m : List (String × β)} {k k2 : String}
    (b : β) (h : alookup m k = none) (hne : k2 ≠ k) :
    alookup (ainsert m k2 b) k = none := by
  unfold ainsert
  split
  · exact h
  · exact alookup_append_single_ne h hne

theorem alookup_append_fresh {β : Type} {m : List (String × β)} {k : String} (b : β)
    (h : alookup m k = none) : alookup (m ++ [(k, b)]) k = some b := by
  induction m with
  | nil => show (if k = k then some b else none) = some b; rw [if_pos rfl]
  | cons x t ih =>
    rcases x with ⟨k1, v1⟩
    show (if k1 = k then some v1 else alookup (t ++ [(k, b)]) k) = some b
    unfold alookup at h
    by_cases hk : k1 = k
    · rw [if_pos hk] at h; exact absurd h (by simp)
    · rw [if_neg hk] at h ⊢; exact ih h

theorem ainsert_fresh {β : Type} {m : List (String × β)} {k : String} (b : β)
    (h : alookup m k = none) : ainsert m k b = m ++ [(k, b)] := by
  unfold ainsert
  rw [h]

theorem nlookup_append_some {β : Type} {a l : List (Nat × β)} {i : Nat} {v : β}
    (h : nlookup a i = some v) : nlookup (a ++ l) i = some v := by
  induction a with
  | nil => exact absurd h (by simp [nlookup])
  | cons x t ih =>
    rcases x with ⟨k1, v1⟩
    show (if k1 = i then some v1 else nlookup (t ++ l) i) = some v
    unfold nlookup at h
    by_cases hk : k1 = i
    · rw [if_pos hk] at h ⊢; exact h
    · rw [if_neg hk] at h ⊢; exact ih h

theorem mem_nset_fst {β : Type} {a : List (Nat × β)} {k : Nat} {b : β} {q : Nat × β}
    (h : q ∈ nset a k b) : ∃ q0 ∈ a, q.1 = q0.1 := by
  induction a with
  | nil => exact absurd h (by simp [nset])
  | cons x t ih =>
    rcases x with ⟨k1, v1⟩
    unfold nset at h
    by_cases hk : k1 = k
    · rw [if_pos hk] at h
      rcases List.mem_cons.mp h with rfl | hq
      · exact ⟨(k1, v1), List.mem_cons_self _ _, rfl⟩
      · exact ⟨q, List.mem_cons_of_mem _ hq, rfl⟩
    · rw [if_neg hk] at h
      rcases List.mem_cons.mp h with rfl | hq
      · exact ⟨(k1, v1), List.mem_cons_self _ _, rfl⟩
      · rcases ih hq with ⟨q0, hq0, he⟩
        exact ⟨q0, List.mem_cons_of_mem _ hq0, he⟩

theorem string_append_right_inj {a x y : String} (h : a ++ x = a ++ y) : x = y := by
  have h2 : (a ++ x).data = (a ++ y).data := by rw [h]
  rw [String.data_append, String.data_append] at h2
  exact String.ext (List.append_cancel_left h2)

theorem addEdge_m_Edges {NA EA : Type} (g : Graph NA EA) (n : String) (s t : Nat)
    (d : EA) : ((g.addEdge n s t d).1).m_Edges = ainsert g.m_Edges n g.nextId := by
  unfold Graph.addEdge
  rw [updateNode_m_Edges, updateNode_m_Edges]

theorem addEdge_edgeArena {NA EA : Type} (g : Graph NA EA) (n : String) (s t : Nat)
    (d : EA) : ((g.addEdge n s t d).1).edgeArena = g.edgeArena ++
      [(g.nextId, { m_Name := n, m_Source := some s, m_Target := some t, attr := d })] := by
  unfold Graph.addEdge
  rw [updateNode_edgeArena, updateNode_edgeArena]

theorem updateNode_nextId {NA EA : Type} (g : Graph NA EA) (nid : Nat)
    (f : GraphNode NA → GraphNode NA) : (g.updateNode nid f).nextId = g.nextId := by
  unfold Graph.updateNode
  split <;> rfl

theorem addEdge_nextId {NA EA : Type} (g : Graph NA EA) (n : String) (s t : Nat)
    (d : EA) : ((g.addEdge n s t d).1).nextId = g.nextId + 1 := by
  unfold Graph.addEdge
  rw [updateNode_nextId, updateNode_nextId]

theorem updateEdge_m_Edges {NA EA : Type} (g : Graph NA EA) (eid : Nat)
    (f : GraphEdge EA → GraphEdge EA) : (g.updateEdge eid f).m_Edges = g.m_Edges := by
  unfold Graph.updateEdge
  split <;> rfl

theorem updateEdge_nextId {NA EA : Type} (g : Graph NA EA) (eid : Nat)
    (f : GraphEdge EA → GraphEdge EA) : (g.updateEdge eid f).nextId = g.nextId := by
  unfold Graph.updateEdge
  split <;> rfl

theorem updateEdge_nodeArena {NA EA : Type} (g : Graph NA EA) (eid : Nat)
    (f : GraphEdge EA → GraphEdge EA) : (g.updateEdge eid f).nodeArena = g.nodeArena := by
  unfold Graph.updateEdge
  split <;> rfl

/-- Lookup after `updateEdge`: the binding survives, with the edge object at
most rewritten by `f`. -/
theorem updateEdge_lookup {NA EA : Type} (g : Graph NA EA) (eid : Nat)
    (f : GraphEdge EA → GraphEdge EA) {i : Nat} {fe : GraphEdge EA}
    (h : nlookup g.edgeArena i = some fe) :
    nlookup (g.updateEdge eid f).edgeArena i = some fe ∨
    nlookup (g.updateEdge eid f).edgeArena i = some (f fe) := by
  unfold Graph.updateEdge
  cases hed : nlookup g.edgeArena eid with
  | none => exact Or.inl h
  | some ed =>
    by_cases hi : i = eid
    · subst hi
      rw [h] at hed
      cases hed
      right
      show nlookup (nset g.edgeArena i (f fe)) i = some (f fe)
      exact nlookup_nset_self (by rw [h]; rfl)
    · left
      show nlookup (nset g.edgeArena eid (f ed)) i = some fe
      rw [nlookup_nset_other hi]
      exact h

/-- `x` is an information source of the SRG edge matched to the input
pattern edge `pr` (under edge-correspondence map `efm`). -/
def inputEdgeSourceIn (arena : List (Nat × GraphEdge UTQLEdge)) (srg : SRGraph)
    (efm : List (Nat × Nat)) (pr : String × Nat) (x : String) : Prop :=
  ∃ pe, nlookup arena pr.2 = some pe ∧ pe.attr.isInput = true ∧
    ∃ fid, nlookup efm pr.2 = some fid ∧
      ∃ fe, nlookup srg.graph.edgeArena fid = some fe ∧
        x ∈ fe.attr.m_InformationSources

/-- Effect of one input-edge expansion step on the collected information
sources. -/
theorem expandInputEdgeStep_ok (p : Pattern) (srg : SRGraph) (m : EdgeMatching)
    (a : String × Nat) (m1 : EdgeMatching)
    (h : expandInputEdgeStep p srg m a = .ok m1) :
    m1.m_edgeForwardMap = m.m_edgeForwardMap ∧
    ∀ x, x ∈ m1.m_informationSources ↔
      x ∈ m.m_informationSources ∨
      inputEdgeSourceIn p.m_Graph.graph.edgeArena srg m.m_edgeForwardMap a x := by
  cases hpe : nlookup p.m_Graph.graph.edgeArena a.2 with
  | none =>
    rw [expandInputEdgeStep] at h
    simp only [hpe] at h
    exact Except.noConfusion h
  | some pe =>
    rw [expandInputEdgeStep] at h
    simp only [hpe] at h
    by_cases hin : pe.attr.isInput = true
    · rw [if_pos hin] at h
      cases hc : EdgeMatching.getCorrespondingSrgEdge m a.2 with
      | none => simp only [hc] at h; exact Except.noConfusion h
      | some fid =>
        simp only [hc] at h
        cases hfe : nlookup srg.graph.edgeArena fid with
        | none => simp only [hfe] at h; exact Except.noConfusion h
        | some fe =>
          simp only [hfe] at h
          injection h with h
          subst h
          refine ⟨rfl, fun x => ?_⟩
          show x ∈ fe.attr.m_InformationSources.foldl insertS m.m_informationSources ↔ _
          rw [mem_foldl_insertS]
          constructor
          · rintro (hx | hx)
            · exact Or.inl hx
            · exact Or.inr ⟨pe, hpe, hin, fid, hc, fe, hfe, hx⟩
          · rintro (hx | ⟨pe2, hpe2, _, fid2, hc2, fe2, hfe2, hx⟩)
            · exact Or.inl hx
            · rw [hpe] at hpe2
              injection hpe2 with hpe2
              rw [EdgeMatching.getCorrespondingSrgEdge] at hc
              rw [hc] at hc2
              injection hc2 with hc2
              subst hc2
              rw [hfe] at hfe2
              injection hfe2 with hfe2
              subst hfe2
              exact Or.inr hx
    · rw [if_neg hin] at h
      injection h with h
      subst h
      refine ⟨rfl, fun x => ?_⟩
      constructor
      · exact Or.inl
      · rintro (hx | ⟨pe2, hpe2, hin2, _⟩)
        · exact hx
        · rw [hpe] at hpe2
          injection hpe2 with hpe2
          subst hpe2
          exact absurd hin2 hin

/-- The first expansion loop collects exactly the union of the matched
input edges' information sources. -/
theorem fold1_sources (p : Pattern) (srg : SRGraph) :
    ∀ (L : List (String × Nat)) (m m' : EdgeMatching),
    L.foldlM (expandInputEdgeStep p srg) m = .ok m' →
    m'.m_edgeForwardMap = m.m_edgeForwardMap ∧
    ∀ x, x ∈ m'.m_informationSources ↔
      x ∈ m.m_informationSources ∨
      ∃ pr ∈ L, inputEdgeSourceIn p.m_Graph.graph.edgeArena srg m.m_edgeForwardMap pr x := by
  intro L
  induction L with
  | nil =>
    intro m m' h
    rw [List.foldlM_nil] at h
    cases h
    exact ⟨rfl, fun x => by simp⟩
  | cons a t ih =>
    intro m m' h
    rw [List.foldlM_cons] at h
    cases hstep : expandInputEdgeStep p srg m a with
    | error e => rw [hstep, exceptBind_error] at h; exact Except.noConfusion h
    | ok mA =>
      rw [hstep, exceptBind_ok] at h
      rcases expandInputEdgeStep_ok p srg m a mA hstep with ⟨hmapA, hsrcA⟩
      rcases ih mA m' h with ⟨hmap, hsrc⟩
      rw [hmapA] at hmap hsrc
      refine ⟨hmap, fun x => ?_⟩
      rw [hsrc x, hsrcA x]
      constructor
      · rintro ((hx | hx) | ⟨pr, hpr, hx⟩)
        · exact Or.inl hx
        · exact Or.inr ⟨a, List.mem_cons_self _ _, hx⟩
        · exact Or.inr ⟨pr, List.mem_cons_of_mem _ hpr, hx⟩
      · rintro (hx | ⟨pr, hpr, hx⟩)
        · exact Or.inl (Or.inl hx)
        · rcases List.mem_cons.mp hpr with rfl | hpr
          · exact Or.inl (Or.inr hx)
          · exact Or.inr ⟨pr, hpr, hx⟩

/-- The input-node expansion loop leaves the collected information sources
and the edge correspondence untouched. -/
theorem expandInputNodeStep_keeps (p : Pattern) (srg : SRGraph) (m : EdgeMatching)
    (a : String × Nat) (m1 : EdgeMatching)
    (h : expandInputNodeStep p srg m a = .ok m1) :
    m1.m_informationSources = m.m_informationSources ∧
    m1.m_edgeForwardMap = m.m_edgeForwardMap := by
  rw [expandInputNodeStep] at h
  cases hpn : nlookup p.m_Graph.graph.nodeArena a.2 with
  | none => simp only [hpn] at h; exact Except.noConfusion h
  | some pn =>
    simp only [hpn] at h
    by_cases hin : pn.attr.isInput = true
    · rw [if_pos hin] at h
      cases hc : EdgeMatching.getCorrespondingSrgVertex m a.2 with
      | none => simp only [hc] at h; exact Except.noConfusion h
      | some fid =>
        simp only [hc] at h
        cases hfn : nlookup srg.graph.nodeArena fid with
        | none => simp only [hfn] at h; exact Except.noConfusion h
        | some fn =>
          simp only [hfn] at h
          injection h with h
          subst h
          exact ⟨rfl, rfl⟩
    · rw [if_neg hin] at h
      injection h with h
      subst h
      exact ⟨rfl, rfl⟩

/-- The output-edge expansion loop leaves the collected information sources
and the edge correspondence untouched. -/
theorem expandOutputEdgeStep_keeps (p : Pattern) (m : EdgeMatching)
    (a : String × Nat) (m1 : EdgeMatching)
    (h : expandOutputEdgeStep p m a = .ok m1) :
    m1.m_informationSources = m.m_informationSources ∧
    m1.m_edgeForwardMap = m.m_edgeForwardMap := by
  rw [expandOutputEdgeStep] at h
  cases hpe : nlookup p.m_Graph.graph.edgeArena a.2 with
  | none => simp only [hpe] at h; exact Except.noConfusion h
  | some pe =>
    simp only [hpe] at h
    by_cases hout : pe.attr.isOutput = true
    · rw [if_pos hout] at h
      injection h with h
      subst h
      exact ⟨rfl, rfl⟩
    · rw [if_neg hout] at h
      injection h with h
      subst h
      exact ⟨rfl, rfl⟩

/-- The output-node expansion loop leaves the collected information sources
and the edge correspondence untouched. -/
theorem expandOutputNodeStep_keeps (p : Pattern) (m : EdgeMatching)
    (a : String × Nat) (m1 : EdgeMatching)
    (h : expandOutputNodeStep p m a = .ok m1) :
    m1.m_informationSources = m.m_informationSources ∧
    m1.m_edgeForwardMap = m.m_edgeForwardMap := by
  rw [expandOutputNodeStep] at h
  cases hpn : nlookup p.m_Graph.graph.nodeArena a.2 with
  | none => simp only [hpn] at h; exact Except.noConfusion h
  | some pn =>
    simp only [hpn] at h
    by_cases hout : pn.attr.isOutput = true
    · rw [if_pos hout] at h
      injection h with h
      subst h
      exact ⟨rfl, rfl⟩
    · rw [if_neg hout] at h
      injection h with h
      subst h
      exact ⟨rfl, rfl⟩

/-- `expandMatchingAttributes` produces exactly the union of the matched
input edges' information sources (and keeps the edge correspondence). -/
theorem expandMatchingAttributes_sources (p : Pattern) (srg : SRGraph)
    (m0 m1 : EdgeMatching)
    (hexp : expandMatchingAttributes p srg m0 = .ok m1) :
    m1.m_edgeForwardMap = m0.m_edgeForwardMap ∧
    ∀ x, x ∈ m1.m_informationSources ↔
      ∃ pr ∈ p.m_Graph.graph.m_Edges,
        inputEdgeSourceIn p.m_Graph.graph.edgeArena srg m0.m_edgeForwardMap pr x := by
  rw [expandMatchingAttributes] at hexp
  cases h1 : p.m_Graph.graph.m_Edges.foldlM (expandInputEdgeStep p srg)
      { m0 with
          m_informationSources := []
          m_expandedNodeAttributes := []
          m_expandedEdgeAttributes := [] } with
  | error e => rw [h1, exceptBind_error] at hexp; exact Except.noConfusion hexp
  | ok mA =>
    rw [h1, exceptBind_ok] at hexp
    cases h2 : p.m_Graph.graph.m_Nodes.foldlM (expandInputNodeStep p srg) mA with
    | error e => rw [h2, exceptBind_error] at hexp; exact Except.noConfusion hexp
    | ok mB =>
      rw [h2, exceptBind_ok] at hexp
      cases h3 : p.m_Graph.graph.m_Edges.foldlM (expandOutputEdgeStep p) mB with
      | error e => rw [h3, exceptBind_error] at hexp; exact Except.noConfusion hexp
      | ok mC =>
        rw [h3, exceptBind_ok] at hexp
        rcases fold1_sources p srg _ _ _ h1 with ⟨hmapA, hsrcA⟩
        have hkeep2 := foldlM_inv
          (fun mm => mm.m_informationSources = mA.m_informationSources ∧
            mm.m_edgeForwardMap = mA.m_edgeForwardMap)
          (fun s a s' hs hp => by
            rcases expandInputNodeStep_keeps p srg s a s' hs with ⟨k1, k2⟩
            exact ⟨k1.trans hp.1, k2.trans hp.2⟩)
          p.m_Graph.graph.m_Nodes _ _ h2 ⟨rfl, rfl⟩
        have hkeep3 := foldlM_inv
          (fun mm => mm.m_informationSources = mA.m_informationSources ∧
            mm.m_edgeForwardMap = mA.m_edgeForwardMap)
          (fun s a s' hs hp => by
            rcases expandOutputEdgeStep_keeps p s a s' hs with ⟨k1, k2⟩
            exact ⟨k1.trans hp.1, k2.trans hp.2⟩)
          p.m_Graph.graph.m_Edges _ _ h3 hkeep2
        have hkeep4 := foldlM_inv
          (fun mm => mm.m_informationSources = mA.m_informationSources ∧
            mm.m_edgeForwardMap = mA.m_edgeForwardMap)
          (fun s a s' hs hp => by
            rcases expandOutputNodeStep_keeps p s a s' hs with ⟨k1, k2⟩
            exact ⟨k1.trans hp.1, k2.trans hp.2⟩)
          p.m_Graph.graph.m_Nodes _ _ hexp hkeep3
        refine ⟨hkeep4.2.trans hmapA, fun x => ?_⟩
        rw [hkeep4.1, hsrcA x]
        simp

theorem updateEdge_arena_keys {NA EA : Type} (g : Graph NA EA) (eid : Nat)
    (f : GraphEdge EA → GraphEdge EA) :
    ∀ q ∈ (g.updateEdge eid f).edgeArena, ∃ q0 ∈ g.edgeArena, q.1 = q0.1 := by
  unfold Graph.updateEdge
  cases hed : nlookup g.edgeArena eid with
  | none => exact fun q hq => ⟨q, hq, rfl⟩
  | some ed => exact fun q hq => mem_nset_fst hq

/-- Effect of one `applyDetectedPattern` loop step on the world SRG: either
the edge map is untouched (input back-link or no-op), or the step's pattern
edge is an output edge and exactly one fresh edge carrying the matching's
information sources is appended. -/
theorem applyEdgeStep_effects (pg : Graph UTQLNode UTQLEdge) (m2 : EdgeMatching)
    (newId pName : String) (subgraph : UTQLSubgraph) (srg srg' : SRGraph)
    (pr : String × Nat)
    (h : applyEdgeStep pg m2 newId pName subgraph srg pr = .ok srg') :
    ((∀ pe', nlookup pg.edgeArena pr.2 = some pe' → pe'.attr.isOutput = false) ∧
     srg'.graph.m_Edges = srg.graph.m_Edges ∧
     srg'.graph.nextId = srg.graph.nextId ∧
     (∀ q ∈ srg'.graph.edgeArena, ∃ q0 ∈ srg.graph.edgeArena, q.1 = q0.1) ∧
     (∀ i fe, nlookup srg.graph.edgeArena i = some fe →
       ∃ fe', nlookup srg'.graph.edgeArena i = some fe' ∧
         fe'.attr.m_InformationSources = fe.attr.m_InformationSources)) ∨
    (∃ pe source target instEdge,
       nlookup pg.edgeArena pr.2 = some pe ∧ pe.attr.isOutput = true ∧
       srg'.graph.m_Edges =
         ainsert srg.graph.m_Edges (newId ++ ":" ++ pe.m_Name) srg.graph.nextId ∧
       srg'.graph.nextId = srg.graph.nextId + 1 ∧
       srg'.graph.edgeArena = srg.graph.edgeArena ++
         [(srg.graph.nextId,
           { m_Name := newId ++ ":" ++ pe.m_Name, m_Source := some source,
             m_Target := some target,
             attr := newSrgEdgeAttrs newId pName m2 pe.m_Name instEdge })]) := by
  rw [applyEdgeStep] at h
  cases hpe : nlookup pg.edgeArena pr.2 with
  | none => simp only [hpe] at h; exact Except.noConfusion h
  | some pe =>
    simp only [hpe] at h
    by_cases hin : pe.attr.isInput = true
    · rw [if_pos hin] at h
      cases hc : EdgeMatching.getCorrespondingSrgEdge m2 pr.2 with
      | none => simp only [hc] at h; exact Except.noConfusion h
      | some fid2 =>
        simp only [hc] at h
        injection h with h
        subst h
        left
        refine ⟨?_, updateEdge_m_Edges _ _ _, updateEdge_nextId _ _ _,
          updateEdge_arena_keys _ _ _, ?_⟩
        · intro pe' hpe'
          injection hpe' with hpe'
          subst hpe'
          simp only [UTQLEdge.isInput, decide_eq_true_eq] at hin
          simp only [UTQLEdge.isOutput, hin]
          rfl
        · intro i fe hfe
          rcases updateEdge_lookup srg.graph fid2 _ hfe with h' | h'
          · exact ⟨fe, h', rfl⟩
          · exact ⟨_, h', rfl⟩
    · rw [if_neg hin] at h
      by_cases hout : pe.attr.isOutput = true
      · rw [if_pos hout] at h
        cases hs : pe.m_Source with
        | none =>
          cases ht : pe.m_Target <;> simp only [hs, ht] at h <;>
            exact Except.noConfusion h
        | some srcPid =>
          cases ht : pe.m_Target with
          | none => simp only [hs, ht] at h; exact Except.noConfusion h
          | some tgtPid =>
            simp only [hs, ht] at h
            cases hcs : EdgeMatching.getCorrespondingSrgVertex m2 srcPid with
            | none =>
              cases hct : EdgeMatching.getCorrespondingSrgVertex m2 tgtPid <;>
                simp only [hcs, hct] at h <;> exact Except.noConfusion h
            | some source =>
              cases hct : EdgeMatching.getCorrespondingSrgVertex m2 tgtPid with
              | none => simp only [hcs, hct] at h; exact Except.noConfusion h
              | some target =>
                simp only [hcs, hct] at h
                cases hge : Graph.getEdge subgraph.graph pe.m_Name with
                | error e => simp only [hge] at h; exact Except.noConfusion h
                | ok instEid =>
                  simp only [hge] at h
                  cases hie : nlookup subgraph.graph.edgeArena instEid with
                  | none => simp only [hie] at h; exact Except.noConfusion h
                  | some instEdge =>
                    simp only [hie] at h
                    rcases hadd : srg.graph.addEdge (newId ++ ":" ++ pe.m_Name)
                        source target
                        (newSrgEdgeAttrs newId pName m2 pe.m_Name instEdge) with
                      ⟨g2, eid2⟩
                    rw [hadd] at h
                    injection h with h
                    subst h
                    right
                    have hg2 : g2 = (srg.graph.addEdge (newId ++ ":" ++ pe.m_Name)
                        source target
                        (newSrgEdgeAttrs newId pName m2 pe.m_Name instEdge)).1 := by
                      rw [hadd]
                    refine ⟨pe, source, target, instEdge, rfl, hout, ?_, ?_, ?_⟩
                    · show g2.m_Edges = _
                      rw [hg2, addEdge_m_Edges]
                    · show g2.nextId = _
                      rw [hg2, addEdge_nextId]
                    · show g2.edgeArena = _
                      rw [hg2, addEdge_edgeArena]
      · rw [if_neg hout] at h
        injection h with h
        subst h
        left
        refine ⟨?_, rfl, rfl, fun q hq => ⟨q, hq, rfl⟩, fun i fe hfe => ⟨fe, hfe, rfl⟩⟩
        intro pe' hpe'
        injection hpe' with hpe'
        subst hpe'
        simp only [Bool.not_eq_true] at hout
        exact hout

/-- A name-to-edge binding (and its information sources) survives the whole
`applyDetectedPattern` insertion loop. -/
theorem applyFold_preserves (pg : Graph UTQLNode UTQLEdge) (m2 : EdgeMatching)
    (newId pName : String) (subgraph : UTQLSubgraph) :
    ∀ (L : List (String × Nat)) (srg0 srg' : SRGraph),
    L.foldlM (applyEdgeStep pg m2 newId pName subgraph) srg0 = .ok srg' →
    ∀ name fid fe, alookup srg0.graph.m_Edges name = some fid →
      nlookup srg0.graph.edgeArena fid = some fe →
      ∃ fe', alookup srg'.graph.m_Edges name = some fid ∧
        nlookup srg'.graph.edgeArena fid = some fe' ∧
        fe'.attr.m_InformationSources = fe.attr.m_InformationSources := by
  intro L
  induction L with
  | nil =>
    intro srg0 srg' h name fid fe hb ha
    rw [List.foldlM_nil] at h
    cases h
    exact ⟨fe, hb, ha, rfl⟩
  | cons a t ih =>
    intro srg0 srg' h name fid fe hb ha
    rw [List.foldlM_cons] at h
    cases hstep : applyEdgeStep pg m2 newId pName subgraph srg0 a with
    | error e => rw [hstep, exceptBind_error] at h; exact Except.noConfusion h
    | ok srg1 =>
      rw [hstep, exceptBind_ok] at h
      rcases applyEdgeStep_effects pg m2 newId pName subgraph srg0 srg1 a hstep with
        ⟨_, hme, _, _, hpt⟩ | ⟨pe0, src0, tgt0, ie0, hpe0, hout0, hme, hni, har⟩
      · rcases hpt fid fe ha with ⟨fe1, ha1, hs1⟩
        rcases ih srg1 srg' h name fid fe1 (by rw [hme]; exact hb) ha1 with
          ⟨fe', hb', ha', hs'⟩
        exact ⟨fe', hb', ha', hs'.trans hs1⟩
      · have hb1 : alookup srg1.graph.m_Edges name = some fid := by
          rw [hme]; exact alookup_ainsert_some _ hb
        have ha1 : nlookup srg1.graph.edgeArena fid = some fe := by
          rw [har]; exact nlookup_append_some ha
        exact ih srg1 srg' h name fid fe hb1 ha1

/-- Through the `applyDetectedPattern` insertion loop, every output pattern
edge gets a fresh world-SRG edge whose information sources are exactly the
matching's collected set. -/
theorem applyFold_output_edges (pg : Graph UTQLNode UTQLEdge) (m2 : EdgeMatching)
    (newId pName : String) (subgraph : UTQLSubgraph) :
    ∀ (L : List (String × Nat)) (srg0 srg' : SRGraph),
    L.foldlM (applyEdgeStep pg m2 newId pName subgraph) srg0 = .ok srg' →
    (∀ q ∈ srg0.graph.edgeArena, q.1 < srg0.graph.nextId) →
    (∀ pr ∈ L, ∀ pe, nlookup pg.edgeArena pr.2 = some pe →
        alookup srg0.graph.m_Edges (newId ++ ":" ++ pe.m_Name) = none) →
    L.Pairwise (fun a b => ∀ pea peb, nlookup pg.edgeArena a.2 = some pea →
        nlookup pg.edgeArena b.2 = some peb → pea.m_Name ≠ peb.m_Name) →
    ∀ pr ∈ L, ∀ pe, nlookup pg.edgeArena pr.2 = some pe → pe.attr.isOutput = true →
      ∃ fid fe, alookup srg'.graph.m_Edges (newId ++ ":" ++ pe.m_Name) = some fid ∧
        nlookup srg'.graph.edgeArena fid = some fe ∧
        fe.attr.m_InformationSources = m2.m_informationSources := by
  intro L
  induction L with
  | nil =>
    intro srg0 srg' _ _ _ _ pr hpr
    exact absurd hpr (List.not_mem_nil pr)
  | cons a t ih =>
    intro srg0 srg' h harena hfresh hnodup pr hpr pe hpe hout
    rw [List.foldlM_cons] at h
    cases hstep : applyEdgeStep pg m2 newId pName subgraph srg0 a with
    | error e => rw [hstep, exceptBind_error] at h; exact Except.noConfusion h
    | ok srg1 =>
      rw [hstep, exceptBind_ok] at h
      rcases List.pairwise_cons.mp hnodup with ⟨hhead, htail⟩
      rcases List.mem_cons.mp hpr with rfl | hprt
      · -- the step for this very edge inserts the fresh edge
        rcases applyEdgeStep_effects pg m2 newId pName subgraph srg0 srg1 pr hstep with
          ⟨hno, _⟩ | ⟨pe0, src0, tgt0, ie0, hpe0, _, hme, _, har⟩
        · exact absurd (hno pe hpe) (by rw [hout]; decide)
        · rw [hpe0] at hpe
          injection hpe with hpe
          subst hpe
          have hb1 : alookup srg1.graph.m_Edges (newId ++ ":" ++ pe0.m_Name)
              = some srg0.graph.nextId := by
            rw [hme, ainsert_fresh _ (hfresh pr (List.mem_cons_self _ _) pe0 hpe0)]
            exact alookup_append_fresh _ (hfresh pr (List.mem_cons_self _ _) pe0 hpe0)
          have ha1 : nlookup srg1.graph.edgeArena srg0.graph.nextId
              = some { m_Name := newId ++ ":" ++ pe0.m_Name, m_Source := some src0,
                       m_Target := some tgt0,
                       attr := newSrgEdgeAttrs newId pName m2 pe0.m_Name ie0 } := by
            rw [har]
            exact nlookup_append_fresh (fun q hq => Nat.ne_of_lt (harena q hq))
          rcases applyFold_preserves pg m2 newId pName subgraph t srg1 srg' h
              _ _ _ hb1 ha1 with ⟨fe', hb', ha', hs'⟩
          exact ⟨srg0.graph.nextId, fe', hb', ha', hs'⟩
      · -- the edge is handled later in the loop
        rcases applyEdgeStep_effects pg m2 newId pName subgraph srg0 srg1 a hstep with
          ⟨_, hme, hni, hkeys, _⟩ | ⟨pe0, src0, tgt0, ie0, hpe0, _, hme, hni, har⟩
        · refine ih srg1 srg' h ?_ ?_ htail pr hprt pe hpe hout
          · intro q hq
            rcases hkeys q hq with ⟨q0, hq0, he⟩
            rw [hni, he]
            exact harena q0 hq0
          · intro pr' hpr' pe' hpe'
            rw [hme]
            exact hfresh pr' (List.mem_cons_of_mem _ hpr') pe' hpe'
        · refine ih srg1 srg' h ?_ ?_ htail pr hprt pe hpe hout
          · intro q hq
            rw [har] at hq
            rw [hni]
            rcases List.mem_append.mp hq with hq | hq
            · exact Nat.lt_succ_of_lt (harena q hq)
            · rcases List.mem_singleton.mp hq with rfl
              exact Nat.lt_succ_self _
          · intro pr' hpr' pe' hpe'
            rw [hme]
            refine alookup_ainsert_none_ne _
              (hfresh pr' (List.mem_cons_of_mem _ hpr') pe' hpe') ?_
            intro hcontra
            exact hhead pr' hpr' pe0 pe' hpe0 hpe' (string_append_right_inj hcontra)

theorem except_bind_ok_inv {ε α β : Type} {x : Except ε α} {f : α → Except ε β} {b : β}
    (h : (x >>= f) = .ok b) : ∃ a, x = .ok a ∧ f a = .ok b := by
  cases x with
  | error e => rw [exceptBind_error] at h; exact Except.noConfusion h
  | ok a => exact ⟨a, rfl, by rw [exceptBind_ok] at h; exact h⟩

/-- One node-instantiation step keeps the pattern graph's edge structure and
the matching's information sources. -/
theorem instNodeStep_keeps (srg : SRGraph)
    (s : UTQLSubgraph × Graph UTQLNode UTQLEdge × EdgeMatching) (a : String × Nat)
    (s' : UTQLSubgraph × Graph UTQLNode UTQLEdge × EdgeMatching)
    (h : instNodeStep srg s a = .ok s') :
    s'.2.1.m_Edges = s.2.1.m_Edges ∧ s'.2.1.edgeArena = s.2.1.edgeArena ∧
    s'.2.2.m_informationSources = s.2.2.m_informationSources := by
  obtain ⟨xsg, xpg, xm⟩ := s
  rw [instNodeStep] at h
  dsimp only at h
  cases hpn : nlookup xpg.nodeArena a.2 with
  | none => simp only [hpn] at h; exact Except.noConfusion h
  | some pn =>
    simp only [hpn] at h
    cases hc : EdgeMatching.getCorrespondingSrgVertex xm a.2 with
    | none => simp only [hc] at h; exact Except.noConfusion h
    | some srgNid =>
      simp only [hc] at h
      cases hsn : nlookup srg.graph.nodeArena srgNid with
      | none => simp only [hsn] at h; exact Except.noConfusion h
      | some srgNode =>
        simp only [hsn] at h
        cases haddn : xsg.graph.addNode pn.m_Name
            { pn.attr with
                attrs := KVAttrs.mergeAttributes pn.attr.attrs srgNode.attr.attrs
                m_QualifiedName := srgNode.m_Name
                m_predicateList := [] } with
        | error e => simp only [haddn] at h; exact Except.noConfusion h
        | ok pr2 =>
          obtain ⟨g2, nid2⟩ := pr2
          simp only [haddn] at h
          by_cases hop : pn.attr.isOutput = true
          · rw [if_pos hop] at h
            injection h with h
            subst h
            exact ⟨updateNode_m_Edges _ _ _, updateNode_edgeArena _ _ _, rfl⟩
          · rw [if_neg hop] at h
            injection h with h
            subst h
            exact ⟨rfl, rfl, rfl⟩

/-- One edge-instantiation step keeps the matching's information sources. -/
theorem instEdgeStep_keeps (srg : SRGraph) (pg1 : Graph UTQLNode UTQLEdge)
    (s : UTQLSubgraph × EdgeMatching) (a : String × Nat)
    (s' : UTQLSubgraph × EdgeMatching)
    (h : instEdgeStep srg pg1 s a = .ok s') :
    s'.2.m_informationSources = s.2.m_informationSources := by
  obtain ⟨xsg, xm⟩ := s
  rw [instEdgeStep] at h
  dsimp only at h
  cases hpe : nlookup pg1.edgeArena a.2 with
  | none => simp only [hpe] at h; exact Except.noConfusion h
  | some pe =>
    simp only [hpe] at h
    cases hes : pe.m_Source with
    | none =>
      cases het : pe.m_Target <;> simp only [hes, het] at h <;>
        exact Except.noConfusion h
    | some srcPid =>
      cases het : pe.m_Target with
      | none => simp only [hes, het] at h; exact Except.noConfusion h
      | some tgtPid =>
        simp only [hes, het] at h
        cases hns : nlookup pg1.nodeArena srcPid with
        | none =>
          cases hnt : nlookup pg1.nodeArena tgtPid <;>
            simp only [hns, hnt] at h <;> exact Except.noConfusion h
        | some srcNode =>
          cases hnt : nlookup pg1.nodeArena tgtPid with
          | none => simp only [hns, hnt] at h; exact Except.noConfusion h
          | some tgtNode =>
            simp only [hns, hnt] at h
            cases has : alookup xsg.graph.m_Nodes srcNode.m_Name with
            | none =>
              cases hat : alookup xsg.graph.m_Nodes tgtNode.m_Name <;>
                simp only [has, hat] at h <;> exact Except.noConfusion h
            | some src =>
              cases hat : alookup xsg.graph.m_Nodes tgtNode.m_Name with
              | none => simp only [has, hat] at h; exact Except.noConfusion h
              | some tgt =>
                simp only [has, hat] at h
                by_cases hip : pe.attr.isInput = true
                · rw [if_pos hip] at h
                  cases hce : EdgeMatching.getCorrespondingSrgEdge xm a.2 with
                  | none => simp only [hce] at h; exact Except.noConfusion h
                  | some fid =>
                    simp only [hce] at h
                    cases hfe : nlookup srg.graph.edgeArena fid with
                    | none => simp only [hfe] at h; exact Except.noConfusion h
                    | some fe =>
                      simp only [hfe] at h
                      rcases hadd : xsg.graph.addEdge pe.m_Name src tgt
                          { m_Tag := .Input
                            attrs := KVAttrs.mergeAttributes [] fe.attr.attrs
                            m_EdgeReference :=
                              some (fe.attr.m_SubgraphID, fe.attr.m_LocalName) } with
                        ⟨g2, eid2⟩
                      rw [hadd] at h
                      injection h with h
                      subst h
                      rfl
                · rw [if_neg hip] at h
                  by_cases hop : pe.attr.isOutput = true
                  · rw [if_pos hop] at h
                    rcases hadd : xsg.graph.addEdge pe.m_Name src tgt
                        { m_Tag := .Output
                          attrs :=
                            match alookup xm.m_expandedEdgeAttributes pe.m_Name with
                            | some a => a
                            | none => []
                          m_InformationSources := xm.m_informationSources } with
                      ⟨g2, eid2⟩
                    rw [hadd] at h
                    injection h with h
                    subst h
                    rfl
                  · rw [if_neg hop] at h
                    injection h with h
                    subst h
                    rfl

/-- `instanciatePattern` does not touch the pattern graph's edge structure,
the pattern's name or the matching's collected information sources. -/
theorem instanciatePattern_effects (p : Pattern) (srg : SRGraph) (m : EdgeMatching)
    (sg : UTQLSubgraph) (p2 : Pattern) (m2 : EdgeMatching)
    (hins : instanciatePattern p srg m = .ok (sg, p2, m2)) :
    p2.m_Graph.graph.m_Edges = p.m_Graph.graph.m_Edges ∧
    p2.m_Graph.graph.edgeArena = p.m_Graph.graph.edgeArena ∧
    p2.m_Name = p.m_Name ∧
    m2.m_informationSources = m.m_informationSources := by
  simp only [instanciatePattern] at hins
  obtain ⟨trip, hf1, hins⟩ := except_bind_ok_inv hins
  obtain ⟨sg1, pg1, mm1⟩ := trip
  dsimp only at hins
  obtain ⟨pr2, hf2, hins⟩ := except_bind_ok_inv hins
  obtain ⟨sg2, mm2⟩ := pr2
  dsimp only at hins
  injection hins with hins
  rw [Prod.mk.injEq, Prod.mk.injEq] at hins
  obtain ⟨hsg, hp2, hm2⟩ := hins
  have hP1 := foldlM_inv
    (fun (acc : UTQLSubgraph × Graph UTQLNode UTQLEdge × EdgeMatching) =>
      acc.2.1.m_Edges = p.m_Graph.graph.m_Edges ∧
      acc.2.1.edgeArena = p.m_Graph.graph.edgeArena ∧
      acc.2.2.m_informationSources = m.m_informationSources)
    (fun s a s' hs hp => by
      rcases instNodeStep_keeps srg s a s' hs with ⟨k1, k2, k3⟩
      exact ⟨k1.trans hp.1, k2.trans hp.2.1, k3.trans hp.2.2⟩)
    p.m_Graph.graph.m_Nodes _ _ hf1 ⟨rfl, rfl, rfl⟩
  have hP2 := foldlM_inv
    (fun (acc : UTQLSubgraph × EdgeMatching) =>
      acc.2.m_informationSources = mm1.m_informationSources)
    (fun s a s' hs hp => (instEdgeStep_keeps srg pg1 s a s' hs).trans hp)
    pg1.m_Edges _ _ hf2 rfl
  refine ⟨?_, ?_, ?_, ?_⟩
  · rw [← hp2]; exact hP1.1
  · rw [← hp2]; exact hP1.2.1
  · rw [← hp2]
  · rw [← hm2]; exact hP2.trans hP1.2.2

/-- C3: after a matching is expanded and applied, the matching's collected
information-source set is exactly the union of the sets of the SRG edges
matched to the pattern's input edges, and every SRG edge inserted for the
instance carries exactly this set.  The freshness and uniqueness hypotheses
say that the new instance's edge names do not collide with existing world
edges (the id counter guarantees this in the running system) and that the
pattern's edges have pairwise distinct names (a `std::map` invariant of the
source). -/
theorem c3_information_source_union
    (st : SRGManager) (p : Pattern) (m0 m1 : EdgeMatching)
    (st2 : SRGManager) (p2 : Pattern) (m2 : EdgeMatching)
    (hexp : expandMatchingAttributes p st.m_GlobalSrg m0 = .ok m1)
    (happ : applyDetectedPattern st p m1 = .ok (st2, p2, m2))
    (harena : ∀ q ∈ st.m_GlobalSrg.graph.edgeArena, q.1 < st.m_GlobalSrg.graph.nextId)
    (hfresh : ∀ pr ∈ p.m_Graph.graph.m_Edges, ∀ pe,
        nlookup p.m_Graph.graph.edgeArena pr.2 = some pe →
        alookup st.m_GlobalSrg.graph.m_Edges
          (p.m_Name ++ toString st.patternApplicationID ++ ":" ++ pe.m_Name) = none)
    (hnodup : p.m_Graph.graph.m_Edges.Pairwise (fun a b => ∀ pea peb,
        nlookup p.m_Graph.graph.edgeArena a.2 = some pea →
        nlookup p.m_Graph.graph.edgeArena b.2 = some peb →
        pea.m_Name ≠ peb.m_Name)) :
    (∀ x, x ∈ m1.m_informationSources ↔
       ∃ pr ∈ p.m_Graph.graph.m_Edges,
         inputEdgeSourceIn p.m_Graph.graph.edgeArena st.m_GlobalSrg
           m0.m_edgeForwardMap pr x) ∧
    (∀ pr ∈ p.m_Graph.graph.m_Edges, ∀ pe,
        nlookup p.m_Graph.graph.edgeArena pr.2 = some pe → pe.attr.isOutput = true →
        ∃ fid fe,
          alookup st2.m_GlobalSrg.graph.m_Edges
            (p.m_Name ++ toString st.patternApplicationID ++ ":" ++ pe.m_Name) = some fid ∧
          nlookup st2.m_GlobalSrg.graph.edgeArena fid = some fe ∧
          fe.attr.m_InformationSources = m1.m_informationSources) := by
  constructor
  · exact (expandMatchingAttributes_sources p st.m_GlobalSrg m0 m1 hexp).2
  · simp only [applyDetectedPattern] at happ
    obtain ⟨trip, hins, happ⟩ := except_bind_ok_inv happ
    obtain ⟨sg0, p2x, m2x⟩ := trip
    dsimp only at happ
    obtain ⟨srg2, hfold, happ⟩ := except_bind_ok_inv happ
    injection happ with happ
    rw [Prod.mk.injEq, Prod.mk.injEq] at happ
    obtain ⟨hst2, _, _⟩ := happ
    obtain ⟨hE, hA, hN, hS⟩ := instanciatePattern_effects p st.m_GlobalSrg m1
      sg0 p2x m2x hins
    intro pr hpr pe hpe hout
    have hres := applyFold_output_edges p2x.m_Graph.graph m2x
      (p.m_Name ++ toString st.patternApplicationID) p2x.m_Name
      { sg0 with m_ID := p.m_Name ++ toString st.patternApplicationID }
      p2x.m_Graph.graph.m_Edges st.m_GlobalSrg srg2 hfold harena
      (by rw [hE, hA]; exact hfresh)
      (by rw [hE, hA]; exact hnodup)
      pr (by rw [hE]; exact hpr) pe (by rw [hA]; exact hpe) hout
    rcases hres with ⟨fid, fe, hb, ha, hs⟩
    refine ⟨fid, fe, ?_, ?_, ?_⟩
    · rw [← hst2]; exact hb
    · rw [← hst2]; exact ha
    · rw [hs, hS]

/-- Distinct mapped edge names give the pairwise-distinct-names property. -/
theorem pairwise_edge_names (pg : Graph UTQLNode UTQLEdge)
    (h : (pg.m_Edges.map (fun pr =>
        match nlookup pg.edgeArena pr.2 with
        | some pe => pe.m_Name
        | none => "")).Nodup) :
    pg.m_Edges.Pairwise (fun a b => ∀ pea peb,
      nlookup pg.edgeArena a.2 = some pea →
      nlookup pg.edgeArena b.2 = some peb → pea.m_Name ≠ peb.m_Name) := by
  have h2 := List.pairwise_map.mp h
  refine h2.imp ?_
  intro a b hab pea peb h1 h2' hcontra
  exact hab (by simp only [h1, h2']; exact hcontra)

/-- The fusion pattern of the C3 scenario: two input edges `inA`, `inB` and
one output edge `out` between input nodes `X` and `Y`. -/
def c3pg : Graph UTQLNode UTQLEdge :=
  { nextId := 5
    nodeArena :=
      [(0, { m_Name := "X", m_OutEdges := [2, 3, 4], attr := { m_Tag := .Input } }),
       (1, { m_Name := "Y", m_InEdges := [2, 3, 4], attr := { m_Tag := .Input } })]
    edgeArena :=
      [(2, { m_Name := "inA", m_Source := some 0, m_Target := some 1,
             attr := { m_Tag := .Input } }),
       (3, { m_Name := "inB", m_Source := some 0, m_Target := some 1,
             attr := { m_Tag := .Input } }),
       (4, { m_Name := "out", m_Source := some 0, m_Target := some 1,
             attr := { m_Tag := .Output } })]
    m_Nodes := [("X", 0), ("Y", 1)]
    m_Edges := [("inA", 2), ("inB", 3), ("out", 4)] }

def c3pat : Pattern :=
  { m_Name := "fuse", m_clientId := "", m_Graph := { graph := c3pg }, m_searchPlan := [] }

/-- The world SRG of the C3 scenario: nodes `A`, `B` and two parallel edges
with information sources `t1` and `t2`. -/
def c3srg : SRGraph :=
  { graph :=
      { nextId := 4
        nodeArena :=
          [(0, { m_Name := "A", m_OutEdges := [2, 3],
                 attr := { m_SubgraphIDs := ["s1"] } }),
           (1, { m_Name := "B", m_InEdges := [2, 3],
                 attr := { m_SubgraphIDs := ["s1"] } })]
        edgeArena :=
          [(2, { m_Name := "s1:e", m_Source := some 0, m_Target := some 1,
                 attr := { m_SubgraphID := "s1", m_LocalName := "e",
                           m_InformationSources := ["t1"] } }),
           (3, { m_Name := "s2:e", m_Source := some 0, m_Target := some 1,
                 attr := { m_SubgraphID := "s2", m_LocalName := "e",
                           m_InformationSources := ["t2"] } })]
        m_Nodes := [("A", 0), ("B", 1)]
        m_Edges := [("s1:e", 2), ("s2:e", 3)] }
    m_NodeIDMap := [("A", 0), ("B", 1)] }

def c3st : SRGManager := { m_GlobalSrg := c3srg }

/-- The matching of the fusion pattern against `c3srg`. -/
def c3m0 : EdgeMatching :=
  { m_edgeForwardMap := [(2, 2), (3, 3)]
    m_edgeBackwardMap := [(2, 2), (3, 3)]
    m_vertexForwardMap := [(0, (0, 1)), (1, (1, 1))]
    m_vertexBackwardMap := [(0, (0, 1)), (1, (1, 1))] }

/-- The expanded matching of the C3 scenario. -/
def c3m1 : EdgeMatching :=
  { m_edgeForwardMap := [(2, 2), (3, 3)]
    m_edgeBackwardMap := [(2, 2), (3, 3)]
    m_vertexForwardMap := [(0, (0, 1)), (1, (1, 1))]
    m_vertexBackwardMap := [(0, (0, 1)), (1, (1, 1))]
    m_expandedEdgeAttributes := [("out", [])]
    m_allInputAttributes := [("inA", []), ("inB", []), ("X", []), ("Y", [])]
    m_informationSources := ["t1", "t2"] }

/-- The manager state after applying the fusion instance. -/
def c3st2 : SRGManager :=
  match applyDetectedPattern c3st c3pat c3m1 with
  | .ok (s, _, _) => s
  | .error _ => {}

/-- The pattern returned by applying the fusion instance. -/
def c3p2 : Pattern :=
  match applyDetectedPattern c3st c3pat c3m1 with
  | .ok (_, p, _) => p
  | .error _ => c3pat

/-- The matching returned by applying the fusion instance. -/
def c3m2 : EdgeMatching :=
  match applyDetectedPattern c3st c3pat c3m1 with
  | .ok (_, _, m) => m
  | .error _ => {}

/-- Witness for `c3_information_source_union` on the fusion scenario. -/
theorem c3_information_source_union_witness :
    (∀ x, x ∈ c3m1.m_informationSources ↔
       ∃ pr ∈ c3pat.m_Graph.graph.m_Edges,
         inputEdgeSourceIn c3pat.m_Graph.graph.edgeArena c3st.m_GlobalSrg
           c3m0.m_edgeForwardMap pr x) ∧
    (∀ pr ∈ c3pat.m_Graph.graph.m_Edges, ∀ pe,
        nlookup c3pat.m_Graph.graph.edgeArena pr.2 = some pe →
        pe.attr.isOutput = true →
        ∃ fid fe,
          alookup c3st2.m_GlobalSrg.graph.m_Edges
            (c3pat.m_Name ++ toString c3st.patternApplicationID ++ ":" ++ pe.m_Name)
            = some fid ∧
          nlookup c3st2.m_GlobalSrg.graph.edgeArena fid = some fe ∧
          fe.attr.m_InformationSources = c3m1.m_informationSources) :=
  c3_information_source_union c3st c3pat c3m0 c3m1 c3st2 c3p2 c3m2
    (by rfl) (by rfl)
    (by decide)
    (by
      intro pr hpr pe hpe
      rcases List.mem_cons.mp hpr with rfl | hpr
      · injection hpe with hpe; subst hpe; decide
      · rcases List.mem_cons.mp hpr with rfl | hpr
        · injection hpe with hpe; subst hpe; decide
        · rcases List.mem_cons.mp hpr with rfl | hpr
          · injection hpe with hpe; subst hpe; decide
          · exact absurd hpr (List.not_mem_nil _))
    (pairwise_edge_names _ (by decide))

/-! ## C4: deleteSRG (src/utGraph/UTQLSRGManager.h) -/

/-- `SRGraph::removeNode( id )`: checked removal through the id map. -/
def SRGraph.removeNode (srg : SRGraph) (id : String) : Except String SRGraph :=
  if srg.hasNode id then do
    let g ← srg.graph.removeNodeByName id
    pure { srg with graph := g, m_NodeIDMap := aerase srg.m_NodeIDMap id }
  else throw ("Trying to erase node with unknown id: " ++ id)

/-- Body of the edge loop of `deleteSRG`: input edges erase the dependant
back-link on the referenced world edge; output edges push their unseen
dependants and are removed from the world SRG.  The accumulator is
`(world srg, pushed ids in push order, deleted-set)`. -/
def delEdgeInputPhase (subgraphID : String) (srg : SRGraph)
    (edge : GraphEdge UTQLEdge) : Except String SRGraph := do
  if edge.attr.isInput then
    let ref := match edge.attr.m_EdgeReference with
      | some r => r
      | none => ("", "")
    let primalEdgeName := ref.1 ++ ":" ++ ref.2
    if srg.graph.hasEdge primalEdgeName then
      match srg.graph.getEdge primalEdgeName with
      | .error e => throw e
      | .ok fid =>
        pure { srg with graph := srg.graph.updateEdge fid (fun e =>
          { e with attr := { e.attr with
              m_DependantSubgraphIDs :=
                e.attr.m_DependantSubgraphIDs.filter
                  (fun d => decide (d ≠ subgraphID)) } }) }
    else pure srg
  else pure srg

def delEdgeOutputPhase (subgraphID : String) (edge : GraphEdge UTQLEdge)
    (srg1 : SRGraph) (pushed1 deleted1 : List String) :
    Except String (SRGraph × List String × List String) := do
  if edge.attr.isOutput then
    let edgeName := subgraphID ++ ":" ++ edge.m_Name
    match srg1.graph.getEdge edgeName with
    | .error e => throw e
    | .ok fid =>
      match nlookup srg1.graph.edgeArena fid with
      | none => throw "dangling srg edge"
      | some srgEdge =>
        let (pushed2, deleted2) := srgEdge.attr.m_DependantSubgraphIDs.foldl
          (fun (acc2 : List String × List String) dep =>
            if dep ∈ acc2.2 then acc2
            else (acc2.1 ++ [dep], acc2.2 ++ [dep]))
          (pushed1, deleted1)
        match srg1.graph.removeEdge fid with
        | .error e => throw e
        | .ok g2 => pure ({ srg1 with graph := g2 }, pushed2, deleted2)
  else pure (srg1, pushed1, deleted1)

/-- Body of the edge loop of `deleteSRG`: input edges erase the dependant
back-link on the referenced world edge; output edges push their unseen
dependants and are removed from the world SRG.  The accumulator is
`(world srg, pushed ids in push order, deleted-set)`. -/
def delEdgeStep (subgraph : UTQLSubgraph) (subgraphID : String)
    (acc : SRGraph × List String × List String) (pr : String × Nat) :
    Except String (SRGraph × List String × List String) := do
  let (srg, pushed, deleted) := acc
  match nlookup subgraph.graph.edgeArena pr.2 with
  | none => throw "dangling subgraph edge"
  | some edge => do
    let srg1 ← delEdgeInputPhase subgraphID srg edge
    delEdgeOutputPhase subgraphID edge srg1 pushed deleted

/-- Body of the node loop of `deleteSRG`: output nodes of the deleted
subgraph lose this subgraph from their spawn set (and node-reference list);
a node whose spawn set becomes empty is marked removable. -/
def delNodeStep (subgraph : UTQLSubgraph) (subgraphID : String)
    (acc : SRGraph × List String) (pr : String × Nat) :
    Except String (SRGraph × List String) := do
  let (srg, removable) := acc
  match nlookup subgraph.graph.nodeArena pr.2 with
  | none => throw "dangling subgraph node"
  | some node =>
    if ! node.attr.isOutput then pure (srg, removable)
    else if ! srg.hasNode node.attr.m_QualifiedName then
      throw ("Trying to remove unregistered node:" ++ node.attr.m_QualifiedName)
    else
      match SRGraph.getNode srg node.attr.m_QualifiedName with
      | .error e => throw e
      | .ok nid =>
        match nlookup srg.graph.nodeArena nid with
        | none => throw "dangling srg node"
        | some srgNode =>
          let newAttr := { srgNode.attr with
              m_SubgraphIDs := srgNode.attr.m_SubgraphIDs.filter
                (fun d => decide (d ≠ subgraphID))
              m_NodeRefs := srgNode.attr.m_NodeRefs.filter
                (fun r => decide (r ≠ (subgraphID, pr.1))) }
          let srg' := { srg with
              graph := srg.graph.updateNode nid (fun nd => { nd with attr := newAttr }) }
          if newAttr.m_SubgraphIDs = [] then
            pure (srg', insertS removable node.attr.m_QualifiedName)
          else pure (srg', removable)

/-- The worklist loop of `UTQLSRGManager::deleteSRG`, fuel-bounded (the
deleted-set guard bounds the real loop). -/
def deleteSRGLoop : Nat → SRGraph → List (String × InstantiatedPattern) →
    List String → List String → List String →
    Except String (SRGraph × List (String × InstantiatedPattern) × List String)
  | 0, _, _, _, _, _ => throw "deleteSRG: loop did not terminate"
  | fuel + 1, srg, repo, stack, deleted, removable =>
    match stack with
    | [] => pure (srg, repo, removable)
    | subgraphID :: stackRest =>
      match alookup repo subgraphID with
      | none => deleteSRGLoop fuel srg repo stackRest deleted removable
      | some ip => do
        let subgraph := ip.graph
        let (srg1, pushed, deleted1) ← subgraph.graph.m_Edges.foldlM
          (delEdgeStep subgraph subgraphID) (srg, [], deleted)
        let (srg2, removable1) ← subgraph.graph.m_Nodes.foldlM
          (delNodeStep subgraph subgraphID) (srg1, removable)
        deleteSRGLoop fuel srg2 (aerase repo subgraphID)
          (pushed.reverse ++ stackRest) deleted1 removable1

/-- `UTQLSRGManager::deleteSRG`: delete a subgraph and everything dependent
on it, then remove nodes left without a spawning subgraph. -/
def deleteSRG (fuel : Nat) (st : SRGManager) (primalSubgraphID : String) :
    Except String SRGManager := do
  let (srg1, repo1, removable) ←
    deleteSRGLoop fuel st.m_GlobalSrg st.m_GraphRepository [primalSubgraphID] [] []
  let srg2 ← removable.foldlM SRGraph.removeNode srg1
  pure { st with m_GlobalSrg := srg2, m_GraphRepository := repo1 }

/-- A subgraph id used in world edge names; it must not contain the `:`
separator of the `id:localname` convention. -/
def colonFree (s : String) : Prop := ':' ∉ s.data

instance (s : String) : Decidable (colonFree s) := by
  unfold colonFree
  infer_instance

/-- `y` produces a world edge that `x` declared as an input (the stored
dependant back-link). -/
def depLink (srg : SRGraph) (y x : String) : Prop :=
  ∃ nm fid fe, alookup srg.graph.m_Edges nm = some fid ∧
    nlookup srg.graph.edgeArena fid = some fe ∧
    fe.attr.m_SubgraphID = y ∧ x ∈ fe.attr.m_DependantSubgraphIDs

/-- Chains of dependant links of a given length. -/
inductive DepChainN (srg : SRGraph) : Nat → String → String → Prop
  | refl (x : String) : DepChainN srg 0 x x
  | step {m : Nat} {y w x : String} : depLink srg y w → DepChainN srg m w x →
      DepChainN srg (m + 1) y x

/-- No world edge produced by `y` remains (reachable through the edge
map). -/
def edgesGone (srg : SRGraph) (y : String) : Prop :=
  ∀ nm fid fe, alookup srg.graph.m_Edges nm = some fid →
    nlookup srg.graph.edgeArena fid = some fe → fe.attr.m_SubgraphID ≠ y

/-- Well-formedness of the world SRG against the repository: every edge is
named `subgraphID:localName` with colon-free ids, its producer is
registered with a matching output edge, and edge names are unique. -/
def srgRepoWF (srg : SRGraph) (repo : List (String × InstantiatedPattern)) : Prop :=
  (∀ pr ∈ srg.graph.m_Edges, ∃ fe,
     nlookup srg.graph.edgeArena pr.2 = some fe ∧
     fe.m_Name = pr.1 ∧
     pr.1 = fe.attr.m_SubgraphID ++ ":" ++ fe.attr.m_LocalName ∧
     colonFree fe.attr.m_SubgraphID ∧
     (∀ d ∈ fe.attr.m_DependantSubgraphIDs, colonFree d) ∧
     ∃ ip, alookup repo fe.attr.m_SubgraphID = some ip ∧
       ∃ epr ∈ ip.graph.graph.m_Edges, ∃ pe,
         nlookup ip.graph.graph.edgeArena epr.2 = some pe ∧
         pe.attr.isOutput = true ∧ pe.m_Name = fe.attr.m_LocalName) ∧
  (srg.graph.m_Edges.map Prod.fst).Nodup ∧
  (∀ pr ∈ repo, colonFree pr.1)

theorem alookup_aerase_self {β : Type} {m : List (String × β)} {k : String}
    (h : (m.map Prod.fst).Nodup) : alookup (aerase m k) k = none := by
  induction m with
  | nil => rfl
  | cons x t ih =>
    rcases x with ⟨k1, v1⟩
    rw [List.map_cons, List.nodup_cons] at h
    unfold aerase
    by_cases hk : k1 = k
    · rw [if_pos hk]
      subst hk
      -- k1 is not a key of t
      clear ih
      induction t with
      | nil => rfl
      | cons y s ih2 =>
        rcases y with ⟨k2, v2⟩
        show (if k2 = k1 then some v2 else alookup s k1) = none
        rw [List.map_cons] at h
        have hne : k2 ≠ k1 := by
          intro hcontra
          exact h.1 (hcontra ▸ List.mem_cons_self _ _)
        rw [if_neg hne]
        exact ih2 ⟨fun hmem => h.1 (List.mem_cons_of_mem _ hmem), (List.nodup_cons.mp h.2).2⟩
    · rw [if_neg hk]
      show (if k1 = k then some v1 else alookup (aerase t k) k) = none
      rw [if_neg hk]
      exact ih h.2

theorem alookup_aerase_ne {β : Type} {m : List (String × β)} {k k2 : String}
    (hne : k ≠ k2) : alookup (aerase m k2) k = alookup m k := by
  induction m with
  | nil => rfl
  | cons x t ih =>
    rcases x with ⟨k1, v1⟩
    unfold aerase
    by_cases hk : k1 = k2
    · rw [if_pos hk]
      show _ = (if k1 = k then some v1 else alookup t k)
      rw [if_neg (by rw [hk]; exact fun hc => hne hc.symm)]
    · rw [if_neg hk]
      show (if k1 = k then some v1 else alookup (aerase t k2) k)
          = (if k1 = k then some v1 else alookup t k)
      by_cases hk1 : k1 = k
      · rw [if_pos hk1, if_pos hk1]
      · rw [if_neg hk1, if_neg hk1]
        exact ih

theorem aerase_sublist {β : Type} (m : List (String × β)) (k : String) :
    (aerase m k).Sublist m := by
  induction m with
  | nil => exact List.Sublist.refl _
  | cons x t ih =>
    rcases x with ⟨k1, v1⟩
    unfold aerase
    by_cases hk : k1 = k
    · rw [if_pos hk]
      exact List.sublist_cons_of_sublist _ (List.Sublist.refl _)
    · rw [if_neg hk]
      exact ih.cons₂ _

theorem colonfree_split {b d : List Char} :
    ∀ {a c : List Char}, ':' ∉ a → ':' ∉ c →
    a ++ ':' :: b = c ++ ':' :: d → a = c ∧ b = d := by
  intro a
  induction a with
  | nil =>
    intro c _ hc h
    cases c with
    | nil => simpa using h
    | cons y cs =>
      injection h with h1 _
      exact absurd (h1 ▸ List.mem_cons_self _ _) hc
  | cons x as ih =>
    intro c ha hc h
    cases c with
    | nil =>
      injection h with h1 _
      exact absurd (h1 ▸ List.mem_cons_self _ _) ha
    | cons y cs =>
      injection h with h1 h2
      subst h1
      have hr := ih (fun hmem => ha (List.mem_cons_of_mem _ hmem))
        (fun hmem => hc (List.mem_cons_of_mem _ hmem)) h2
      exact ⟨by rw [hr.1], hr.2⟩

/-- Names of the `id:localname` convention determine their components when
the ids are colon-free. -/
theorem colonfree_name_inj {s1 l1 s2 l2 : String} (h1 : colonFree s1)
    (h2 : colonFree s2) (h : s1 ++ ":" ++ l1 = s2 ++ ":" ++ l2) :
    s1 = s2 ∧ l1 = l2 := by
  have hd : s1.data ++ ':' :: l1.data = s2.data ++ ':' :: l2.data := by
    have := congrArg String.data h
    rw [String.data_append, String.data_append, String.data_append,
      String.data_append] at this
    simpa using this
  have hr := colonfree_split h1 h2 hd
  exact ⟨String.ext hr.1, String.ext hr.2⟩

theorem updateNode_lookup {NA EA : Type} (g : Graph NA EA) (k : Nat)
    (f : GraphNode NA → GraphNode NA) {i : Nat} {nd : GraphNode NA}
    (h : nlookup g.nodeArena i = some nd) :
    nlookup (g.updateNode k f).nodeArena i = some nd ∨
    nlookup (g.updateNode k f).nodeArena i = some (f nd) := by
  unfold Graph.updateNode
  cases hed : nlookup g.nodeArena k with
  | none => exact Or.inl h
  | some ed =>
    by_cases hi : i = k
    · subst hi
      rw [h] at hed
      cases hed
      right
      show nlookup (nset g.nodeArena i (f nd)) i = some (f nd)
      exact nlookup_nset_self (by rw [h]; rfl)
    · left
      show nlookup (nset g.nodeArena k (f ed)) i = some nd
      rw [nlookup_nset_other hi]
      exact h

theorem updateNode_m_Nodes {NA EA : Type} (g : Graph NA EA) (nid : Nat)
    (f : GraphNode NA → GraphNode NA) : (g.updateNode nid f).m_Nodes = g.m_Nodes := by
  unfold Graph.updateNode
  split <;> rfl

theorem updateEdge_m_Nodes {NA EA : Type} (g : Graph NA EA) (eid : Nat)
    (f : GraphEdge EA → GraphEdge EA) : (g.updateEdge eid f).m_Nodes = g.m_Nodes := by
  unfold Graph.updateEdge
  split <;> rfl

/-- The effect of `Graph::removeEdge` on the observable structure: one edge
map binding (the removed edge's name) is erased, node and edge objects keep
their names and attributes, the node map is untouched. -/
theorem removeEdge_effects {NA EA : Type} (g : Graph NA EA) (eid : Nat)
    (g2 : Graph NA EA) (h : g.removeEdge eid = .ok g2) :
    ∃ ed, nlookup g.edgeArena eid = some ed ∧
      g2.m_Edges = aerase g.m_Edges ed.m_Name ∧
      (∀ i fe, nlookup g.edgeArena i = some fe →
        ∃ fe', nlookup g2.edgeArena i = some fe' ∧
          fe'.m_Name = fe.m_Name ∧ fe'.attr = fe.attr) ∧
      (∀ i nd, nlookup g.nodeArena i = some nd →
        ∃ nd', nlookup g2.nodeArena i = some nd' ∧
          nd'.m_Name = nd.m_Name ∧ nd'.attr = nd.attr) ∧
      g2.m_Nodes = g.m_Nodes := by
  rw [Graph.removeEdge] at h
  cases hed : nlookup g.edgeArena eid with
  | none => simp only [hed] at h; exact Except.noConfusion h
  | some ed =>
    simp only [hed] at h
    -- name the two incidence updates
    set g1 := (match ed.m_Source with
      | some srcId =>
        g.updateNode srcId (fun nd => { nd with m_OutEdges := removeFirst nd.m_OutEdges eid })
      | none => g) with hg1
    set gb := (match ed.m_Target with
      | some tgtId =>
        g1.updateNode tgtId (fun nd => { nd with m_InEdges := removeFirst nd.m_InEdges eid })
      | none => g1) with hgb
    have hg1_edges : g1.m_Edges = g.m_Edges := by
      rw [hg1]; cases ed.m_Source <;> simp only [updateNode_m_Edges]
    have hg1_earena : g1.edgeArena = g.edgeArena := by
      rw [hg1]; cases ed.m_Source <;> simp only [updateNode_edgeArena]
    have hg1_nodes : g1.m_Nodes = g.m_Nodes := by
      rw [hg1]; cases ed.m_Source <;> simp only [updateNode_m_Nodes]
    have hg1_narena : ∀ i nd, nlookup g.nodeArena i = some nd →
        ∃ nd', nlookup g1.nodeArena i = some nd' ∧
          nd'.m_Name = nd.m_Name ∧ nd'.attr = nd.attr := by
      rw [hg1]; cases ed.m_Source with
      | none => exact fun i nd hnd => ⟨nd, hnd, rfl, rfl⟩
      | some srcId =>
        intro i nd hnd
        rcases updateNode_lookup g srcId _ hnd with h' | h'
        · exact ⟨nd, h', rfl, rfl⟩
        · exact ⟨_, h', rfl, rfl⟩
    have hgb_edges : gb.m_Edges = g.m_Edges := by
      rw [hgb]; cases ed.m_Target <;> simp only [updateNode_m_Edges] <;> exact hg1_edges
    have hgb_earena : gb.edgeArena = g.edgeArena := by
      rw [hgb]; cases ed.m_Target <;> simp only [updateNode_edgeArena] <;> exact hg1_earena
    have hgb_nodes : gb.m_Nodes = g.m_Nodes := by
      rw [hgb]; cases ed.m_Target <;> simp only [updateNode_m_Nodes] <;> exact hg1_nodes
    have hgb_narena : ∀ i nd, nlookup g.nodeArena i = some nd →
        ∃ nd', nlookup gb.nodeArena i = some nd' ∧
          nd'.m_Name = nd.m_Name ∧ nd'.attr = nd.attr := by
      rw [hgb]; cases ed.m_Target with
      | none => exact hg1_narena
      | some tgtId =>
        intro i nd hnd
        rcases hg1_narena i nd hnd with ⟨nd1, hnd1, hn1, ha1⟩
        rcases updateNode_lookup g1 tgtId _ hnd1 with h' | h'
        · exact ⟨nd1, h', hn1, ha1⟩
        · exact ⟨_, h', hn1, ha1⟩
    -- the weak-pointer reset
    set g3 := gb.updateEdge eid (fun e => { e with m_Source := none, m_Target := none })
      with hg3
    have hg3_edges : g3.m_Edges = g.m_Edges := by
      rw [hg3, updateEdge_m_Edges]; exact hgb_edges
    have hg3_nodes : g3.m_Nodes = g.m_Nodes := by
      rw [hg3, updateEdge_m_Nodes]; exact hgb_nodes
    have hg3_narena : g3.nodeArena = gb.nodeArena := by
      rw [hg3, updateEdge_nodeArena]
    have hg3_earena : ∀ i fe, nlookup g.edgeArena i = some fe →
        ∃ fe', nlookup g3.edgeArena i = some fe' ∧
          fe'.m_Name = fe.m_Name ∧ fe'.attr = fe.attr := by
      intro i fe hfe
      have hfeb : nlookup gb.edgeArena i = some fe := by rw [hgb_earena]; exact hfe
      rcases updateEdge_lookup gb eid _ hfeb with h' | h'
      · exact ⟨fe, by rw [hg3]; exact h', rfl, rfl⟩
      · exact ⟨{ fe with m_Source := none, m_Target := none },
          by rw [hg3]; exact h', rfl, rfl⟩
    cases hfind : alookup g3.m_Edges ed.m_Name with
    | none => simp only [hfind] at h; exact Except.noConfusion h
    | some fid2 =>
      simp only [hfind] at h
      injection h with h
      subst h
      refine ⟨ed, rfl, ?_, ?_, ?_, hg3_nodes⟩
      · show aerase g3.m_Edges ed.m_Name = aerase g.m_Edges ed.m_Name
        rw [hg3_edges]
      · exact hg3_earena
      · intro i nd hnd
        rcases hgb_narena i nd hnd with ⟨nd', h', hn, ha⟩
        exact ⟨nd', by rw [hg3_narena]; exact h', hn, ha⟩

/-- Name-consistency of the edge map: every binding's arena object carries
the binding's name, and names are unique. -/
def mapNameWF (srg : SRGraph) : Prop :=
  (∀ pr ∈ srg.graph.m_Edges, ∃ fe,
    nlookup srg.graph.edgeArena pr.2 = some fe ∧ fe.m_Name = pr.1) ∧
  (srg.graph.m_Edges.map Prod.fst).Nodup

theorem pushFold_facts (deps : List String) :
    ∀ (pstate : List String × List String),
    (∀ x ∈ pstate.2, x ∈ (deps.foldl (fun acc2 dep =>
        if dep ∈ acc2.2 then acc2 else (acc2.1 ++ [dep], acc2.2 ++ [dep])) pstate).2) ∧
    (∀ x ∈ pstate.1, x ∈ (deps.foldl (fun acc2 dep =>
        if dep ∈ acc2.2 then acc2 else (acc2.1 ++ [dep], acc2.2 ++ [dep])) pstate).1) ∧
    (∀ d ∈ deps, d ∈ (deps.foldl (fun acc2 dep =>
        if dep ∈ acc2.2 then acc2 else (acc2.1 ++ [dep], acc2.2 ++ [dep])) pstate).2) ∧
    (∀ x ∈ (deps.foldl (fun acc2 dep =>
        if dep ∈ acc2.2 then acc2 else (acc2.1 ++ [dep], acc2.2 ++ [dep])) pstate).1,
      x ∈ pstate.1 ∨ x ∈ (deps.foldl (fun acc2 dep =>
        if dep ∈ acc2.2 then acc2 else (acc2.1 ++ [dep], acc2.2 ++ [dep])) pstate).2) ∧
    (∀ x ∈ (deps.foldl (fun acc2 dep =>
        if dep ∈ acc2.2 then acc2 else (acc2.1 ++ [dep], acc2.2 ++ [dep])) pstate).2,
      x ∈ pstate.2 ∨ x ∈ (deps.foldl (fun acc2 dep =>
        if dep ∈ acc2.2 then acc2 else (acc2.1 ++ [dep], acc2.2 ++ [dep])) pstate).1) := by
  induction deps with
  | nil => exact fun pstate => ⟨fun x hx => hx, fun x hx => hx, by simp,
      fun x hx => Or.inl hx, fun x hx => Or.inl hx⟩
  | cons dep t ih =>
    intro pstate
    rw [List.foldl_cons]
    by_cases hd : dep ∈ pstate.2
    · rw [if_pos hd]
      rcases ih pstate with ⟨i1, i2, i3, i4, i5⟩
      refine ⟨i1, i2, ?_, i4, i5⟩
      intro d hdm
      rcases List.mem_cons.mp hdm with rfl | hdm
      · exact i1 d hd
      · exact i3 d hdm
    · rw [if_neg hd]
      rcases ih (pstate.1 ++ [dep], pstate.2 ++ [dep]) with ⟨i1, i2, i3, i4, i5⟩
      refine ⟨?_, ?_, ?_, ?_, ?_⟩
      · intro x hx
        exact i1 x (List.mem_append.mpr (Or.inl hx))
      · intro x hx
        exact i2 x (List.mem_append.mpr (Or.inl hx))
      · intro d hdm
        rcases List.mem_cons.mp hdm with rfl | hdm
        · exact i1 d (List.mem_append.mpr (Or.inr (List.mem_singleton.mpr rfl)))
        · exact i3 d hdm
      · intro x hx
        rcases i4 x hx with hx' | hx'
        · rcases List.mem_append.mp hx' with hx'' | hx''
          · exact Or.inl hx''
          · rcases List.mem_singleton.mp hx'' with rfl
            exact Or.inr (i1 x (List.mem_append.mpr (Or.inr (List.mem_singleton.mpr rfl))))
        · exact Or.inr hx'
      · intro x hx
        rcases i5 x hx with hx' | hx'
        · rcases List.mem_append.mp hx' with hx'' | hx''
          · exact Or.inl hx''
          · rcases List.mem_singleton.mp hx'' with rfl
            exact Or.inr (i2 x (List.mem_append.mpr (Or.inr (List.mem_singleton.mpr rfl))))
        · exact Or.inr hx'


theorem alookup_mem {β : Type} {m : List (String × β)} {k : String} {v : β}
    (h : alookup m k = some v) : (k, v) ∈ m := by
  induction m with
  | nil => exact absurd h (by simp [alookup])
  | cons x t ih =>
    rcases x with ⟨k1, v1⟩
    unfold alookup at h
    by_cases hk : k1 = k
    · rw [if_pos hk] at h
      injection h with h
      subst hk
      subst h
      exact List.mem_cons_self _ _
    · rw [if_neg hk] at h
      exact List.mem_cons_of_mem _ (ih h)

/-- The input phase of a `deleteSRG` edge step only filters the processed
subgraph id out of one dependant set. -/
theorem delEdgeInputPhase_effects (subgraphID : String) (srg : SRGraph)
    (edge : GraphEdge UTQLEdge) (srg1 : SRGraph)
    (h : delEdgeInputPhase subgraphID srg edge = .ok srg1) :
    srg1.graph.m_Edges = srg.graph.m_Edges ∧
    (∀ i fe, nlookup srg.graph.edgeArena i = some fe →
      ∃ fe', nlookup srg1.graph.edgeArena i = some fe' ∧
        fe'.m_Name = fe.m_Name ∧
        fe'.attr.m_SubgraphID = fe.attr.m_SubgraphID ∧
        fe'.attr.m_LocalName = fe.attr.m_LocalName ∧
        (∀ d ∈ fe'.attr.m_DependantSubgraphIDs, d ∈ fe.attr.m_DependantSubgraphIDs) ∧
        (∀ d ∈ fe.attr.m_DependantSubgraphIDs, d ≠ subgraphID →
          d ∈ fe'.attr.m_DependantSubgraphIDs)) ∧
    srg1.graph.m_Nodes = srg.graph.m_Nodes ∧
    srg1.m_NodeIDMap = srg.m_NodeIDMap ∧
    srg1.graph.nodeArena = srg.graph.nodeArena := by
  rw [delEdgeInputPhase] at h
  by_cases hin : edge.attr.isInput = true
  · rw [if_pos hin] at h
    by_cases hhe : srg.graph.hasEdge
        ((match edge.attr.m_EdgeReference with
          | some r => r
          | none => ("", "")).1 ++ ":" ++
         (match edge.attr.m_EdgeReference with
          | some r => r
          | none => ("", "")).2) = true
    · rw [if_pos hhe] at h
      unfold Graph.hasEdge at hhe
      cases hlook : alookup srg.graph.m_Edges
          ((match edge.attr.m_EdgeReference with
            | some r => r
            | none => ("", "")).1 ++ ":" ++
           (match edge.attr.m_EdgeReference with
            | some r => r
            | none => ("", "")).2) with
      | none => rw [hlook] at hhe; exact absurd hhe (by simp)
      | some fid0 =>
        rw [Graph.getEdge] at h
        simp only [hlook] at h
        injection h with h
        subst h
        refine ⟨updateEdge_m_Edges _ _ _, ?_, updateEdge_m_Nodes _ _ _, rfl,
          updateEdge_nodeArena _ _ _⟩
        intro i fe hfe
        rcases updateEdge_lookup srg.graph fid0
            (fun e => { e with attr := { e.attr with
                m_DependantSubgraphIDs :=
                  e.attr.m_DependantSubgraphIDs.filter
                    (fun d => decide (d ≠ subgraphID)) } }) hfe with h' | h'
        · exact ⟨fe, h', rfl, rfl, rfl, fun d hd => hd, fun d hd _ => hd⟩
        · refine ⟨_, h', rfl, rfl, rfl, ?_, ?_⟩
          · intro d hd
            exact (List.mem_filter.mp hd).1
          · intro d hd hne
            exact List.mem_filter.mpr ⟨hd, by simp [hne]⟩
    · rw [if_neg hhe] at h
      injection h with h
      subst h
      exact ⟨rfl, fun i fe hfe =>
        ⟨fe, hfe, rfl, rfl, rfl, fun d hd => hd, fun d hd _ => hd⟩, rfl, rfl, rfl⟩
  · rw [if_neg hin] at h
    injection h with h
    subst h
    exact ⟨rfl, fun i fe hfe =>
      ⟨fe, hfe, rfl, rfl, rfl, fun d hd => hd, fun d hd _ => hd⟩, rfl, rfl, rfl⟩

/-- The output phase of a `deleteSRG` edge step: either a no-op, or the
world edge named after the output instance edge is removed and all its
dependants enter the deleted set. -/
theorem delEdgeOutputPhase_effects (subgraphID : String)
    (edge : GraphEdge UTQLEdge) (srg1 : SRGraph) (pushed deleted : List String)
    (srg' : SRGraph) (pushed' deleted' : List String)
    (h : delEdgeOutputPhase subgraphID edge srg1 pushed deleted
      = .ok (srg', pushed', deleted'))
    (hWF1 : mapNameWF srg1) :
    (∀ nm fid, alookup srg'.graph.m_Edges nm = some fid →
      alookup srg1.graph.m_Edges nm = some fid) ∧
    (∀ i fe, nlookup srg1.graph.edgeArena i = some fe →
      ∃ fe', nlookup srg'.graph.edgeArena i = some fe' ∧
        fe'.m_Name = fe.m_Name ∧ fe'.attr = fe.attr) ∧
    mapNameWF srg' ∧
    ((∀ x ∈ deleted, x ∈ deleted') ∧ (∀ x ∈ pushed, x ∈ pushed') ∧
     ((∀ x ∈ pushed, x ∈ deleted) → ∀ x ∈ pushed', x ∈ deleted')) ∧
    (srg'.graph.m_Nodes = srg1.graph.m_Nodes ∧
     srg'.m_NodeIDMap = srg1.m_NodeIDMap ∧
     (∀ i nd, nlookup srg1.graph.nodeArena i = some nd →
       ∃ nd', nlookup srg'.graph.nodeArena i = some nd' ∧
         nd'.m_Name = nd.m_Name ∧ nd'.attr = nd.attr)) ∧
    (edge.attr.isOutput = true →
      alookup srg'.graph.m_Edges (subgraphID ++ ":" ++ edge.m_Name) = none ∧
      (∀ fid fe, alookup srg1.graph.m_Edges (subgraphID ++ ":" ++ edge.m_Name)
          = some fid →
        nlookup srg1.graph.edgeArena fid = some fe →
        ∀ d ∈ fe.attr.m_DependantSubgraphIDs, d ∈ deleted')) ∧
    (∀ nm fid fe, alookup srg1.graph.m_Edges nm = some fid →
      nlookup srg1.graph.edgeArena fid = some fe →
      alookup srg'.graph.m_Edges nm = none →
      ∀ d ∈ fe.attr.m_DependantSubgraphIDs, d ∈ deleted') ∧
    (∀ x ∈ deleted', x ∈ deleted ∨ x ∈ pushed') ∧
    (∀ nm fid, alookup srg1.graph.m_Edges nm = some fid →
      alookup srg'.graph.m_Edges nm = none →
      nm = subgraphID ++ ":" ++ edge.m_Name) := by
  rw [delEdgeOutputPhase] at h
  by_cases hout : edge.attr.isOutput = true
  · rw [if_pos hout] at h
    cases hge : Graph.getEdge srg1.graph (subgraphID ++ ":" ++ edge.m_Name) with
    | error e => simp only [hge] at h; exact Except.noConfusion h
    | ok fid =>
      simp only [hge] at h
      cases hfe : nlookup srg1.graph.edgeArena fid with
      | none => simp only [hfe] at h; exact Except.noConfusion h
      | some srgEdge =>
        simp only [hfe] at h
        rcases hpd : srgEdge.attr.m_DependantSubgraphIDs.foldl
            (fun (acc2 : List String × List String) dep =>
              if dep ∈ acc2.2 then acc2
              else (acc2.1 ++ [dep], acc2.2 ++ [dep]))
            (pushed, deleted) with ⟨pushed2, deleted2⟩
        simp only [hpd] at h
        cases hrem : Graph.removeEdge srg1.graph fid with
        | error e => simp only [hrem] at h; exact Except.noConfusion h
        | ok g2 =>
          simp only [hrem] at h
          injection h with h
          rw [Prod.mk.injEq, Prod.mk.injEq] at h
          obtain ⟨hsrg', hpu', hde'⟩ := h
          subst hpu'
          subst hde'
          have hbind : alookup srg1.graph.m_Edges (subgraphID ++ ":" ++ edge.m_Name)
              = some fid := by
            rw [Graph.getEdge] at hge
            cases hl : alookup srg1.graph.m_Edges (subgraphID ++ ":" ++ edge.m_Name) with
            | none =>
              simp only [hl] at hge
              exact Except.noConfusion hge
            | some fid2 =>
              simp only [hl] at hge
              injection hge with hge
              rw [hge]
          rcases removeEdge_effects srg1.graph fid g2 hrem with
            ⟨ed, hed, hg2E, hg2pt, hg2npt, hg2N⟩
          rw [hfe] at hed
          injection hed with hed
          subst hed
          have hname : srgEdge.m_Name = subgraphID ++ ":" ++ edge.m_Name := by
            rcases hWF1.1 _ (alookup_mem hbind) with ⟨fe2, hfe2, hnm2⟩
            rw [hfe] at hfe2
            injection hfe2 with hfe2
            subst hfe2
            exact hnm2
          rcases pushFold_facts srgEdge.attr.m_DependantSubgraphIDs (pushed, deleted)
            with ⟨pf1, pf2, pf3, pf4, pf5⟩
          rw [hpd] at pf1 pf2 pf3 pf4 pf5
          have hsg : srg'.graph = g2 := by rw [← hsrg']
          refine ⟨?_, ?_, ?_, ⟨fun x hx => pf1 x hx, fun x hx => pf2 x hx, ?_⟩,
            ⟨?_, ?_, ?_⟩, ?_, ?_, fun x hx => pf5 x hx, ?_⟩
          · intro nm fid2 hb
            rw [hsg, hg2E, hname] at hb
            by_cases hnm : nm = subgraphID ++ ":" ++ edge.m_Name
            · rw [hnm] at hb
              rw [alookup_aerase_self hWF1.2] at hb
              exact Option.noConfusion hb
            · rw [alookup_aerase_ne hnm] at hb
              exact hb
          · intro i fe0 hfe0
            rcases hg2pt i fe0 hfe0 with ⟨fe2, hfe2, hn2, ha2⟩
            exact ⟨fe2, by rw [hsg]; exact hfe2, hn2, ha2⟩
          · constructor
            · intro pr2 hpr2
              rw [hsg, hg2E] at hpr2
              have hmem : pr2 ∈ srg1.graph.m_Edges :=
                List.Sublist.mem hpr2 (aerase_sublist _ _)
              rcases hWF1.1 pr2 hmem with ⟨fe1, hfe1, hn1⟩
              rcases hg2pt pr2.2 fe1 hfe1 with ⟨fe2, hfe2, hn2, _⟩
              exact ⟨fe2, by rw [hsg]; exact hfe2, hn2.trans hn1⟩
            · rw [hsg, hg2E]
              exact List.Nodup.sublist (List.Sublist.map _ (aerase_sublist _ _)) hWF1.2
          · intro hsub x hx
            rcases pf4 x hx with hx' | hx'
            · exact pf1 x (hsub x hx')
            · exact hx'
          · rw [hsg, hg2N]
          · rw [← hsrg']
          · intro i nd hnd
            rcases hg2npt i nd hnd with ⟨nd', hnd', hn, ha⟩
            exact ⟨nd', by rw [hsg]; exact hnd', hn, ha⟩
          · intro _
            constructor
            · rw [hsg, hg2E, hname]
              exact alookup_aerase_self hWF1.2
            · intro fid2 fe0 hb0 hfe0 d hd
              rw [hbind] at hb0
              injection hb0 with hb0
              subst hb0
              rw [hfe] at hfe0
              injection hfe0 with hfe0
              subst hfe0
              exact pf3 d hd
          · intro nm fid2 fe0 hb0 hfe0 hnone d hd
            by_cases hnm : nm = subgraphID ++ ":" ++ edge.m_Name
            · subst hnm
              rw [hbind] at hb0
              injection hb0 with hb0
              subst hb0
              rw [hfe] at hfe0
              injection hfe0 with hfe0
              subst hfe0
              exact pf3 d hd
            · exfalso
              rw [hsg, hg2E, hname] at hnone
              rw [alookup_aerase_ne hnm] at hnone
              rw [hb0] at hnone
              exact Option.noConfusion hnone
          · intro nm fid2 hb0 hnone
            by_cases hnm : nm = subgraphID ++ ":" ++ edge.m_Name
            · exact hnm
            · exfalso
              rw [hsg, hg2E, hname] at hnone
              rw [alookup_aerase_ne hnm] at hnone
              rw [hb0] at hnone
              exact Option.noConfusion hnone
  · rw [if_neg hout] at h
    injection h with h
    rw [Prod.mk.injEq, Prod.mk.injEq] at h
    obtain ⟨hsrg', hpu', hde'⟩ := h
    subst hpu'
    subst hde'
    subst hsrg'
    refine ⟨fun nm fid hb => hb,
      fun i fe hfe => ⟨fe, hfe, rfl, rfl⟩, hWF1,
      ⟨fun x hx => hx, fun x hx => hx, fun hs => hs⟩,
      ⟨rfl, rfl, fun i nd hnd => ⟨nd, hnd, rfl, rfl⟩⟩,
      fun hcontra => absurd hcontra hout, ?_, fun x hx => Or.inl hx, ?_⟩
    · intro nm fid fe hb _ hnone
      rw [hb] at hnone
      exact Option.noConfusion hnone
    · intro nm fid hb hnone
      rw [hb] at hnone
      exact Option.noConfusion hnone

/-- Combined effects of one `deleteSRG` edge-loop step. -/
theorem delEdgeStep_effects (subgraph : UTQLSubgraph) (subgraphID : String)
    (srg : SRGraph) (pushed deleted : List String)
    (srg' : SRGraph) (pushed' deleted' : List String) (pr : String × Nat)
    (h : delEdgeStep subgraph subgraphID (srg, pushed, deleted) pr
      = .ok (srg', pushed', deleted'))
    (hWF : mapNameWF srg) :
    (∀ nm fid, alookup srg'.graph.m_Edges nm = some fid →
      alookup srg.graph.m_Edges nm = some fid) ∧
    (∀ i fe, nlookup srg.graph.edgeArena i = some fe →
      ∃ fe', nlookup srg'.graph.edgeArena i = some fe' ∧
        fe'.m_Name = fe.m_Name ∧
        fe'.attr.m_SubgraphID = fe.attr.m_SubgraphID ∧
        fe'.attr.m_LocalName = fe.attr.m_LocalName ∧
        (∀ d ∈ fe'.attr.m_DependantSubgraphIDs, d ∈ fe.attr.m_DependantSubgraphIDs) ∧
        (∀ d ∈ fe.attr.m_DependantSubgraphIDs, d ≠ subgraphID →
          d ∈ fe'.attr.m_DependantSubgraphIDs)) ∧
    mapNameWF srg' ∧
    ((∀ x ∈ deleted, x ∈ deleted') ∧ (∀ x ∈ pushed, x ∈ pushed') ∧
     ((∀ x ∈ pushed, x ∈ deleted) → ∀ x ∈ pushed', x ∈ deleted')) ∧
    (srg'.graph.m_Nodes = srg.graph.m_Nodes ∧
     srg'.m_NodeIDMap = srg.m_NodeIDMap ∧
     (∀ i nd, nlookup srg.graph.nodeArena i = some nd →
       ∃ nd', nlookup srg'.graph.nodeArena i = some nd' ∧
         nd'.m_Name = nd.m_Name ∧ nd'.attr = nd.attr)) ∧
    (∀ pe, nlookup subgraph.graph.edgeArena pr.2 = some pe →
      pe.attr.isOutput = true →
      alookup srg'.graph.m_Edges (subgraphID ++ ":" ++ pe.m_Name) = none ∧
      (∀ fid fe, alookup srg.graph.m_Edges (subgraphID ++ ":" ++ pe.m_Name) = some fid →
        nlookup srg.graph.edgeArena fid = some fe →
        ∀ d ∈ fe.attr.m_DependantSubgraphIDs, d ≠ subgraphID → d ∈ deleted')) ∧
    (∀ nm fid fe, alookup srg.graph.m_Edges nm = some fid →
      nlookup srg.graph.edgeArena fid = some fe →
      alookup srg'.graph.m_Edges nm = none →
      ∀ d ∈ fe.attr.m_DependantSubgraphIDs, d ≠ subgraphID → d ∈ deleted') ∧
    (∀ x ∈ deleted', x ∈ deleted ∨ x ∈ pushed') ∧
    (∀ nm fid, alookup srg.graph.m_Edges nm = some fid →
      alookup srg'.graph.m_Edges nm = none →
      ∃ lname, nm = subgraphID ++ ":" ++ lname) := by
  rw [delEdgeStep] at h
  cases hpe : nlookup subgraph.graph.edgeArena pr.2 with
  | none => simp only [hpe] at h; exact Except.noConfusion h
  | some edge =>
    simp only [hpe] at h
    obtain ⟨srg1, hph1, h⟩ := except_bind_ok_inv h
    rcases delEdgeInputPhase_effects subgraphID srg edge srg1 hph1 with
      ⟨i1, i2, i3, i4, i5⟩
    have hWF1 : mapNameWF srg1 := by
      constructor
      · intro pr2 hpr2
        rw [i1] at hpr2
        rcases hWF.1 pr2 hpr2 with ⟨fe, hfe, hnm⟩
        rcases i2 pr2.2 fe hfe with ⟨fe', hfe', hnm', _⟩
        exact ⟨fe', hfe', hnm'.trans hnm⟩
      · rw [i1]
        exact hWF.2
    rcases delEdgeOutputPhase_effects subgraphID edge srg1 pushed deleted
        srg' pushed' deleted' h hWF1 with ⟨o1, o2, o3, o4, o5, o6, o7, o8, o9⟩
    refine ⟨?_, ?_, o3, o4, ⟨o5.1.trans i3, o5.2.1.trans i4, ?_⟩, ?_, ?_, o8, ?_⟩
    · intro nm fid hb
      rw [← i1]
      exact o1 nm fid hb
    · intro i fe hfe
      rcases i2 i fe hfe with ⟨fe1, hfe1, hn1, hs1, hl1, hsub1, hsup1⟩
      rcases o2 i fe1 hfe1 with ⟨fe2, hfe2, hn2, ha2⟩
      refine ⟨fe2, hfe2, hn2.trans hn1, ?_, ?_, ?_, ?_⟩
      · rw [ha2]; exact hs1
      · rw [ha2]; exact hl1
      · rw [ha2]; exact hsub1
      · rw [ha2]; exact hsup1
    · intro i nd hnd
      rw [← i5] at hnd
      exact o5.2.2 i nd hnd
    · intro pe hpe2 hpout
      injection hpe2 with hpe2
      subst hpe2
      rcases o6 hpout with ⟨habs, hdeps⟩
      refine ⟨habs, ?_⟩
      intro fid fe hb hfe d hd hdne
      rcases i2 fid fe hfe with ⟨fe1, hfe1, _, _, _, _, hsup1⟩
      have hb1 : alookup srg1.graph.m_Edges (subgraphID ++ ":" ++ edge.m_Name)
          = some fid := by rw [i1]; exact hb
      exact hdeps fid fe1 hb1 hfe1 d (hsup1 d hd hdne)
    · intro nm fid fe hb hfe hnone d hd hdne
      rcases i2 fid fe hfe with ⟨fe1, hfe1, _, _, _, _, hsup1⟩
      have hb1 : alookup srg1.graph.m_Edges nm = some fid := by rw [i1]; exact hb
      exact o7 nm fid fe1 hb1 hfe1 hnone d (hsup1 d hd hdne)
    · intro nm fid hb hnone
      have hb1 : alookup srg1.graph.m_Edges nm = some fid := by rw [i1]; exact hb
      exact ⟨edge.m_Name, o9 nm fid hb1 hnone⟩

theorem mem_aerase_ne {β : Type} {m : List (String × β)} {k : String} {q : String × β}
    (hnodup : (m.map Prod.fst).Nodup) (h : q ∈ aerase m k) : q.1 ≠ k := by
  induction m with
  | nil => exact absurd h (by simp [aerase])
  | cons x t ih =>
    rcases x with ⟨k1, v1⟩
    rw [List.map_cons, List.nodup_cons] at hnodup
    unfold aerase at h
    by_cases hk : k1 = k
    · rw [if_pos hk] at h
      subst hk
      intro hq
      exact hnodup.1 (hq ▸ List.mem_map.mpr ⟨q, h, rfl⟩)
    · rw [if_neg hk] at h
      rcases List.mem_cons.mp h with rfl | h
      · exact hk
      · exact ih hnodup.2 h

/-- Well-formedness of the world node store: the node map agrees with the
id map, the id map is injective, node objects carry their map name, and
node names are unique. -/
def nodeMapWF (srg : SRGraph) : Prop :=
  (∀ pr ∈ srg.graph.m_Nodes, alookup srg.m_NodeIDMap pr.1 = some pr.2) ∧
  (∀ a ∈ srg.m_NodeIDMap, ∀ b ∈ srg.m_NodeIDMap, a.2 = b.2 → a.1 = b.1) ∧
  (∀ pr ∈ srg.graph.m_Nodes, ∃ nd, nlookup srg.graph.nodeArena pr.2 = some nd ∧
    nd.m_Name = pr.1) ∧
  (srg.graph.m_Nodes.map Prod.fst).Nodup

/-- Every node whose spawn set is empty has been marked removable. -/
def nodesNonEmptyMarked (srg : SRGraph) (removable : List String) : Prop :=
  ∀ pr ∈ srg.graph.m_Nodes, ∀ nd, nlookup srg.graph.nodeArena pr.2 = some nd →
    nd.attr.m_SubgraphIDs = [] → pr.1 ∈ removable

/-- Effects of one `deleteSRG` node-loop step. -/
theorem delNodeStep_effects (subgraph : UTQLSubgraph) (subgraphID : String)
    (srg : SRGraph) (removable : List String)
    (srg' : SRGraph) (removable' : List String) (pr : String × Nat)
    (h : delNodeStep subgraph subgraphID (srg, removable) pr = .ok (srg', removable'))
    (hWFn : nodeMapWF srg) :
    srg'.graph.m_Edges = srg.graph.m_Edges ∧
    srg'.graph.edgeArena = srg.graph.edgeArena ∧
    srg'.graph.m_Nodes = srg.graph.m_Nodes ∧
    srg'.m_NodeIDMap = srg.m_NodeIDMap ∧
    (∀ x ∈ removable, x ∈ removable') ∧
    nodeMapWF srg' ∧
    (nodesNonEmptyMarked srg removable → nodesNonEmptyMarked srg' removable') := by
  rw [delNodeStep] at h
  dsimp only at h
  cases hpn : nlookup subgraph.graph.nodeArena pr.2 with
  | none => simp only [hpn] at h; exact Except.noConfusion h
  | some node =>
    simp only [hpn] at h
    by_cases hop : node.attr.isOutput = true
    · have hbop : (! node.attr.isOutput) = false := by rw [hop]; rfl
      rw [hbop] at h
      simp only [Bool.false_eq_true, if_false] at h
      by_cases hhn : srg.hasNode node.attr.m_QualifiedName = true
      · have hbhn : (! srg.hasNode node.attr.m_QualifiedName) = false := by
          rw [hhn]; rfl
        rw [hbhn] at h
        simp only [Bool.false_eq_true, if_false] at h
        unfold SRGraph.hasNode at hhn
        cases hid : alookup srg.m_NodeIDMap node.attr.m_QualifiedName with
        | none => rw [hid] at hhn; exact absurd hhn (by simp)
        | some nid =>
          rw [SRGraph.getNode] at h
          simp only [hid] at h
          cases hsn : nlookup srg.graph.nodeArena nid with
          | none => simp only [hsn] at h; exact Except.noConfusion h
          | some srgNode =>
            simp only [hsn] at h
            by_cases hempt : ({ srgNode.attr with
                m_SubgraphIDs := srgNode.attr.m_SubgraphIDs.filter
                  (fun d => decide (d ≠ subgraphID))
                m_NodeRefs := srgNode.attr.m_NodeRefs.filter
                  (fun r => decide (r ≠ (subgraphID, pr.1))) }
                : SRGNodeAttributes).m_SubgraphIDs = []
            · rw [if_pos hempt] at h
              injection h with h
              rw [Prod.mk.injEq] at h
              obtain ⟨h1, h2⟩ := h
              refine ⟨?_, ?_, ?_, ?_, ?_, ?_, ?_⟩
              · rw [← h1]; exact updateNode_m_Edges _ _ _
              · rw [← h1]; exact updateNode_edgeArena _ _ _
              · rw [← h1]; exact updateNode_m_Nodes _ _ _
              · rw [← h1]
              · intro x hx
                rw [← h2]
                exact mem_insertS.mpr (Or.inl hx)
              · refine ⟨?_, ?_, ?_, ?_⟩
                · intro pr2 hpr2
                  rw [← h1, updateNode_m_Nodes] at hpr2
                  rw [← h1]
                  exact hWFn.1 pr2 hpr2
                · rw [← h1]
                  exact hWFn.2.1
                · intro pr2 hpr2
                  rw [← h1, updateNode_m_Nodes] at hpr2
                  rcases hWFn.2.2.1 pr2 hpr2 with ⟨nd, hnd, hname⟩
                  rcases updateNode_lookup srg.graph nid
                      (fun nd => { nd with attr := { srgNode.attr with
                        m_SubgraphIDs := srgNode.attr.m_SubgraphIDs.filter
                          (fun d => decide (d ≠ subgraphID))
                        m_NodeRefs := srgNode.attr.m_NodeRefs.filter
                          (fun r => decide (r ≠ (subgraphID, pr.1))) } }) hnd with h' | h'
                  · exact ⟨nd, by rw [← h1]; exact h', hname⟩
                  · exact ⟨{ nd with attr := { srgNode.attr with
                        m_SubgraphIDs := srgNode.attr.m_SubgraphIDs.filter
                          (fun d => decide (d ≠ subgraphID))
                        m_NodeRefs := srgNode.attr.m_NodeRefs.filter
                          (fun r => decide (r ≠ (subgraphID, pr.1))) } },
                      by rw [← h1]; exact h', hname⟩
                · rw [← h1, updateNode_m_Nodes]
                  exact hWFn.2.2.2
              · intro hmarked pr2 hpr2 nd' hnd' hempty
                rw [← h1, updateNode_m_Nodes] at hpr2
                rw [← h2]
                by_cases hnid : pr2.2 = nid
                · have : pr2.1 = node.attr.m_QualifiedName := by
                    have ha := hWFn.1 pr2 hpr2
                    rw [hnid] at ha
                    exact hWFn.2.1 _ (alookup_mem ha) _ (alookup_mem hid) rfl
                  rw [this]
                  exact mem_insertS.mpr (Or.inr rfl)
                · rw [← h1] at hnd'
                  unfold Graph.updateNode at hnd'
                  rw [hsn] at hnd'
                  rw [nlookup_nset_other hnid] at hnd'
                  exact mem_insertS.mpr (Or.inl (hmarked pr2 hpr2 nd' hnd' hempty))
            · rw [if_neg hempt] at h
              injection h with h
              rw [Prod.mk.injEq] at h
              obtain ⟨h1, h2⟩ := h
              subst h2
              refine ⟨?_, ?_, ?_, ?_, fun x hx => hx, ?_, ?_⟩
              · rw [← h1]; exact updateNode_m_Edges _ _ _
              · rw [← h1]; exact updateNode_edgeArena _ _ _
              · rw [← h1]; exact updateNode_m_Nodes _ _ _
              · rw [← h1]
              · refine ⟨?_, ?_, ?_, ?_⟩
                · intro pr2 hpr2
                  rw [← h1, updateNode_m_Nodes] at hpr2
                  rw [← h1]
                  exact hWFn.1 pr2 hpr2
                · rw [← h1]
                  exact hWFn.2.1
                · intro pr2 hpr2
                  rw [← h1, updateNode_m_Nodes] at hpr2
                  rcases hWFn.2.2.1 pr2 hpr2 with ⟨nd, hnd, hname⟩
                  rcases updateNode_lookup srg.graph nid
                      (fun nd => { nd with attr := { srgNode.attr with
                        m_SubgraphIDs := srgNode.attr.m_SubgraphIDs.filter
                          (fun d => decide (d ≠ subgraphID))
                        m_NodeRefs := srgNode.attr.m_NodeRefs.filter
                          (fun r => decide (r ≠ (subgraphID, pr.1))) } }) hnd with h' | h'
                  · exact ⟨nd, by rw [← h1]; exact h', hname⟩
                  · exact ⟨{ nd with attr := { srgNode.attr with
                        m_SubgraphIDs := srgNode.attr.m_SubgraphIDs.filter
                          (fun d => decide (d ≠ subgraphID))
                        m_NodeRefs := srgNode.attr.m_NodeRefs.filter
                          (fun r => decide (r ≠ (subgraphID, pr.1))) } },
                      by rw [← h1]; exact h', hname⟩
                · rw [← h1, updateNode_m_Nodes]
                  exact hWFn.2.2.2
              · intro hmarked pr2 hpr2 nd' hnd' hempty
                rw [← h1, updateNode_m_Nodes] at hpr2
                by_cases hnid : pr2.2 = nid
                · exfalso
                  rw [← h1] at hnd'
                  unfold Graph.updateNode at hnd'
                  rw [hsn] at hnd'
                  rw [hnid] at hnd'
                  rw [nlookup_nset_self (by rw [hsn]; rfl)] at hnd'
                  injection hnd' with hnd'
                  apply hempt
                  rw [← hnd'] at hempty
                  exact hempty
                · rw [← h1] at hnd'
                  unfold Graph.updateNode at hnd'
                  rw [hsn] at hnd'
                  rw [nlookup_nset_other hnid] at hnd'
                  exact hmarked pr2 hpr2 nd' hnd' hempty
      · have hbhn : (! srg.hasNode node.attr.m_QualifiedName) = true := by
          cases hb : srg.hasNode node.attr.m_QualifiedName with
          | false => rfl
          | true => exact absurd hb hhn
        rw [hbhn] at h
        simp only [if_true] at h
        exact Except.noConfusion h
    · have hbop : (! node.attr.isOutput) = true := by
        cases hb : node.attr.isOutput with
        | false => rfl
        | true => exact absurd hb hop
      rw [hbop] at h
      simp only [if_true] at h
      injection h with h
      rw [Prod.mk.injEq] at h
      obtain ⟨h1, h2⟩ := h
      subst h1
      subst h2
      exact ⟨rfl, rfl, rfl, rfl, fun x hx => hx, hWFn, fun hm => hm⟩

/-- Aggregated effects of the `deleteSRG` edge loop over an instance's
edges. -/
theorem delEdgeFold_effects (subgraph : UTQLSubgraph) (subgraphID : String) :
    ∀ (L : List (String × Nat)) (srg : SRGraph) (pushed deleted : List String)
      (srg' : SRGraph) (pushed' deleted' : List String),
    L.foldlM (delEdgeStep subgraph subgraphID) (srg, pushed, deleted)
      = .ok (srg', pushed', deleted') →
    mapNameWF srg →
    (∀ nm fid, alookup srg'.graph.m_Edges nm = some fid →
      alookup srg.graph.m_Edges nm = some fid) ∧
    (∀ i fe, nlookup srg.graph.edgeArena i = some fe →
      ∃ fe', nlookup srg'.graph.edgeArena i = some fe' ∧
        fe'.m_Name = fe.m_Name ∧
        fe'.attr.m_SubgraphID = fe.attr.m_SubgraphID ∧
        fe'.attr.m_LocalName = fe.attr.m_LocalName ∧
        (∀ d ∈ fe'.attr.m_DependantSubgraphIDs, d ∈ fe.attr.m_DependantSubgraphIDs) ∧
        (∀ d ∈ fe.attr.m_DependantSubgraphIDs, d ≠ subgraphID →
          d ∈ fe'.attr.m_DependantSubgraphIDs)) ∧
    mapNameWF srg' ∧
    ((∀ x ∈ deleted, x ∈ deleted') ∧
     (∀ x ∈ pushed, x ∈ pushed') ∧
     (∀ x ∈ deleted', x ∈ deleted ∨ x ∈ pushed') ∧
     ((∀ x ∈ pushed, x ∈ deleted) → ∀ x ∈ pushed', x ∈ deleted')) ∧
    (srg'.graph.m_Nodes = srg.graph.m_Nodes ∧
     srg'.m_NodeIDMap = srg.m_NodeIDMap ∧
     (∀ i nd, nlookup srg.graph.nodeArena i = some nd →
       ∃ nd', nlookup srg'.graph.nodeArena i = some nd' ∧
         nd'.m_Name = nd.m_Name ∧ nd'.attr = nd.attr)) ∧
    (∀ epr ∈ L, ∀ pe, nlookup subgraph.graph.edgeArena epr.2 = some pe →
      pe.attr.isOutput = true →
      alookup srg'.graph.m_Edges (subgraphID ++ ":" ++ pe.m_Name) = none ∧
      (∀ fid fe, alookup srg.graph.m_Edges (subgraphID ++ ":" ++ pe.m_Name) = some fid →
        nlookup srg.graph.edgeArena fid = some fe →
        ∀ d ∈ fe.attr.m_DependantSubgraphIDs, d ≠ subgraphID → d ∈ deleted')) ∧
    (∀ nm fid, alookup srg.graph.m_Edges nm = some fid →
      (∀ lname, nm ≠ subgraphID ++ ":" ++ lname) →
      alookup srg'.graph.m_Edges nm = some fid) := by
  intro L
  induction L with
  | nil =>
    intro srg pushed deleted srg' pushed' deleted' h hWF
    rw [List.foldlM_nil] at h
    injection h with h
    rw [Prod.mk.injEq, Prod.mk.injEq] at h
    obtain ⟨h1, h2, h3⟩ := h
    subst h1
    subst h2
    subst h3
    exact ⟨fun nm fid hb => hb,
      fun i fe hfe => ⟨fe, hfe, rfl, rfl, rfl, fun d hd => hd, fun d hd _ => hd⟩,
      hWF, ⟨fun x hx => hx, fun x hx => hx, fun x hx => Or.inl hx, fun hs => hs⟩,
      ⟨rfl, rfl, fun i nd hnd => ⟨nd, hnd, rfl, rfl⟩⟩,
      fun epr hepr => absurd hepr (List.not_mem_nil epr),
      fun nm fid hb _ => hb⟩
  | cons a t ih =>
    intro srg pushed deleted srg' pushed' deleted' h hWF
    rw [List.foldlM_cons] at h
    cases hstep : delEdgeStep subgraph subgraphID (srg, pushed, deleted) a with
    | error e => rw [hstep, exceptBind_error] at h; exact Except.noConfusion h
    | ok accA =>
      rw [hstep, exceptBind_ok] at h
      obtain ⟨srgA, pushedA, deletedA⟩ := accA
      rcases delEdgeStep_effects subgraph subgraphID srg pushed deleted
        srgA pushedA deletedA a hstep hWF with ⟨s1, s2, s3, s4, s5, s6, s7, s8, s9⟩
      rcases ih srgA pushedA deletedA srg' pushed' deleted' h s3 with
        ⟨f1, f2, f3, f4, f5, f6, f7⟩
      refine ⟨?_, ?_, f3, ⟨?_, ?_, ?_, ?_⟩, ⟨?_, ?_, ?_⟩, ?_, ?_⟩
      · exact fun nm fid hb => s1 nm fid (f1 nm fid hb)
      · intro i fe hfe
        rcases s2 i fe hfe with ⟨fe1, hfe1, hn1, hs1, hl1, hb1, hp1⟩
        rcases f2 i fe1 hfe1 with ⟨fe2, hfe2, hn2, hs2, hl2, hb2, hp2⟩
        refine ⟨fe2, hfe2, hn2.trans hn1, hs2.trans hs1, hl2.trans hl1, ?_, ?_⟩
        · exact fun d hd => hb1 d (hb2 d hd)
        · exact fun d hd hdne => hp2 d (hp1 d hd hdne) hdne
      · exact fun x hx => f4.1 x (s4.1 x hx)
      · exact fun x hx => f4.2.1 x (s4.2.1 x hx)
      · intro x hx
        rcases f4.2.2.1 x hx with hx' | hx'
        · rcases s8 x hx' with hx'' | hx''
          · exact Or.inl hx''
          · exact Or.inr (f4.2.1 x hx'')
        · exact Or.inr hx'
      · intro hpd x hx
        exact f4.2.2.2 (s4.2.2 hpd) x hx
      · exact f5.1.trans s5.1
      · exact f5.2.1.trans s5.2.1
      · intro i nd hnd
        rcases s5.2.2 i nd hnd with ⟨nd1, hnd1, hn1, ha1⟩
        rcases f5.2.2 i nd1 hnd1 with ⟨nd2, hnd2, hn2, ha2⟩
        exact ⟨nd2, hnd2, hn2.trans hn1, ha2.trans ha1⟩
      · intro epr hepr pe hpe hout
        rcases List.mem_cons.mp hepr with rfl | hepr
        · rcases s6 pe hpe hout with ⟨habs, hcov⟩
          constructor
          · cases hfin : alookup srg'.graph.m_Edges (subgraphID ++ ":" ++ pe.m_Name) with
            | none => rfl
            | some fid2 =>
              have := f1 _ fid2 hfin
              rw [habs] at this
              exact Option.noConfusion this
          · intro fid fe hb hfe d hd hdne
            exact f4.1 d (hcov fid fe hb hfe d hd hdne)
        · rcases f6 epr hepr pe hpe hout with ⟨habs, hcov⟩
          refine ⟨habs, ?_⟩
          intro fid fe hb hfe d hd hdne
          cases hA : alookup srgA.graph.m_Edges (subgraphID ++ ":" ++ pe.m_Name) with
          | none =>
            exact f4.1 d (s7 _ fid fe hb hfe hA d hd hdne)
          | some fidA =>
            have hfid : fidA = fid := by
              have := s1 _ fidA hA
              rw [hb] at this
              injection this with this
              exact this.symm
            rw [hfid] at hA
            rcases s2 fid fe hfe with ⟨fe1, hfe1, _, _, _, _, hp1⟩
            exact hcov fid fe1 hA hfe1 d (hp1 d hd hdne) hdne
      · intro nm fid hb hshape
        have hA : alookup srgA.graph.m_Edges nm = some fid := by
          cases hA0 : alookup srgA.graph.m_Edges nm with
          | none =>
            rcases s9 nm fid hb hA0 with ⟨lname, hlname⟩
            exact absurd hlname (hshape lname)
          | some fid2 =>
            have hs0 := s1 nm fid2 hA0
            rw [hb] at hs0
            injection hs0 with hs0
            rw [hs0]
        exact f7 nm fid hA hshape

/-- Aggregated effects of the `deleteSRG` node loop over an instance's
nodes. -/
theorem delNodeFold_effects (subgraph : UTQLSubgraph) (subgraphID : String) :
    ∀ (L : List (String × Nat)) (srg : SRGraph) (removable : List String)
      (srg' : SRGraph) (removable' : List String),
    L.foldlM (delNodeStep subgraph subgraphID) (srg, removable)
      = .ok (srg', removable') →
    nodeMapWF srg →
    srg'.graph.m_Edges = srg.graph.m_Edges ∧
    srg'.graph.edgeArena = srg.graph.edgeArena ∧
    srg'.graph.m_Nodes = srg.graph.m_Nodes ∧
    srg'.m_NodeIDMap = srg.m_NodeIDMap ∧
    (∀ x ∈ removable, x ∈ removable') ∧
    nodeMapWF srg' ∧
    (nodesNonEmptyMarked srg removable → nodesNonEmptyMarked srg' removable') := by
  intro L
  induction L with
  | nil =>
    intro srg removable srg' removable' h hWFn
    rw [List.foldlM_nil] at h
    injection h with h
    rw [Prod.mk.injEq] at h
    obtain ⟨h1, h2⟩ := h
    subst h1
    subst h2
    exact ⟨rfl, rfl, rfl, rfl, fun x hx => hx, hWFn, fun hm => hm⟩
  | cons a t ih =>
    intro srg removable srg' removable' h hWFn
    rw [List.foldlM_cons] at h
    cases hstep : delNodeStep subgraph subgraphID (srg, removable) a with
    | error e => rw [hstep, exceptBind_error] at h; exact Except.noConfusion h
    | ok accA =>
      rw [hstep, exceptBind_ok] at h
      obtain ⟨srgA, removableA⟩ := accA
      rcases delNodeStep_effects subgraph subgraphID srg removable srgA removableA a
        hstep hWFn with ⟨s1, s2, s3, s4, s5, s6, s7⟩
      rcases ih srgA removableA srg' removable' h s6 with ⟨f1, f2, f3, f4, f5, f6, f7⟩
      exact ⟨f1.trans s1, f2.trans s2, f3.trans s3, f4.trans s4,
        fun x hx => f5 x (s5 x hx), f6, fun hm => f7 (s7 hm)⟩

theorem alookup_of_mem_nodup {β : Type} {m : List (String × β)} {q : String × β}
    (hnodup : (m.map Prod.fst).Nodup) (h : q ∈ m) : alookup m q.1 = some q.2 := by
  induction m with
  | nil => exact absurd h (List.not_mem_nil q)
  | cons x t ih =>
    rcases x with ⟨k1, v1⟩
    rw [List.map_cons, List.nodup_cons] at hnodup
    rcases List.mem_cons.mp h with rfl | h
    · show (if k1 = k1 then some v1 else alookup t k1) = some v1
      rw [if_pos rfl]
    · have hk : k1 ≠ q.1 := by
        intro hcontra
        exact hnodup.1 (hcontra ▸ List.mem_map.mpr ⟨q, h, rfl⟩)
      show (if k1 = q.1 then some v1 else alookup t q.1) = some q.2
      rw [if_neg hk]
      exact ih hnodup.2 h

theorem srgRepoWF_mapNameWF {srg : SRGraph} {repo : List (String × InstantiatedPattern)}
    (h : srgRepoWF srg repo) : mapNameWF srg := by
  refine ⟨?_, h.2.1⟩
  intro pr hpr
  rcases h.1 pr hpr with ⟨fe, hfe, hname, _⟩
  exact ⟨fe, hfe, hname⟩

theorem nodeMapWF_transport {srg srg1 : SRGraph}
    (hE : srg1.graph.m_Nodes = srg.graph.m_Nodes)
    (hI : srg1.m_NodeIDMap = srg.m_NodeIDMap)
    (hpt : ∀ i nd, nlookup srg.graph.nodeArena i = some nd →
      ∃ nd', nlookup srg1.graph.nodeArena i = some nd' ∧
        nd'.m_Name = nd.m_Name ∧ nd'.attr = nd.attr)
    (h : nodeMapWF srg) : nodeMapWF srg1 := by
  refine ⟨?_, ?_, ?_, ?_⟩
  · intro pr hpr
    rw [hE] at hpr
    rw [hI]
    exact h.1 pr hpr
  · rw [hI]
    exact h.2.1
  · intro pr hpr
    rw [hE] at hpr
    rcases h.2.2.1 pr hpr with ⟨nd, hnd, hname⟩
    rcases hpt pr.2 nd hnd with ⟨nd', hnd', hn', _⟩
    exact ⟨nd', hnd', hn'.trans hname⟩
  · rw [hE]
    exact h.2.2.2

theorem marked_transport {srg srg1 : SRGraph} {removable : List String}
    (hE : srg1.graph.m_Nodes = srg.graph.m_Nodes)
    (hpt : ∀ i nd, nlookup srg.graph.nodeArena i = some nd →
      ∃ nd', nlookup srg1.graph.nodeArena i = some nd' ∧
        nd'.m_Name = nd.m_Name ∧ nd'.attr = nd.attr)
    (hWFn : nodeMapWF srg)
    (h : nodesNonEmptyMarked srg removable) : nodesNonEmptyMarked srg1 removable := by
  intro pr hpr nd hnd hempty
  rw [hE] at hpr
  rcases hWFn.2.2.1 pr hpr with ⟨nd0, hnd0, _⟩
  rcases hpt pr.2 nd0 hnd0 with ⟨nd', hnd', _, ha'⟩
  rw [hnd] at hnd'
  injection hnd' with hnd'
  subst hnd'
  refine h pr hpr nd0 hnd0 ?_
  rw [← ha']
  exact hempty

/-- Effects of one found-case iteration of the `deleteSRG` worklist loop:
the processed subgraph's output edges are all removed, well-formedness is
preserved against the shrunken repository, the dependants of the removed
edges enter the deleted set, and edges of other producers survive with
their dependant sets only losing the processed id. -/
theorem delIter_effects (srg : SRGraph) (repo : List (String × InstantiatedPattern))
    (subgraphID : String) (ip : InstantiatedPattern)
    (deleted removable : List String)
    (srg1 : SRGraph) (pushed deleted1 : List String)
    (srg2 : SRGraph) (removable1 : List String)
    (hrepo : alookup repo subgraphID = some ip)
    (hfold1 : ip.graph.graph.m_Edges.foldlM
      (delEdgeStep ip.graph subgraphID) (srg, [], deleted) = .ok (srg1, pushed, deleted1))
    (hfold2 : ip.graph.graph.m_Nodes.foldlM
      (delNodeStep ip.graph subgraphID) (srg1, removable) = .ok (srg2, removable1))
    (hWF : srgRepoWF srg repo)
    (hWFn : nodeMapWF srg) :
    edgesGone srg2 subgraphID ∧
    srgRepoWF srg2 (aerase repo subgraphID) ∧
    nodeMapWF srg2 ∧
    (nodesNonEmptyMarked srg removable → nodesNonEmptyMarked srg2 removable1) ∧
    (∀ x ∈ deleted, x ∈ deleted1) ∧
    (∀ x ∈ deleted1, x ∈ deleted ∨ x ∈ pushed) ∧
    (∀ w, depLink srg subgraphID w → w = subgraphID ∨ w ∈ deleted1) ∧
    (∀ nm fid fe, alookup srg.graph.m_Edges nm = some fid →
      nlookup srg.graph.edgeArena fid = some fe →
      fe.attr.m_SubgraphID ≠ subgraphID →
      alookup srg2.graph.m_Edges nm = some fid) ∧
    (∀ nm fid, alookup srg2.graph.m_Edges nm = some fid →
      alookup srg.graph.m_Edges nm = some fid) ∧
    (∀ i fe, nlookup srg.graph.edgeArena i = some fe →
      ∃ fe', nlookup srg2.graph.edgeArena i = some fe' ∧
        fe'.m_Name = fe.m_Name ∧
        fe'.attr.m_SubgraphID = fe.attr.m_SubgraphID ∧
        fe'.attr.m_LocalName = fe.attr.m_LocalName ∧
        (∀ d ∈ fe'.attr.m_DependantSubgraphIDs, d ∈ fe.attr.m_DependantSubgraphIDs) ∧
        (∀ d ∈ fe.attr.m_DependantSubgraphIDs, d ≠ subgraphID →
          d ∈ fe'.attr.m_DependantSubgraphIDs)) := by
  have hmn : mapNameWF srg := srgRepoWF_mapNameWF hWF
  rcases delEdgeFold_effects ip.graph subgraphID ip.graph.graph.m_Edges srg [] deleted
      srg1 pushed deleted1 hfold1 hmn with ⟨f1, f2, f3, f4, f5, f6, f7⟩
  have hWFn1 : nodeMapWF srg1 := nodeMapWF_transport f5.1 f5.2.1 f5.2.2 hWFn
  rcases delNodeFold_effects ip.graph subgraphID ip.graph.graph.m_Nodes srg1 removable
      srg2 removable1 hfold2 hWFn1 with ⟨g1, g2, g3, g4, g5, g6, g7⟩
  have hcfs : colonFree subgraphID := hWF.2.2 _ (alookup_mem hrepo)
  have hback : ∀ nm fid, alookup srg2.graph.m_Edges nm = some fid →
      alookup srg.graph.m_Edges nm = some fid := by
    intro nm fid hb
    rw [g1] at hb
    exact f1 nm fid hb
  have hpt : ∀ i fe, nlookup srg.graph.edgeArena i = some fe →
      ∃ fe', nlookup srg2.graph.edgeArena i = some fe' ∧
        fe'.m_Name = fe.m_Name ∧
        fe'.attr.m_SubgraphID = fe.attr.m_SubgraphID ∧
        fe'.attr.m_LocalName = fe.attr.m_LocalName ∧
        (∀ d ∈ fe'.attr.m_DependantSubgraphIDs, d ∈ fe.attr.m_DependantSubgraphIDs) ∧
        (∀ d ∈ fe.attr.m_DependantSubgraphIDs, d ≠ subgraphID →
          d ∈ fe'.attr.m_DependantSubgraphIDs) := by
    intro i fe hfe
    rcases f2 i fe hfe with ⟨fe', hfe', h1, h2, h3, h4, h5⟩
    exact ⟨fe', by rw [g2]; exact hfe', h1, h2, h3, h4, h5⟩
  have hgone : edgesGone srg2 subgraphID := by
    intro nm fid fe hb2 hfe2 hsub
    have hb : alookup srg.graph.m_Edges nm = some fid := hback nm fid hb2
    rcases hWF.1 _ (alookup_mem hb) with
      ⟨fe0, hfe0, _, hshape0, _, _, ip0, hip0, epr, hepr, pe, hpe, hout, hpen⟩
    have hfe0' : nlookup srg.graph.edgeArena fid = some fe0 := hfe0
    have hshape : nm = fe0.attr.m_SubgraphID ++ ":" ++ fe0.attr.m_LocalName := hshape0
    rcases f2 fid fe0 hfe0' with ⟨fe1, hfe1, _, hs1, _, _, _⟩
    have hfe2' : nlookup srg1.graph.edgeArena fid = some fe := by
      rw [← g2]
      exact hfe2
    rw [hfe1] at hfe2'
    injection hfe2' with hfe2'
    subst hfe2'
    have hsub0 : fe0.attr.m_SubgraphID = subgraphID := by
      rw [← hs1]
      exact hsub
    rw [hsub0] at hip0
    rw [hrepo] at hip0
    injection hip0 with hip0
    subst hip0
    rcases f6 epr hepr pe hpe hout with ⟨habs, _⟩
    rw [hpen, ← hsub0, ← hshape] at habs
    rw [g1] at hb2
    rw [hb2] at habs
    exact Option.noConfusion habs
  have hWF2 : srgRepoWF srg2 (aerase repo subgraphID) := by
    refine ⟨?_, ?_, ?_⟩
    · intro pr hpr
      rw [g1] at hpr
      have hb1 : alookup srg1.graph.m_Edges pr.1 = some pr.2 :=
        alookup_of_mem_nodup f3.2 hpr
      have hb : alookup srg.graph.m_Edges pr.1 = some pr.2 := f1 _ _ hb1
      rcases hWF.1 _ (alookup_mem hb) with
        ⟨fe0, hfe0, hname0, hshape0, hcf0, hcfd0, ip0, hip0, epr, hepr, pe, hpe, hout, hpen⟩
    -- the producer of a surviving edge cannot be the processed subgraph
      have hfe0' : nlookup srg.graph.edgeArena pr.2 = some fe0 := hfe0
      have hname : fe0.m_Name = pr.1 := hname0
      have hshape : pr.1 = fe0.attr.m_SubgraphID ++ ":" ++ fe0.attr.m_LocalName := hshape0
      rcases f2 pr.2 fe0 hfe0' with ⟨fe1, hfe1, hn1, hs1, hl1, hd1, _⟩
      have hnesub : fe0.attr.m_SubgraphID ≠ subgraphID := by
        intro hcontra
        have hip : ip0 = ip := by
          rw [hcontra] at hip0
          rw [hrepo] at hip0
          injection hip0 with hip0
          exact hip0.symm
        subst hip
        rcases f6 epr hepr pe hpe hout with ⟨habs, _⟩
        rw [hpen, ← hcontra, ← hshape] at habs
        rw [hb1] at habs
        exact Option.noConfusion habs
      refine ⟨fe1, by rw [g2]; exact hfe1, hn1.trans hname, ?_, ?_, ?_, ?_⟩
      · rw [hs1, hl1]
        exact hshape
      · rw [hs1]
        exact hcf0
      · intro d hd
        exact hcfd0 d (hd1 d hd)
      · refine ⟨ip0, ?_, epr, hepr, pe, hpe, hout, ?_⟩
        · rw [hs1, alookup_aerase_ne hnesub]
          exact hip0
        · rw [hl1]
          exact hpen
    · rw [g1]
      exact f3.2
    · intro pr hpr
      exact hWF.2.2 pr (List.Sublist.mem hpr (aerase_sublist _ _))
  have hmark : nodesNonEmptyMarked srg removable → nodesNonEmptyMarked srg2 removable1 :=
    fun hm => g7 (marked_transport f5.1 f5.2.2 hWFn hm)
  have hdcov : ∀ w, depLink srg subgraphID w → w = subgraphID ∨ w ∈ deleted1 := by
    intro w hw
    rcases hw with ⟨nm, fid, fe, hb, hfe, hsub, hwdep⟩
    by_cases hws : w = subgraphID
    · exact Or.inl hws
    · right
      rcases hWF.1 _ (alookup_mem hb) with
        ⟨fe0, hfe0, _, hshape0, _, _, ip0, hip0, epr, hepr, pe, hpe, hout, hpen⟩
      have hfe0' : nlookup srg.graph.edgeArena fid = some fe0 := hfe0
      have hshape : nm = fe0.attr.m_SubgraphID ++ ":" ++ fe0.attr.m_LocalName := hshape0
      rw [hfe] at hfe0'
      injection hfe0' with hfe0'
      subst hfe0'
      have hip : ip0 = ip := by
        rw [hsub] at hip0
        rw [hrepo] at hip0
        injection hip0 with hip0
        exact hip0.symm
      subst hip
      rcases f6 epr hepr pe hpe hout with ⟨_, hcov⟩
      have hbnm : alookup srg.graph.m_Edges (subgraphID ++ ":" ++ pe.m_Name) = some fid := by
        rw [hpen, ← hsub, ← hshape]
        exact hb
      exact hcov fid fe hbnm hfe w hwdep hws
  have hsurv : ∀ nm fid fe, alookup srg.graph.m_Edges nm = some fid →
      nlookup srg.graph.edgeArena fid = some fe →
      fe.attr.m_SubgraphID ≠ subgraphID →
      alookup srg2.graph.m_Edges nm = some fid := by
    intro nm fid fe hb hfe hne
    rcases hWF.1 _ (alookup_mem hb) with
      ⟨fe0, hfe0, _, hshape0, hcf0, _, _⟩
    have hfe0' : nlookup srg.graph.edgeArena fid = some fe0 := hfe0
    have hshape : nm = fe0.attr.m_SubgraphID ++ ":" ++ fe0.attr.m_LocalName := hshape0
    rw [hfe] at hfe0'
    injection hfe0' with hfe0'
    subst hfe0'
    rw [g1]
    refine f7 nm fid hb ?_
    intro lname hcontra
    rw [hshape] at hcontra
    rcases colonfree_name_inj hcf0 hcfs hcontra with ⟨hEq, _⟩
    exact hne hEq
  exact ⟨hgone, hWF2, g6, hmark, fun x hx => f4.1 x hx, f4.2.2.1, hdcov, hsurv, hback, hpt⟩

theorem depChainN_snoc {srg : SRGraph} {k : Nat} {z0 z w : String}
    (hch : DepChainN srg k z0 z) (hl : depLink srg z w) :
    DepChainN srg (k + 1) z0 w := by
  induction hch with
  | refl y => exact DepChainN.step hl (DepChainN.refl w)
  | step hl1 hc ih => exact DepChainN.step hl1 (ih hl)

/-- Closure property of the `deleteSRG` worklist loop: every subgraph
reachable by dependant links from a stacked, deleted, or already-flushed
id ends with no produced edge in the final SRG; well-formedness and the
marking invariant survive the loop. -/
theorem deleteSRGLoop_closure : ∀ (fuel : Nat) (srg : SRGraph)
    (repo : List (String × InstantiatedPattern))
    (stack deleted removable : List String)
    (srg' : SRGraph) (repo' : List (String × InstantiatedPattern))
    (removable' : List String),
    deleteSRGLoop fuel srg repo stack deleted removable
      = .ok (srg', repo', removable') →
    srgRepoWF srg repo →
    nodeMapWF srg →
    (∀ x ∈ deleted, x ∈ stack ∨ edgesGone srg x) →
    (∀ m z x, DepChainN srg m z x →
      (z ∈ stack ∨ z ∈ deleted ∨ edgesGone srg z) →
      edgesGone srg' x) ∧
    srgRepoWF srg' repo' ∧
    nodeMapWF srg' ∧
    (nodesNonEmptyMarked srg removable → nodesNonEmptyMarked srg' removable') := by
  intro fuel
  induction fuel with
  | zero =>
    intro srg repo stack deleted removable srg' repo' removable' h _ _ _
    simp only [deleteSRGLoop] at h
    exact Except.noConfusion h
  | succ fuel ih =>
    intro srg repo stack deleted removable srg' repo' removable' h hWF hWFn hdel
    cases stack with
    | nil =>
      simp only [deleteSRGLoop] at h
      injection h with h
      rw [Prod.mk.injEq, Prod.mk.injEq] at h
      obtain ⟨h1, h2, h3⟩ := h
      subst h1
      subst h2
      subst h3
      refine ⟨?_, hWF, hWFn, fun hm => hm⟩
      intro m z x hch hz
      have hgz : edgesGone srg z := by
        rcases hz with h1 | h1 | h1
        · exact absurd h1 (List.not_mem_nil z)
        · rcases hdel z h1 with h2 | h2
          · exact absurd h2 (List.not_mem_nil z)
          · exact h2
        · exact h1
      cases hch with
      | refl => exact hgz
      | step hlink hrest =>
        rcases hlink with ⟨nm, fid, fe, hb, hfe, hsub, _⟩
        exact absurd hsub (hgz nm fid fe hb hfe)
    | cons s rest =>
      simp only [deleteSRGLoop] at h
      cases hrepo : alookup repo s with
      | none =>
        simp only [hrepo] at h
        have hsg : edgesGone srg s := by
          intro nm fid fe hb hfe hsub
          rcases hWF.1 _ (alookup_mem hb) with ⟨fe0, hfe0, _, _, _, _, ip0, hip0, _⟩
          have hfe0' : nlookup srg.graph.edgeArena fid = some fe0 := hfe0
          rw [hfe] at hfe0'
          injection hfe0' with hfe0'
          subst hfe0'
          rw [hsub] at hip0
          rw [hrepo] at hip0
          exact Option.noConfusion hip0
        have hdel' : ∀ x ∈ deleted, x ∈ rest ∨ edgesGone srg x := by
          intro x hx
          rcases hdel x hx with h1 | h1
          · rcases List.mem_cons.mp h1 with rfl | h1
            · exact Or.inr hsg
            · exact Or.inl h1
          · exact Or.inr h1
        rcases ih srg repo rest deleted removable srg' repo' removable' h
          hWF hWFn hdel' with ⟨c1, c2, c3, c4⟩
        refine ⟨?_, c2, c3, c4⟩
        intro m z x hch hz
        refine c1 m z x hch ?_
        rcases hz with h1 | h1 | h1
        · rcases List.mem_cons.mp h1 with rfl | h1
          · exact Or.inr (Or.inr hsg)
          · exact Or.inl h1
        · exact Or.inr (Or.inl h1)
        · exact Or.inr (Or.inr h1)
      | some ip =>
        simp only [hrepo] at h
        obtain ⟨acc1, hfold1, h⟩ := except_bind_ok_inv h
        obtain ⟨srg1, pushed, deleted1⟩ := acc1
        obtain ⟨acc2, hfold2, h⟩ := except_bind_ok_inv h
        obtain ⟨srg2, removable1⟩ := acc2
        rcases delIter_effects srg repo s ip deleted removable srg1 pushed deleted1
            srg2 removable1 hrepo hfold1 hfold2 hWF hWFn with
          ⟨hgone2, hWF2, hWFn2, hmark2, hdelmono, hdelprov, hdcov, hsurv, hback, hpt⟩
        have hgmono : ∀ y, edgesGone srg y → edgesGone srg2 y := by
          intro y hy nm fid fe hb2 hfe2 hsub
          have hb := hback nm fid hb2
          rcases hWF.1 _ (alookup_mem hb) with ⟨fe0, hfe0, _⟩
          have hfe0' : nlookup srg.graph.edgeArena fid = some fe0 := hfe0
          rcases hpt fid fe0 hfe0' with ⟨fe1, hfe1, _, hs1, _, _, _⟩
          rw [hfe2] at hfe1
          injection hfe1 with hfe1
          subst hfe1
          refine hy nm fid fe0 hb hfe0' ?_
          rw [← hs1]
          exact hsub
        have hdel2 : ∀ x ∈ deleted1, x ∈ pushed.reverse ++ rest ∨ edgesGone srg2 x := by
          intro x hx
          rcases hdelprov x hx with hx' | hx'
          · rcases hdel x hx' with hx'' | hx''
            · rcases List.mem_cons.mp hx'' with rfl | hx''
              · exact Or.inr hgone2
              · exact Or.inl (List.mem_append.mpr (Or.inr hx''))
            · exact Or.inr (hgmono x hx'')
          · exact Or.inl (List.mem_append.mpr (Or.inl (List.mem_reverse.mpr hx')))
        rcases ih srg2 (aerase repo s) (pushed.reverse ++ rest) deleted1 removable1
            srg' repo' removable' h hWF2 hWFn2 hdel2 with ⟨c1, c2, c3, c4⟩
        have hreflcase : ∀ z, (z = s ∨ edgesGone srg2 z ∨
            ∃ z0 k2, z0 ∈ pushed.reverse ++ rest ∧ DepChainN srg2 k2 z0 z) →
            edgesGone srg' z := by
          intro z hcov
          rcases hcov with h1 | h1 | h1
          · rw [h1]
            exact c1 0 s s (DepChainN.refl s) (Or.inr (Or.inr hgone2))
          · exact c1 0 z z (DepChainN.refl z) (Or.inr (Or.inr h1))
          · rcases h1 with ⟨z0, k2, hz0, hch2⟩
            exact c1 k2 z0 z hch2 (Or.inl hz0)
        have key : ∀ N k z x, k ≤ N → DepChainN srg k z x →
            (z = s ∨ edgesGone srg2 z ∨
              ∃ z0 k2, z0 ∈ pushed.reverse ++ rest ∧ DepChainN srg2 k2 z0 z) →
            edgesGone srg' x := by
          intro N
          induction N with
          | zero =>
            intro k z x hk hch hcov
            have hk0 : k = 0 := Nat.le_zero.mp hk
            subst hk0
            cases hch with
            | refl => exact hreflcase z hcov
          | succ N ihN =>
            intro k z x hk hch hcov
            cases hch with
            | refl => exact hreflcase z hcov
            | step hlink hrest =>
              rename_i m' w
              have hm' : m' ≤ N := by omega
              rcases hcov with h1 | h1 | h1
              · rw [h1] at hlink
                rcases hdcov w hlink with hw | hw
                · rw [hw] at hrest
                  exact ihN m' s x hm' hrest (Or.inl rfl)
                · rcases hdel2 w hw with h2 | h2
                  · exact ihN m' w x hm' hrest
                      (Or.inr (Or.inr ⟨w, 0, h2, DepChainN.refl w⟩))
                  · exact ihN m' w x hm' hrest (Or.inr (Or.inl h2))
              · by_cases hzs : z = s
                · rw [hzs] at hlink
                  rcases hdcov w hlink with hw | hw
                  · rw [hw] at hrest
                    exact ihN m' s x hm' hrest (Or.inl rfl)
                  · rcases hdel2 w hw with h2 | h2
                    · exact ihN m' w x hm' hrest
                        (Or.inr (Or.inr ⟨w, 0, h2, DepChainN.refl w⟩))
                    · exact ihN m' w x hm' hrest (Or.inr (Or.inl h2))
                · rcases hlink with ⟨nm, fid, fe, hb, hfe, hsub, hwdep⟩
                  have hb2 := hsurv nm fid fe hb hfe (by rw [hsub]; exact hzs)
                  rcases hpt fid fe hfe with ⟨fe1, hfe1, _, hs1, _, _, _⟩
                  exact absurd (hs1.trans hsub) (h1 nm fid fe1 hb2 hfe1)
              · by_cases hzs : z = s
                · rw [hzs] at hlink
                  rcases hdcov w hlink with hw | hw
                  · rw [hw] at hrest
                    exact ihN m' s x hm' hrest (Or.inl rfl)
                  · rcases hdel2 w hw with h2 | h2
                    · exact ihN m' w x hm' hrest
                        (Or.inr (Or.inr ⟨w, 0, h2, DepChainN.refl w⟩))
                    · exact ihN m' w x hm' hrest (Or.inr (Or.inl h2))
                · rcases h1 with ⟨z0, k2, hz0, hch2⟩
                  rcases hlink with ⟨nm, fid, fe, hb, hfe, hsub, hwdep⟩
                  by_cases hws : w = s
                  · rw [hws] at hrest
                    exact ihN m' s x hm' hrest (Or.inl rfl)
                  · have hb2 := hsurv nm fid fe hb hfe (by rw [hsub]; exact hzs)
                    rcases hpt fid fe hfe with ⟨fe1, hfe1, _, hs1, _, _, hkeep⟩
                    have hlink2 : depLink srg2 z w :=
                      ⟨nm, fid, fe1, hb2, hfe1, hs1.trans hsub, hkeep w hwdep hws⟩
                    exact ihN m' w x hm' hrest
                      (Or.inr (Or.inr ⟨z0, k2 + 1, hz0, depChainN_snoc hch2 hlink2⟩))
        refine ⟨?_, c2, c3, fun hm => c4 (hmark2 hm)⟩
        intro m z x hch hz
        refine key m m z x (Nat.le_refl m) hch ?_
        rcases hz with h1 | h1 | h1
        · rcases List.mem_cons.mp h1 with rfl | h1
          · exact Or.inl rfl
          · exact Or.inr (Or.inr
              ⟨z, 0, List.mem_append.mpr (Or.inr h1), DepChainN.refl z⟩)
        · rcases hdel z h1 with h2 | h2
          · rcases List.mem_cons.mp h2 with rfl | h2
            · exact Or.inl rfl
            · exact Or.inr (Or.inr
                ⟨z, 0, List.mem_append.mpr (Or.inr h2), DepChainN.refl z⟩)
          · exact Or.inr (Or.inl (hgmono z h2))
        · exact Or.inr (Or.inl (hgmono z h1))

theorem alookup_aerase_back {β : Type} {m : List (String × β)} {k nm : String} {v : β}
    (hnodup : (m.map Prod.fst).Nodup)
    (h : alookup (aerase m k) nm = some v) : alookup m nm = some v := by
  by_cases hk : nm = k
  · rw [hk, alookup_aerase_self hnodup] at h
    exact Option.noConfusion h
  · rw [alookup_aerase_ne hk] at h
    exact h

/-- Effects of the incidence-clearing loop of `Graph::removeNode`: edges
only disappear, surviving objects keep name and attributes, and the node's
map binding is erased. -/
theorem removeNodeLoop_effects {NA EA : Type} :
    ∀ (fuel : Nat) (g : Graph NA EA) (nid : Nat) (g' : Graph NA EA),
    Graph.removeNodeLoop fuel g nid = .ok g' →
    (g.m_Edges.map Prod.fst).Nodup →
    (g'.m_Edges.map Prod.fst).Nodup ∧
    (∀ nm fid, alookup g'.m_Edges nm = some fid → alookup g.m_Edges nm = some fid) ∧
    (∀ i fe, nlookup g.edgeArena i = some fe →
      ∃ fe', nlookup g'.edgeArena i = some fe' ∧
        fe'.m_Name = fe.m_Name ∧ fe'.attr = fe.attr) ∧
    (∀ i nd, nlookup g.nodeArena i = some nd →
      ∃ nd', nlookup g'.nodeArena i = some nd' ∧
        nd'.m_Name = nd.m_Name ∧ nd'.attr = nd.attr) ∧
    (∀ nd0, nlookup g.nodeArena nid = some nd0 →
      g'.m_Nodes = aerase g.m_Nodes nd0.m_Name) := by
  intro fuel
  induction fuel with
  | zero =>
    intro g nid g' h _
    simp only [Graph.removeNodeLoop] at h
    exact Except.noConfusion h
  | succ fuel ih =>
    intro g nid g' h hnd
    simp only [Graph.removeNodeLoop] at h
    cases hn : nlookup g.nodeArena nid with
    | none =>
      simp only [hn] at h
      exact Except.noConfusion h
    | some nd =>
      simp only [hn] at h
      cases hoe : nd.m_OutEdges with
      | cons e t =>
        simp only [hoe] at h
        obtain ⟨gA, hrem, h⟩ := except_bind_ok_inv h
        rcases removeEdge_effects g e gA hrem with ⟨ed, hed, hE, hpt, hnpt, hN⟩
        have hndA : (gA.m_Edges.map Prod.fst).Nodup := by
          rw [hE]
          exact List.Nodup.sublist (List.Sublist.map _ (aerase_sublist _ _)) hnd
        rcases ih gA nid g' h hndA with ⟨i1, i2, i3, i4, i5⟩
        refine ⟨i1, ?_, ?_, ?_, ?_⟩
        · intro nm fid hb
          have hbA := i2 nm fid hb
          rw [hE] at hbA
          exact alookup_aerase_back hnd hbA
        · intro i fe hfe
          rcases hpt i fe hfe with ⟨fe1, hfe1, hn1, ha1⟩
          rcases i3 i fe1 hfe1 with ⟨fe2, hfe2, hn2, ha2⟩
          exact ⟨fe2, hfe2, hn2.trans hn1, ha2.trans ha1⟩
        · intro i nd1 hnd1
          rcases hnpt i nd1 hnd1 with ⟨nd2, hnd2, hn2, ha2⟩
          rcases i4 i nd2 hnd2 with ⟨nd3, hnd3, hn3, ha3⟩
          exact ⟨nd3, hnd3, hn3.trans hn2, ha3.trans ha2⟩
        · intro nd0 hnd0
          injection hnd0 with hnd0
          rcases hnpt nid nd hn with ⟨ndA, hndAl, hnA, _⟩
          have hfin := i5 ndA hndAl
          rw [hfin, hN, hnA, hnd0]
      | nil =>
        simp only [hoe] at h
        cases hie : nd.m_InEdges with
        | cons e t =>
          simp only [hie] at h
          obtain ⟨gA, hrem, h⟩ := except_bind_ok_inv h
          rcases removeEdge_effects g e gA hrem with ⟨ed, hed, hE, hpt, hnpt, hN⟩
          have hndA : (gA.m_Edges.map Prod.fst).Nodup := by
            rw [hE]
            exact List.Nodup.sublist (List.Sublist.map _ (aerase_sublist _ _)) hnd
          rcases ih gA nid g' h hndA with ⟨i1, i2, i3, i4, i5⟩
          refine ⟨i1, ?_, ?_, ?_, ?_⟩
          · intro nm fid hb
            have hbA := i2 nm fid hb
            rw [hE] at hbA
            exact alookup_aerase_back hnd hbA
          · intro i fe hfe
            rcases hpt i fe hfe with ⟨fe1, hfe1, hn1, ha1⟩
            rcases i3 i fe1 hfe1 with ⟨fe2, hfe2, hn2, ha2⟩
            exact ⟨fe2, hfe2, hn2.trans hn1, ha2.trans ha1⟩
          · intro i nd1 hnd1
            rcases hnpt i nd1 hnd1 with ⟨nd2, hnd2, hn2, ha2⟩
            rcases i4 i nd2 hnd2 with ⟨nd3, hnd3, hn3, ha3⟩
            exact ⟨nd3, hnd3, hn3.trans hn2, ha3.trans ha2⟩
          · intro nd0 hnd0
            injection hnd0 with hnd0
            rcases hnpt nid nd hn with ⟨ndA, hndAl, hnA, _⟩
            have hfin := i5 ndA hndAl
            rw [hfin, hN, hnA, hnd0]
        | nil =>
          simp only [hie] at h
          injection h with h
          subst h
          refine ⟨hnd, fun nm fid hb => hb, fun i fe hfe => ⟨fe, hfe, rfl, rfl⟩,
            fun i nd1 hnd1 => ⟨nd1, hnd1, rfl, rfl⟩, ?_⟩
          intro nd0 hnd0
          injection hnd0 with hnd0
          show aerase g.m_Nodes nd.m_Name = aerase g.m_Nodes nd0.m_Name
          rw [hnd0]

/-- Effects of `SRGraph::removeNode`: the id's node-map and id-map bindings
are erased, other objects keep name and attributes, edges only
disappear. -/
theorem srgRemoveNode_effects (srg : SRGraph) (id : String) (srg' : SRGraph)
    (h : SRGraph.removeNode srg id = .ok srg')
    (hWFn : nodeMapWF srg)
    (hnodup : (srg.graph.m_Edges.map Prod.fst).Nodup) :
    (srg'.graph.m_Edges.map Prod.fst).Nodup ∧
    (∀ nm fid, alookup srg'.graph.m_Edges nm = some fid →
      alookup srg.graph.m_Edges nm = some fid) ∧
    (∀ i fe, nlookup srg.graph.edgeArena i = some fe →
      ∃ fe', nlookup srg'.graph.edgeArena i = some fe' ∧
        fe'.m_Name = fe.m_Name ∧ fe'.attr = fe.attr) ∧
    (∀ i nd, nlookup srg.graph.nodeArena i = some nd →
      ∃ nd', nlookup srg'.graph.nodeArena i = some nd' ∧
        nd'.m_Name = nd.m_Name ∧ nd'.attr = nd.attr) ∧
    srg'.graph.m_Nodes = aerase srg.graph.m_Nodes id ∧
    nodeMapWF srg' := by
  rw [SRGraph.removeNode] at h
  by_cases hhn : srg.hasNode id = true
  · rw [if_pos hhn] at h
    obtain ⟨g1, hrm, h⟩ := except_bind_ok_inv h
    rw [Graph.removeNodeByName] at hrm
    obtain ⟨nid, hget, hrm⟩ := except_bind_ok_inv hrm
    have hmem : alookup srg.graph.m_Nodes id = some nid := by
      rw [Graph.getNode] at hget
      cases hl : alookup srg.graph.m_Nodes id with
      | none =>
        simp only [hl] at hget
        exact Except.noConfusion hget
      | some nid2 =>
        simp only [hl] at hget
        injection hget with hget
        rw [hget]
    rw [Graph.removeNode] at hrm
    cases hnd : nlookup srg.graph.nodeArena nid with
    | none =>
      simp only [hnd] at hrm
      exact Except.noConfusion hrm
    | some nd =>
      simp only [hnd] at hrm
      rcases removeNodeLoop_effects _ srg.graph nid g1 hrm hnodup with ⟨l1, l2, l3, l4, l5⟩
      injection h with h
      subst h
      have hname : nd.m_Name = id := by
        rcases hWFn.2.2.1 _ (alookup_mem hmem) with ⟨nd2, hnd2, hnm2⟩
        have hnd2' : nlookup srg.graph.nodeArena nid = some nd2 := hnd2
        rw [hnd] at hnd2'
        injection hnd2' with hnd2'
        rw [hnd2']
        exact hnm2
      have hNodes : g1.m_Nodes = aerase srg.graph.m_Nodes id := by
        have hfin := l5 nd hnd
        rw [hname] at hfin
        exact hfin
      refine ⟨l1, l2, l3, l4, hNodes, ?_, ?_, ?_, ?_⟩
      · intro pr hpr
        have hpr2 : pr ∈ g1.m_Nodes := hpr
        rw [hNodes] at hpr2
        have hne : pr.1 ≠ id := mem_aerase_ne hWFn.2.2.2 hpr2
        have hmem2 : pr ∈ srg.graph.m_Nodes :=
          List.Sublist.mem hpr2 (aerase_sublist _ _)
        show alookup (aerase srg.m_NodeIDMap id) pr.1 = some pr.2
        rw [alookup_aerase_ne hne]
        exact hWFn.1 pr hmem2
      · intro a ha b hb heq
        have ha2 : a ∈ aerase srg.m_NodeIDMap id := ha
        have hb2 : b ∈ aerase srg.m_NodeIDMap id := hb
        exact hWFn.2.1 a (List.Sublist.mem ha2 (aerase_sublist _ _))
          b (List.Sublist.mem hb2 (aerase_sublist _ _)) heq
      · intro pr hpr
        have hpr2 : pr ∈ g1.m_Nodes := hpr
        rw [hNodes] at hpr2
        have hmem2 : pr ∈ srg.graph.m_Nodes :=
          List.Sublist.mem hpr2 (aerase_sublist _ _)
        rcases hWFn.2.2.1 pr hmem2 with ⟨nd1, hnd1, hnm1⟩
        rcases l4 pr.2 nd1 hnd1 with ⟨nd2, hnd2, hn2, _⟩
        exact ⟨nd2, hnd2, hn2.trans hnm1⟩
      · show (g1.m_Nodes.map Prod.fst).Nodup
        rw [hNodes]
        exact List.Nodup.sublist (List.Sublist.map _ (aerase_sublist _ _)) hWFn.2.2.2
  · rw [if_neg hhn] at h
    exact Except.noConfusion h

/-- Effects of the final node-removal pass of `deleteSRG`. -/
theorem removeFold_effects :
    ∀ (L : List String) (srg srg' : SRGraph),
    L.foldlM SRGraph.removeNode srg = .ok srg' →
    nodeMapWF srg →
    (srg.graph.m_Edges.map Prod.fst).Nodup →
    (∀ nm fid, alookup srg'.graph.m_Edges nm = some fid →
      alookup srg.graph.m_Edges nm = some fid) ∧
    (∀ i fe, nlookup srg.graph.edgeArena i = some fe →
      ∃ fe', nlookup srg'.graph.edgeArena i = some fe' ∧
        fe'.m_Name = fe.m_Name ∧ fe'.attr = fe.attr) ∧
    (∀ i nd, nlookup srg.graph.nodeArena i = some nd →
      ∃ nd', nlookup srg'.graph.nodeArena i = some nd' ∧
        nd'.m_Name = nd.m_Name ∧ nd'.attr = nd.attr) ∧
    (∀ pr ∈ srg'.graph.m_Nodes, pr ∈ srg.graph.m_Nodes ∧ pr.1 ∉ L) := by
  intro L
  induction L with
  | nil =>
    intro srg srg' h _ _
    rw [List.foldlM_nil] at h
    injection h with h
    subst h
    exact ⟨fun nm fid hb => hb, fun i fe hfe => ⟨fe, hfe, rfl, rfl⟩,
      fun i nd hnd => ⟨nd, hnd, rfl, rfl⟩,
      fun pr hpr => ⟨hpr, List.not_mem_nil pr.1⟩⟩
  | cons a t ih =>
    intro srg srg' h hWFn hnodup
    rw [List.foldlM_cons] at h
    cases hstep : SRGraph.removeNode srg a with
    | error e =>
      rw [hstep, exceptBind_error] at h
      exact Except.noConfusion h
    | ok srgA =>
      rw [hstep, exceptBind_ok] at h
      rcases srgRemoveNode_effects srg a srgA hstep hWFn hnodup with
        ⟨s1, s2, s3, s4, s5, s6⟩
      rcases ih srgA srg' h s6 s1 with ⟨f1, f2, f3, f4⟩
      refine ⟨?_, ?_, ?_, ?_⟩
      · exact fun nm fid hb => s2 nm fid (f1 nm fid hb)
      · intro i fe hfe
        rcases s3 i fe hfe with ⟨fe1, hfe1, hn1, ha1⟩
        rcases f2 i fe1 hfe1 with ⟨fe2, hfe2, hn2, ha2⟩
        exact ⟨fe2, hfe2, hn2.trans hn1, ha2.trans ha1⟩
      · intro i nd hnd
        rcases s4 i nd hnd with ⟨nd1, hnd1, hn1, ha1⟩
        rcases f3 i nd1 hnd1 with ⟨nd2, hnd2, hn2, ha2⟩
        exact ⟨nd2, hnd2, hn2.trans hn1, ha2.trans ha1⟩
      · intro pr hpr
        rcases f4 pr hpr with ⟨hmemA, hnt⟩
        rw [s5] at hmemA
        refine ⟨List.Sublist.mem hmemA (aerase_sublist _ _), ?_⟩
        intro hcontra
        rcases List.mem_cons.mp hcontra with h1 | h1
        · exact (mem_aerase_ne hWFn.2.2.2 hmemA) h1
        · exact hnt h1

/-- C4: after `deleteSRG( id )` returns successfully, no SRG edge remains
whose producing subgraph is — transitively, via the dependent-subgraph
links stored on the removed edges — the deleted subgraph, and no SRG node
remains whose set of spawning subgraph ids is empty (assuming the world
SRG is well-formed against the repository and initially has no
empty-spawn node). -/
theorem c4_delete_srg_closure (fuel : Nat) (st st2 : SRGManager) (primal : String)
    (h : deleteSRG fuel st primal = .ok st2)
    (hWF : srgRepoWF st.m_GlobalSrg st.m_GraphRepository)
    (hWFn : nodeMapWF st.m_GlobalSrg)
    (hNE : ∀ pr ∈ st.m_GlobalSrg.graph.m_Nodes,
      ∀ nd, nlookup st.m_GlobalSrg.graph.nodeArena pr.2 = some nd →
        nd.attr.m_SubgraphIDs ≠ []) :
    (∀ m x, DepChainN st.m_GlobalSrg m primal x → edgesGone st2.m_GlobalSrg x) ∧
    (∀ pr ∈ st2.m_GlobalSrg.graph.m_Nodes,
      ∀ nd, nlookup st2.m_GlobalSrg.graph.nodeArena pr.2 = some nd →
        nd.attr.m_SubgraphIDs ≠ []) := by
  rw [deleteSRG] at h
  obtain ⟨acc1, hloop, h⟩ := except_bind_ok_inv h
  obtain ⟨srg1, repo1, removable⟩ := acc1
  obtain ⟨srg2, hfold, h⟩ := except_bind_ok_inv h
  injection h with h
  subst h
  rcases deleteSRGLoop_closure fuel st.m_GlobalSrg st.m_GraphRepository
      [primal] [] [] srg1 repo1 removable hloop hWF hWFn
      (fun x hx => absurd hx (List.not_mem_nil x)) with ⟨c1, c2, c3, c4⟩
  have hmarked1 : nodesNonEmptyMarked srg1 removable := by
    refine c4 ?_
    intro pr hpr nd hnd hempty
    exact absurd hempty (hNE pr hpr nd hnd)
  rcases removeFold_effects removable srg1 srg2 hfold c3 c2.2.1 with ⟨r1, r2, r3, r4⟩
  constructor
  · intro m x hch
    have hg1 : edgesGone srg1 x :=
      c1 m primal x hch (Or.inl (List.mem_cons_self primal []))
    intro nm fid fe hb2 hfe2
    have hb2' : alookup srg2.graph.m_Edges nm = some fid := hb2
    have hfe2' : nlookup srg2.graph.edgeArena fid = some fe := hfe2
    intro hsub
    have hb1 := r1 nm fid hb2'
    rcases c2.1 _ (alookup_mem hb1) with ⟨fe0, hfe0, _⟩
    have hfe0' : nlookup srg1.graph.edgeArena fid = some fe0 := hfe0
    rcases r2 fid fe0 hfe0' with ⟨fe1, hfe1, _, ha1⟩
    rw [hfe2'] at hfe1
    injection hfe1 with hfe1
    refine hg1 nm fid fe0 hb1 hfe0' ?_
    rw [← ha1, ← hfe1]
    exact hsub
  · intro pr hpr nd hnd
    have hpr' : pr ∈ srg2.graph.m_Nodes := hpr
    have hnd' : nlookup srg2.graph.nodeArena pr.2 = some nd := hnd
    intro hempty
    rcases r4 pr hpr' with ⟨hmem1, hnrem⟩
    rcases c3.2.2.1 pr hmem1 with ⟨nd0, hnd0, _⟩
    rcases r3 pr.2 nd0 hnd0 with ⟨nd1, hnd1, _, ha1⟩
    rw [hnd'] at hnd1
    injection hnd1 with hnd1
    have hempty0 : nd0.attr.m_SubgraphIDs = [] := by
      rw [← ha1, ← hnd1]
      exact hempty
    exact hnrem (hmarked1 pr hmem1 nd0 hnd0 hempty0)

def c4feP : GraphEdge SRGEdgeAttributes :=
  { m_Name := "P:e", m_Source := none, m_Target := none,
    attr := { m_SubgraphID := "P", m_LocalName := "e",
              m_DependantSubgraphIDs := ["D"] } }

def c4feD : GraphEdge SRGEdgeAttributes :=
  { m_Name := "D:f", m_Source := none, m_Target := none,
    attr := { m_SubgraphID := "D", m_LocalName := "f" } }

def c4srg : SRGraph :=
  { graph := { nextId := 2, edgeArena := [(0, c4feP), (1, c4feD)],
               m_Edges := [("P:e", 0), ("D:f", 1)] } }

def c4peP : GraphEdge UTQLEdge :=
  { m_Name := "e", m_Source := none, m_Target := none,
    attr := { m_Tag := InOutTag.Output } }

def c4peD : GraphEdge UTQLEdge :=
  { m_Name := "f", m_Source := none, m_Target := none,
    attr := { m_Tag := InOutTag.Output } }

def c4ipP : InstantiatedPattern :=
  { graph := { graph := { nextId := 1, edgeArena := [(0, c4peP)],
                          m_Edges := [("e", 0)] }, m_ID := "P" },
    m_clientId := "" }

def c4ipD : InstantiatedPattern :=
  { graph := { graph := { nextId := 1, edgeArena := [(0, c4peD)],
                          m_Edges := [("f", 0)] }, m_ID := "D" },
    m_clientId := "" }

def c4st : SRGManager :=
  { m_GlobalSrg := c4srg,
    m_GraphRepository := [("P", c4ipP), ("D", c4ipD)] }

def c4st2 : SRGManager :=
  match deleteSRG 5 c4st "P" with
  | .ok s => s
  | .error _ => {}

theorem c4_delete_srg_closure_witness :
    deleteSRG 5 c4st "P" = .ok c4st2 ∧
    edgesGone c4st2.m_GlobalSrg "D" := by
  have hWF : srgRepoWF c4st.m_GlobalSrg c4st.m_GraphRepository := by
    refine ⟨?_, by decide, by decide⟩
    intro pr hpr
    rcases List.mem_cons.mp hpr with rfl | hpr
    · exact ⟨c4feP, rfl, by decide, by decide, by decide, by decide,
        c4ipP, by decide, ("e", 0), by decide, c4peP, rfl, by decide, by decide⟩
    · rcases List.mem_cons.mp hpr with rfl | hpr
      · exact ⟨c4feD, rfl, by decide, by decide, by decide, by decide,
          c4ipD, by decide, ("f", 0), by decide, c4peD, rfl, by decide, by decide⟩
      · exact absurd hpr (List.not_mem_nil pr)
  have hWFn : nodeMapWF c4st.m_GlobalSrg := by
    refine ⟨?_, ?_, ?_, ?_⟩
    · intro pr hpr
      exact absurd hpr (List.not_mem_nil pr)
    · intro a ha
      exact absurd ha (List.not_mem_nil a)
    · intro pr hpr
      exact absurd hpr (List.not_mem_nil pr)
    · exact List.nodup_nil
  have hNE : ∀ pr ∈ c4st.m_GlobalSrg.graph.m_Nodes, ∀ nd,
      nlookup c4st.m_GlobalSrg.graph.nodeArena pr.2 = some nd →
      nd.attr.m_SubgraphIDs ≠ [] := by
    intro pr hpr
    exact absurd hpr (List.not_mem_nil pr)
  have hmain := c4_delete_srg_closure 5 c4st c4st2 "P" rfl hWF hWFn hNE
  refine ⟨rfl, ?_⟩
  exact hmain.1 1 "D"
    (DepChainN.step ⟨"P:e", 0, c4feP, rfl, rfl, rfl, by decide⟩ (DepChainN.refl "D"))

/-! ## C8: DataflowNetwork::assignEventPriorities
(src/utDataflow/DataflowNetwork.cpp) -/

/-- `DFN_MAX_PATHLENGTH`. -/
def DFN_MAX_PATHLENGTH : Int := 255

/-- The part of the `DataflowNetwork` state that `assignEventPriorities`
reads: the registered component names (in `m_componentIDMap` order) and
the two connection maps keyed by component name (`m_inConnectionMap`
is keyed by `m_destination.m_componentName` and the search only reads the
upstream `m_source.m_componentName` of each stored connection). -/
structure DFNet where
  components : List String
  inConnOf : List (String × List String)
  outConnOf : List (String × List String)
deriving DecidableEq, Repr

/-- `m_inConnectionMap[ name ]` (`operator[]` yields an empty set for an
unknown key). -/
def inConns (net : DFNet) (n : String) : List String :=
  match alookup net.inConnOf n with
  | some l => l
  | none => []

/-- `m_outConnectionMap[ name ]`. -/
def outConns (net : DFNet) (n : String) : List String :=
  match alookup net.outConnOf n with
  | some l => l
  | none => []

/-- The `while ( !search.empty() )` stack machine of
`assignEventPriorities`, fuel-bounded.  The search stack holds
`(priority, component)` entries, list head = `back()`; a negative
priority marks a pending removal from the `visiting` set.  A component
missing from the priority store models the null shared pointer that
`m_componentIDMap::operator[]` would produce for an unknown name. -/
def aepLoop (net : DFNet) : Nat → List (Int × String) → List String →
    List (String × Int) → Except String (List (String × Int))
  | 0, _, _, _ => throw "assignEventPriorities: loop did not terminate"
  | fuel + 1, search, visiting, prios =>
    match search with
    | [] => pure prios
    | (p, c) :: searchRest =>
      if p < 0 then
        aepLoop net fuel searchRest (visiting.filter (fun w => decide (w ≠ c))) prios
      else
        match alookup prios c with
        | none => throw "null component"
        | some old =>
          let prios1 := if old > p then aset prios c p else prios
          let visiting1 := insertS visiting c
          let pushes := ((inConns net c).filter
            (fun u => decide (u ∉ visiting1))).map (fun u => (p - 1, u))
          aepLoop net fuel (pushes.reverse ++ (-1, c) :: searchRest) visiting1 prios1

/-- `DataflowNetwork::assignEventPriorities`: reset every registered
component's priority to `DFN_MAX_PATHLENGTH`, then run one depth-first
search from every sink (a component whose out-connection set is empty). -/
def assignEventPriorities (net : DFNet) (fuel : Nat) :
    Except String (List (String × Int)) :=
  net.components.foldlM
    (fun prios n =>
      if (outConns net n).isEmpty then
        aepLoop net fuel [(DFN_MAX_PATHLENGTH, n)] [] prios
      else pure prios)
    (net.components.map (fun n => (n, DFN_MAX_PATHLENGTH)))

/-- A dataflow connection from component `u` into component `v`. -/
def connEdge (net : DFNet) (u v : String) : Prop := u ∈ inConns net v

instance (net : DFNet) (u v : String) : Decidable (connEdge net u v) := by
  unfold connEdge
  infer_instance

/-- Forward paths along connections, with length. -/
inductive ConnPath (net : DFNet) : Nat → String → String → Prop
  | refl (x : String) : ConnPath net 0 x x
  | step {n : Nat} {u w x : String} : connEdge net u w → ConnPath net n w x →
      ConnPath net (n + 1) u x

theorem connPath_trans {net : DFNet} {m n : Nat} {a b c : String}
    (h1 : ConnPath net m a b) (h2 : ConnPath net n b c) :
    ConnPath net (m + n) a c := by
  induction h1 with
  | refl x => simpa using h2
  | step he hp ih =>
    have := ConnPath.step he (ih h2)
    have harith : ∀ k l : Nat, k + l + 1 = k + 1 + l := by omega
    rw [harith] at this
    exact this

/-- The components of the negative (marker) entries of the search stack. -/
def markersOf (search : List (Int × String)) : List String :=
  (search.filter (fun e => decide (e.1 < 0))).map Prod.snd

theorem mem_markersOf {search : List (Int × String)} {w : String} :
    w ∈ markersOf search ↔ ∃ q, (q, w) ∈ search ∧ q < 0 := by
  unfold markersOf
  constructor
  · intro h
    rcases List.mem_map.mp h with ⟨e, he, hw⟩
    rcases List.mem_filter.mp he with ⟨hmem, hneg⟩
    exact ⟨e.1, by rw [← hw]; exact hmem, of_decide_eq_true hneg⟩
  · intro ⟨q, hmem, hneg⟩
    exact List.mem_map.mpr ⟨(q, w), List.mem_filter.mpr ⟨hmem, decide_eq_true hneg⟩, rfl⟩

theorem markersOf_cons_neg {p : Int} {c : String} {rest : List (Int × String)}
    (h : p < 0) : markersOf ((p, c) :: rest) = c :: markersOf rest := by
  unfold markersOf
  rw [List.filter_cons, if_pos (decide_eq_true h), List.map_cons]

theorem markersOf_cons_nonneg {p : Int} {c : String} {rest : List (Int × String)}
    (h : ¬ p < 0) : markersOf ((p, c) :: rest) = markersOf rest := by
  unfold markersOf
  rw [List.filter_cons, if_neg (by simpa using h)]

theorem markersOf_append (l1 l2 : List (Int × String)) :
    markersOf (l1 ++ l2) = markersOf l1 ++ markersOf l2 := by
  unfold markersOf
  rw [List.filter_append, List.map_append]

theorem markersOf_all_nonneg {l : List (Int × String)}
    (h : ∀ pr ∈ l, 0 ≤ pr.1) : markersOf l = [] := by
  unfold markersOf
  rw [List.filter_eq_nil.mpr, List.map_nil]
  intro pr hpr
  simp only [decide_eq_true_eq]
  exact not_lt.mpr (h pr hpr)

theorem alookup_aset_self {β : Type} : ∀ (m : List (String × β)) (k : String) (v : β),
    alookup (aset m k v) k = some v := by
  intro m
  induction m with
  | nil =>
    intro k v
    show (if k = k then some v else alookup [] k) = some v
    rw [if_pos rfl]
  | cons x t ih =>
    intro k v
    rcases x with ⟨k1, v1⟩
    show alookup (if k1 = k then (k1, v) :: t else (k1, v1) :: aset t k v) k = some v
    by_cases hk : k1 = k
    · rw [if_pos hk]
      show (if k1 = k then some v else alookup t k) = some v
      rw [if_pos hk]
    · rw [if_neg hk]
      show (if k1 = k then some v1 else alookup (aset t k v) k) = some v
      rw [if_neg hk]
      exact ih k v

theorem alookup_aset_other {β : Type} : ∀ (m : List (String × β)) (k k' : String) (v : β),
    k' ≠ k → alookup (aset m k v) k' = alookup m k' := by
  intro m
  induction m with
  | nil =>
    intro k k' v hne
    show (if k = k' then some v else none) = none
    rw [if_neg (fun hc => hne hc.symm)]
  | cons x t ih =>
    intro k k' v hne
    rcases x with ⟨k1, v1⟩
    show alookup (if k1 = k then (k1, v) :: t else (k1, v1) :: aset t k v) k'
      = (if k1 = k' then some v1 else alookup t k')
    by_cases hk : k1 = k
    · rw [if_pos hk]
      show (if k1 = k' then some v else alookup t k') = _
      rw [if_neg (by rw [hk]; exact fun hc => hne hc.symm),
        if_neg (by rw [hk]; exact fun hc => hne hc.symm)]
    · rw [if_neg hk]
      show (if k1 = k' then some v1 else alookup (aset t k v) k') = _
      by_cases hk' : k1 = k'
      · rw [if_pos hk', if_pos hk']
      · rw [if_neg hk', if_neg hk']
        exact ih k k' v hne

theorem alookup_map_const {β : Type} (b : β) :
    ∀ (L : List String) (x : String), x ∈ L →
    alookup (L.map (fun n => (n, b))) x = some b := by
  intro L
  induction L with
  | nil => exact fun x hx => absurd hx (List.not_mem_nil x)
  | cons a t ih =>
    intro x hx
    show (if a = x then some b else alookup (t.map (fun n => (n, b))) x) = some b
    rcases List.mem_cons.mp hx with rfl | hx
    · rw [if_pos rfl]
    · by_cases ha : a = x
      · rw [if_pos ha]
      · rw [if_neg ha]
        exact ih x hx

/-- The search loop only ever lowers stored priorities, and changes no
keys. -/
theorem aepLoop_monotone (net : DFNet) :
    ∀ (fuel : Nat) (search : List (Int × String)) (visiting : List String)
      (prios prios' : List (String × Int)),
    aepLoop net fuel search visiting prios = .ok prios' →
    (∀ c q, alookup prios c = some q →
      ∃ q', alookup prios' c = some q' ∧ q' ≤ q) ∧
    (∀ c q', alookup prios' c = some q' →
      ∃ q, alookup prios c = some q ∧ q' ≤ q) := by
  intro fuel
  induction fuel with
  | zero =>
    intro search visiting prios prios' h
    simp only [aepLoop] at h
    exact Except.noConfusion h
  | succ fuel ih =>
    intro search visiting prios prios' h
    cases search with
    | nil =>
      simp only [aepLoop] at h
      injection h with h
      subst h
      exact ⟨fun c q hq => ⟨q, hq, le_refl q⟩, fun c q hq => ⟨q, hq, le_refl q⟩⟩
    | cons top rest =>
      rcases top with ⟨p, c⟩
      simp only [aepLoop] at h
      by_cases hneg : p < 0
      · rw [if_pos hneg] at h
        exact ih rest _ prios prios' h
      · rw [if_neg hneg] at h
        cases hold : alookup prios c with
        | none =>
          simp only [hold] at h
          exact Except.noConfusion h
        | some old =>
          simp only [hold] at h
          by_cases hupd : old > p
          · rw [if_pos hupd] at h
            rcases ih _ _ _ _ h with ⟨m1, m2⟩
            constructor
            · intro c2 q hq
              by_cases hc : c2 = c
              · subst hc
                rw [hold] at hq
                injection hq with hq
                subst hq
                rcases m1 c2 p (alookup_aset_self _ _ _) with ⟨q', hq', hle⟩
                exact ⟨q', hq', le_trans hle (le_of_lt hupd)⟩
              · rcases m1 c2 q (by rw [alookup_aset_other _ _ _ _ hc]; exact hq) with
                  ⟨q', hq', hle⟩
                exact ⟨q', hq', hle⟩
            · intro c2 q' hq'
              rcases m2 c2 q' hq' with ⟨q1, hq1, hle1⟩
              by_cases hc : c2 = c
              · subst hc
                rw [alookup_aset_self] at hq1
                injection hq1 with hq1
                subst hq1
                exact ⟨old, hold, le_trans hle1 (le_of_lt hupd)⟩
              · rw [alookup_aset_other _ _ _ _ hc] at hq1
                exact ⟨q1, hq1, hle1⟩
          · rw [if_neg hupd] at h
            exact ih _ _ _ _ h

/-- Any pending non-negative stack entry bounds the component's final
priority. -/
theorem aepLoop_entry (net : DFNet) :
    ∀ (fuel : Nat) (search : List (Int × String)) (visiting : List String)
      (prios prios' : List (String × Int)),
    aepLoop net fuel search visiting prios = .ok prios' →
    ∀ p c, (p, c) ∈ search → 0 ≤ p →
    ∃ q', alookup prios' c = some q' ∧ q' ≤ p := by
  intro fuel
  induction fuel with
  | zero =>
    intro search visiting prios prios' h
    simp only [aepLoop] at h
    exact Except.noConfusion h
  | succ fuel ih =>
    intro search visiting prios prios' h p c hmem hp
    cases search with
    | nil => exact absurd hmem (List.not_mem_nil _)
    | cons top rest =>
      rcases top with ⟨pt, ct⟩
      simp only [aepLoop] at h
      by_cases hneg : pt < 0
      · rw [if_pos hneg] at h
        rcases List.mem_cons.mp hmem with heq | hmem
        · injection heq with h1 h2
          subst h1
          exact absurd hp (not_le.mpr hneg)
        · exact ih rest _ prios prios' h p c hmem hp
      · rw [if_neg hneg] at h
        cases hold : alookup prios ct with
        | none =>
          simp only [hold] at h
          exact Except.noConfusion h
        | some old =>
          simp only [hold] at h
          rcases List.mem_cons.mp hmem with heq | hmem
          · injection heq with h1 h2
            subst h1
            subst h2
            by_cases hupd : old > p
            · rw [if_pos hupd] at h
              rcases aepLoop_monotone net fuel _ _ _ _ h with ⟨m1, _⟩
              rcases m1 c p (alookup_aset_self _ _ _) with ⟨q', hq', hle⟩
              exact ⟨q', hq', hle⟩
            · rw [if_neg hupd] at h
              rcases aepLoop_monotone net fuel _ _ _ _ h with ⟨m1, _⟩
              rcases m1 c old hold with ⟨q', hq', hle⟩
              exact ⟨q', hq', le_trans hle (not_lt.mp hupd)⟩
          · exact ih _ _ _ _ h p c
              (List.mem_append.mpr (Or.inr (List.mem_cons_of_mem _ hmem))) hp

/-- Shape of the DFS search stack during `assignEventPriorities`: every
pending (non-negative) entry records `DFN_MAX_PATHLENGTH` minus the length
of a connection path from its component to the sink `s`, and has a
connection path of positive length to the component of every marker below
it. -/
def stackWF (net : DFNet) (s : String) : List (Int × String) → Prop
  | [] => True
  | (p, c) :: rest =>
    (0 ≤ p →
      (∃ n, ConnPath net n c s ∧ p = DFN_MAX_PATHLENGTH - (n : Int)) ∧
      (∀ q w, (q, w) ∈ rest → q < 0 → ∃ n, ConnPath net (n + 1) c w)) ∧
    stackWF net s rest

theorem stackWF_append_nonneg (net : DFNet) (s : String) :
    ∀ (l1 l2 : List (Int × String)),
    (∀ pr ∈ l1, (0 : Int) ≤ pr.1) →
    (∀ pr ∈ l1,
      (∃ n, ConnPath net n pr.2 s ∧ pr.1 = DFN_MAX_PATHLENGTH - (n : Int)) ∧
      (∀ q w, (q, w) ∈ l2 → q < 0 → ∃ n, ConnPath net (n + 1) pr.2 w)) →
    stackWF net s l2 →
    stackWF net s (l1 ++ l2) := by
  intro l1
  induction l1 with
  | nil =>
    intro l2 _ _ h2
    simpa using h2
  | cons a t ih =>
    intro l2 hnn hdata h2
    rcases a with ⟨p, c⟩
    rw [List.cons_append]
    refine ⟨?_, ih l2 (fun pr hpr => hnn pr (List.mem_cons_of_mem _ hpr))
      (fun pr hpr => hdata pr (List.mem_cons_of_mem _ hpr)) h2⟩
    intro _
    rcases hdata (p, c) (List.mem_cons_self _ _) with ⟨hpath, hmark⟩
    refine ⟨hpath, ?_⟩
    intro q w hqw hq
    rcases List.mem_append.mp hqw with hqw | hqw
    · exact absurd hq (not_lt.mpr (hnn (q, w) (List.mem_cons_of_mem _ hqw)))
    · exact hmark q w hqw hq

/-- Main invariant of one DFS run of `assignEventPriorities`: under
acyclicity and the `DFN_MAX_PATHLENGTH` depth bound towards the sink `s`,
if for every connection either the source is already strictly below the
target, or an update of the source is pending on the stack below the
target's priority, or the target is still at the initial value, then at
the end of the run every connection's source is strictly below its target
or the target is still at the initial value. -/
theorem aepLoop_inv (net : DFNet) (s : String)
    (hacyc : ∀ n c, ConnPath net (n + 1) c c → False)
    (hdepth : ∀ n c, ConnPath net n c s → (n : Int) ≤ DFN_MAX_PATHLENGTH) :
    ∀ (fuel : Nat) (search : List (Int × String)) (visiting : List String)
      (prios prios' : List (String × Int)),
    aepLoop net fuel search visiting prios = .ok prios' →
    (∀ w ∈ visiting, w ∈ markersOf search) →
    (∀ w ∈ markersOf search, w ∈ visiting) →
    (markersOf search).Nodup →
    stackWF net s search →
    (∀ u v, connEdge net u v →
      (∃ pu pv, alookup prios u = some pu ∧ alookup prios v = some pv ∧ pu < pv) ∨
      (∃ q pv, (q, u) ∈ search ∧ 0 ≤ q ∧ alookup prios v = some pv ∧ q < pv) ∨
      alookup prios v = some DFN_MAX_PATHLENGTH) →
    (∀ u v, connEdge net u v →
      (∃ pu pv, alookup prios' u = some pu ∧ alookup prios' v = some pv ∧ pu < pv) ∨
      alookup prios' v = some DFN_MAX_PATHLENGTH) := by
  intro fuel
  induction fuel with
  | zero =>
    intro search visiting prios prios' h _ _ _ _ _
    simp only [aepLoop] at h
    exact Except.noConfusion h
  | succ fuel ih =>
    intro search visiting prios prios' h hv1 hv2 hnduM hswf hinv
    cases search with
    | nil =>
      simp only [aepLoop] at h
      injection h with h
      subst h
      intro u v he
      rcases hinv u v he with h1 | h1 | h1
      · exact Or.inl h1
      · rcases h1 with ⟨q, pv, hmem, _⟩
        exact absurd hmem (List.not_mem_nil _)
      · exact Or.inr h1
    | cons top rest =>
      rcases top with ⟨pt, ct⟩
      simp only [aepLoop] at h
      by_cases hneg : pt < 0
      · rw [if_pos hneg] at h
        have hmk : markersOf ((pt, ct) :: rest) = ct :: markersOf rest :=
          markersOf_cons_neg hneg
        refine ih rest _ prios prios' h ?_ ?_ ?_ hswf.2 ?_
        · intro w hw
          rcases List.mem_filter.mp hw with ⟨hwv, hwne⟩
          have hwnect : w ≠ ct := by simpa using hwne
          have hmem := hv1 w hwv
          rw [hmk] at hmem
          rcases List.mem_cons.mp hmem with heq | hmem
          · exact absurd heq hwnect
          · exact hmem
        · intro w hw
          have hwv : w ∈ visiting := hv2 w (by rw [hmk]; exact List.mem_cons_of_mem _ hw)
          refine List.mem_filter.mpr ⟨hwv, ?_⟩
          rw [hmk] at hnduM
          have hne : w ≠ ct := by
            intro hcontra
            subst hcontra
            exact (List.nodup_cons.mp hnduM).1 hw
          simpa using hne
        · rw [hmk] at hnduM
          exact (List.nodup_cons.mp hnduM).2
        · intro u v he
          rcases hinv u v he with h1 | h1 | h1
          · exact Or.inl h1
          · rcases h1 with ⟨q, pv, hqmem, hq, hpv, hlt⟩
            rcases List.mem_cons.mp hqmem with heq | hqmem
            · injection heq with he1 he2
              subst he1
              exact absurd hq (not_le.mpr hneg)
            · exact Or.inr (Or.inl ⟨q, pv, hqmem, hq, hpv, hlt⟩)
          · exact Or.inr (Or.inr h1)
      · rw [if_neg hneg] at h
        have hpt : (0 : Int) ≤ pt := not_lt.mp hneg
        cases hold : alookup prios ct with
        | none =>
          simp only [hold] at h
          exact Except.noConfusion h
        | some old =>
          simp only [hold] at h
          rcases hswf.1 hpt with ⟨⟨nct, hpathct, hptval⟩, hmarkct⟩
          have hselff : ∀ u, connEdge net u ct → u ∈ insertS visiting ct → False := by
            intro u hu hmem
            rcases mem_insertS.mp hmem with hmem | heqc
            · have humk := hv1 u hmem
              rw [markersOf_cons_nonneg hneg] at humk
              rcases mem_markersOf.mp humk with ⟨q, hqmem, hqneg⟩
              rcases hmarkct q u hqmem hqneg with ⟨n1, hpath1⟩
              have hcomp := connPath_trans (ConnPath.step hu (ConnPath.refl ct)) hpath1
              exact hacyc (1 + n1) u hcomp
            · rw [heqc] at hu
              exact hacyc 0 ct (ConnPath.step hu (ConnPath.refl ct))
          have hdep1 : ∀ u, connEdge net u ct → (0 : Int) ≤ pt - 1 := by
            intro u hu
            have hp := hdepth (nct + 1) u (ConnPath.step hu hpathct)
            rw [hptval]
            push_cast at hp
            omega
          have hpushmem : ∀ u, connEdge net u ct →
              (pt - 1, u) ∈ (((inConns net ct).filter
                (fun u => decide (u ∉ insertS visiting ct))).map
                (fun u => (pt - 1, u))).reverse ++ (-1, ct) :: rest := by
            intro u hu
            refine List.mem_append.mpr (Or.inl (List.mem_reverse.mpr ?_))
            refine List.mem_map.mpr ⟨u, ?_, rfl⟩
            refine List.mem_filter.mpr ⟨hu, ?_⟩
            have hnm : u ∉ insertS visiting ct := fun hmem => hselff u hu hmem
            simpa using hnm
          have hpushnn : ∀ pr ∈ (((inConns net ct).filter
              (fun u => decide (u ∉ insertS visiting ct))).map
              (fun u => (pt - 1, u))).reverse, (0 : Int) ≤ pr.1 := by
            intro pr hpr
            rw [List.mem_reverse] at hpr
            rcases List.mem_map.mp hpr with ⟨u, hu, rfl⟩
            exact hdep1 u (List.mem_filter.mp hu).1
          have hmknew : markersOf ((((inConns net ct).filter
              (fun u => decide (u ∉ insertS visiting ct))).map
              (fun u => (pt - 1, u))).reverse ++ (-1, ct) :: rest)
              = ct :: markersOf rest := by
            rw [markersOf_append, markersOf_all_nonneg hpushnn, List.nil_append,
              markersOf_cons_neg (by decide)]
          refine ih _ _ _ _ h ?_ ?_ ?_ ?_ ?_
          · intro w hw
            rw [hmknew]
            rcases mem_insertS.mp hw with hw | rfl
            · have hmem := hv1 w hw
              rw [markersOf_cons_nonneg hneg] at hmem
              exact List.mem_cons_of_mem _ hmem
            · exact List.mem_cons_self _ _
          · intro w hw
            rw [hmknew] at hw
            rcases List.mem_cons.mp hw with rfl | hw
            · exact mem_insertS.mpr (Or.inr rfl)
            · exact mem_insertS.mpr (Or.inl (hv2 w
                (by rw [markersOf_cons_nonneg hneg]; exact hw)))
          · rw [hmknew]
            rw [markersOf_cons_nonneg hneg] at hnduM
            refine List.nodup_cons.mpr ⟨?_, hnduM⟩
            intro hct
            rcases mem_markersOf.mp hct with ⟨q, hqmem, hqneg⟩
            rcases hmarkct q ct hqmem hqneg with ⟨n1, hpath1⟩
            exact hacyc n1 ct hpath1
          · refine stackWF_append_nonneg net s _ _ hpushnn ?_
              ⟨fun hcontra => absurd hcontra (by decide), hswf.2⟩
            intro pr hpr
            rw [List.mem_reverse] at hpr
            rcases List.mem_map.mp hpr with ⟨u, hu, rfl⟩
            have hedge : connEdge net u ct := (List.mem_filter.mp hu).1
            constructor
            · refine ⟨nct + 1, ConnPath.step hedge hpathct, ?_⟩
              rw [hptval]
              push_cast
              ring
            · intro q w hqw hq
              rcases List.mem_cons.mp hqw with heq | hqw
              · injection heq with he1 he2
                subst he2
                exact ⟨0, ConnPath.step hedge (ConnPath.refl w)⟩
              · rcases hmarkct q w hqw hq with ⟨n1, hpath1⟩
                have hcomp := connPath_trans
                  (ConnPath.step hedge (ConnPath.refl ct)) hpath1
                exact ⟨1 + n1, hcomp⟩
          · intro u v he
            by_cases hvct : v = ct
            · subst hvct
              by_cases hupd : old > pt
              · refine Or.inr (Or.inl ⟨pt - 1, pt, hpushmem u he, hdep1 u he, ?_,
                  by omega⟩)
                rw [if_pos hupd]
                exact alookup_aset_self _ _ _
              · have hpe : (if old > pt then aset prios v pt else prios) = prios := by
                  rw [if_neg hupd]
                rcases hinv u v he with h1 | h1 | h1
                · rcases h1 with ⟨pu, pv, hpu, hpv, hlt⟩
                  exact Or.inl ⟨pu, pv, by rw [hpe]; exact hpu,
                    by rw [hpe]; exact hpv, hlt⟩
                · rcases h1 with ⟨q, pv, hqmem, hq, hpv, hlt⟩
                  rcases List.mem_cons.mp hqmem with heq | hqmem
                  · injection heq with he1 he2
                    subst he2
                    exact absurd (ConnPath.step he (ConnPath.refl u)) (hacyc 0 u)
                  · exact Or.inr (Or.inl ⟨q, pv, List.mem_append.mpr (Or.inr
                      (List.mem_cons_of_mem _ hqmem)), hq, by rw [hpe]; exact hpv, hlt⟩)
                · exact Or.inr (Or.inr (by rw [hpe]; exact h1))
            · have hlv : alookup (if old > pt then aset prios ct pt else prios) v
                  = alookup prios v := by
                by_cases hupd : old > pt
                · rw [if_pos hupd, alookup_aset_other _ _ _ _ hvct]
                · rw [if_neg hupd]
              rcases hinv u v he with h1 | h1 | h1
              · rcases h1 with ⟨pu, pv, hpu, hpv, hlt⟩
                by_cases huct : u = ct
                · subst huct
                  by_cases hupd : old > pt
                  · have hpue : pu = old := by
                      rw [hold] at hpu
                      injection hpu with e
                      exact e.symm
                    refine Or.inl ⟨pt, pv, ?_, by rw [hlv]; exact hpv, ?_⟩
                    · rw [if_pos hupd]
                      exact alookup_aset_self _ _ _
                    · exact lt_trans hupd (hpue ▸ hlt)
                  · refine Or.inl ⟨pu, pv, ?_, by rw [hlv]; exact hpv, hlt⟩
                    rw [if_neg hupd]
                    exact hpu
                · refine Or.inl ⟨pu, pv, ?_, by rw [hlv]; exact hpv, hlt⟩
                  by_cases hupd : old > pt
                  · rw [if_pos hupd, alookup_aset_other _ _ _ _ huct]
                    exact hpu
                  · rw [if_neg hupd]
                    exact hpu
              · rcases h1 with ⟨q, pv, hqmem, hq, hpv, hlt⟩
                rcases List.mem_cons.mp hqmem with heq | hqmem
                · injection heq with he1 he2
                  subst he1
                  subst he2
                  by_cases hupd : old > q
                  · refine Or.inl ⟨q, pv, ?_, by rw [hlv]; exact hpv, hlt⟩
                    rw [if_pos hupd]
                    exact alookup_aset_self _ _ _
                  · exact Or.inl ⟨old, pv, by rw [if_neg hupd]; exact hold,
                      by rw [hlv]; exact hpv, lt_of_le_of_lt (not_lt.mp hupd) hlt⟩
                · exact Or.inr (Or.inl ⟨q, pv, List.mem_append.mpr (Or.inr
                    (List.mem_cons_of_mem _ hqmem)), hq, by rw [hlv]; exact hpv, hlt⟩)
              · exact Or.inr (Or.inr (by rw [hlv]; exact h1))

/-- Effects of the outer per-sink loop of `assignEventPriorities`. -/
theorem aepFold_inv (net : DFNet) (fuel : Nat)
    (hacyc : ∀ n c, ConnPath net (n + 1) c c → False)
    (hdepth : ∀ s, (outConns net s).isEmpty = true →
      ∀ n c, ConnPath net n c s → (n : Int) ≤ DFN_MAX_PATHLENGTH) :
    ∀ (L : List String) (prios prios' : List (String × Int)),
    L.foldlM (fun prios n =>
      if (outConns net n).isEmpty then
        aepLoop net fuel [(DFN_MAX_PATHLENGTH, n)] [] prios
      else pure prios) prios = .ok prios' →
    (∀ u v, connEdge net u v →
      (∃ pu pv, alookup prios u = some pu ∧ alookup prios v = some pv ∧ pu < pv) ∨
      alookup prios v = some DFN_MAX_PATHLENGTH) →
    ((∀ u v, connEdge net u v →
      (∃ pu pv, alookup prios' u = some pu ∧ alookup prios' v = some pv ∧ pu < pv) ∨
      alookup prios' v = some DFN_MAX_PATHLENGTH) ∧
     (∀ c q, alookup prios c = some q → ∃ q', alookup prios' c = some q' ∧ q' ≤ q) ∧
     (∀ s0 ∈ L, (outConns net s0).isEmpty = true → ∀ u, connEdge net u s0 →
        ∃ q', alookup prios' u = some q' ∧ q' ≤ DFN_MAX_PATHLENGTH - 1)) := by
  intro L
  induction L with
  | nil =>
    intro prios prios' h hinv
    rw [List.foldlM_nil] at h
    injection h with h
    subst h
    exact ⟨hinv, fun c q hq => ⟨q, hq, le_refl q⟩,
      fun s0 hs0 => absurd hs0 (List.not_mem_nil s0)⟩
  | cons a t ih =>
    intro prios prios' h hinv
    rw [List.foldlM_cons] at h
    by_cases hsink : (outConns net a).isEmpty = true
    · rw [if_pos hsink] at h
      cases hstep : aepLoop net fuel [(DFN_MAX_PATHLENGTH, a)] [] prios with
      | error e =>
        rw [hstep, exceptBind_error] at h
        exact Except.noConfusion h
      | ok priosA =>
        rw [hstep, exceptBind_ok] at h
        have hmk0 : markersOf [(DFN_MAX_PATHLENGTH, a)] = [] := by
          refine markersOf_all_nonneg ?_
          intro pr hpr
          rcases List.mem_singleton.mp hpr with rfl
          show (0 : Int) ≤ DFN_MAX_PATHLENGTH
          decide
        have hinvA : ∀ u v, connEdge net u v →
            (∃ pu pv, alookup priosA u = some pu ∧ alookup priosA v = some pv ∧
              pu < pv) ∨
            alookup priosA v = some DFN_MAX_PATHLENGTH := by
          refine aepLoop_inv net a hacyc (hdepth a hsink) fuel
            [(DFN_MAX_PATHLENGTH, a)] [] prios priosA hstep ?_ ?_ ?_ ?_ ?_
          · intro w hw
            exact absurd hw (List.not_mem_nil w)
          · intro w hw
            rw [hmk0] at hw
            exact absurd hw (List.not_mem_nil w)
          · rw [hmk0]
            exact List.nodup_nil
          · exact ⟨fun _ => ⟨⟨0, ConnPath.refl a, by simp⟩,
              fun q w hqw hq => absurd hqw (List.not_mem_nil _)⟩, trivial⟩
          · intro u v he
            rcases hinv u v he with h1 | h1
            · exact Or.inl h1
            · exact Or.inr (Or.inr h1)
        rcases aepLoop_monotone net fuel _ _ _ _ hstep with ⟨mA, _⟩
        rcases ih priosA prios' h hinvA with ⟨f1, f2, f3⟩
        refine ⟨f1, ?_, ?_⟩
        · intro c q hq
          rcases mA c q hq with ⟨q1, hq1, hle1⟩
          rcases f2 c q1 hq1 with ⟨q', hq', hle'⟩
          exact ⟨q', hq', le_trans hle' hle1⟩
        · intro s0 hs0 hsk u hu
          rcases List.mem_cons.mp hs0 with rfl | hs0
          · cases fuel with
            | zero =>
              simp only [aepLoop] at hstep
              exact Except.noConfusion hstep
            | succ fuel2 =>
              simp only [aepLoop] at hstep
              rw [if_neg (by decide)] at hstep
              cases hold : alookup prios s0 with
              | none =>
                simp only [hold] at hstep
                exact Except.noConfusion hstep
              | some old =>
                simp only [hold] at hstep
                have hmem : (DFN_MAX_PATHLENGTH - 1, u) ∈
                    (((inConns net s0).filter
                      (fun u => decide (u ∉ insertS [] s0))).map
                      (fun u => (DFN_MAX_PATHLENGTH - 1, u))).reverse ++
                      (-1, s0) :: ([] : List (Int × String)) := by
                  refine List.mem_append.mpr (Or.inl (List.mem_reverse.mpr ?_))
                  refine List.mem_map.mpr ⟨u, ?_, rfl⟩
                  refine List.mem_filter.mpr ⟨hu, ?_⟩
                  have hnm : u ∉ insertS [] s0 := by
                    intro hmem2
                    rcases mem_insertS.mp hmem2 with hmem2 | heqa
                    · exact absurd hmem2 (List.not_mem_nil u)
                    · rw [heqa] at hu
                      exact hacyc 0 s0 (ConnPath.step hu (ConnPath.refl s0))
                  simpa using hnm
                rcases aepLoop_entry net fuel2 _ _ _ _ hstep
                    (DFN_MAX_PATHLENGTH - 1) u hmem (by decide) with ⟨qA, hqA, hleA⟩
                rcases f2 u qA hqA with ⟨q', hq', hle'⟩
                exact ⟨q', hq', le_trans hle' hleA⟩
          · exact f3 s0 hs0 hsk u hu
    · rw [if_neg hsink] at h
      have h2 : t.foldlM (fun prios n =>
          if (outConns net n).isEmpty then
            aepLoop net fuel [(DFN_MAX_PATHLENGTH, n)] [] prios
          else pure prios) prios = .ok prios' := h
      rcases ih prios prios' h2 hinv with ⟨f1, f2, f3⟩
      refine ⟨f1, f2, ?_⟩
      intro s0 hs0 hsk u hu
      rcases List.mem_cons.mp hs0 with rfl | hs0
      · exact absurd hsk hsink
      · exact f3 s0 hs0 hsk u hu

/-- C8: after `assignEventPriorities` on an acyclic dataflow network whose
dependency chains into sinks stay within `DFN_MAX_PATHLENGTH` and in which
every component reaches some registered sink, the source component of
every connection is assigned a strictly smaller event priority than its
target component. -/
theorem c8_priorities_increase_downstream (net : DFNet) (fuel : Nat)
    (prios' : List (String × Int))
    (h : assignEventPriorities net fuel = .ok prios')
    (hacyc : ∀ n c, ConnPath net (n + 1) c c → False)
    (hdepth : ∀ s, (outConns net s).isEmpty = true →
      ∀ n c, ConnPath net n c s → (n : Int) ≤ DFN_MAX_PATHLENGTH)
    (hclosed : ∀ u v, connEdge net u v → v ∈ net.components)
    (hreach : ∀ v, v ∈ net.components →
      ∃ n s, s ∈ net.components ∧ (outConns net s).isEmpty = true ∧
        ConnPath net n v s) :
    ∀ u v, connEdge net u v →
      ∃ pu pv, alookup prios' u = some pu ∧ alookup prios' v = some pv ∧ pu < pv := by
  rw [assignEventPriorities] at h
  have hinv0 : ∀ u v, connEdge net u v →
      (∃ pu pv,
        alookup (net.components.map (fun n => (n, DFN_MAX_PATHLENGTH))) u = some pu ∧
        alookup (net.components.map (fun n => (n, DFN_MAX_PATHLENGTH))) v = some pv ∧
        pu < pv) ∨
      alookup (net.components.map (fun n => (n, DFN_MAX_PATHLENGTH))) v
        = some DFN_MAX_PATHLENGTH := by
    intro u v he
    exact Or.inr (alookup_map_const _ _ _ (hclosed u v he))
  rcases aepFold_inv net fuel hacyc hdepth net.components _ prios' h hinv0 with
    ⟨f1, f2, f3⟩
  have hbelow : ∀ n v s, s ∈ net.components → (outConns net s).isEmpty = true →
      ConnPath net (n + 1) v s →
      ∃ pv, alookup prios' v = some pv ∧ pv < DFN_MAX_PATHLENGTH := by
    intro n
    induction n with
    | zero =>
      intro v s hsmem hsink hpath
      cases hpath with
      | step hedge hrest =>
        cases hrest with
        | refl =>
          rcases f3 s hsmem hsink v hedge with ⟨q', hq', hle⟩
          exact ⟨q', hq', by omega⟩
    | succ n ihn =>
      intro v s hsmem hsink hpath
      cases hpath with
      | step hedge hrest =>
        rename_i w
        rcases ihn w s hsmem hsink hrest with ⟨pw, hpw, hpwlt⟩
        rcases f1 v w hedge with h1 | h1
        · rcases h1 with ⟨pu, pv, hpu, hpv, hlt⟩
          rw [hpw] at hpv
          injection hpv with hpv
          subst hpv
          exact ⟨pu, hpu, lt_trans hlt hpwlt⟩
        · rw [hpw] at h1
          injection h1 with h1
          rw [h1] at hpwlt
          exact absurd hpwlt (lt_irrefl _)
  intro u v he
  rcases hreach v (hclosed u v he) with ⟨n, s, hsmem, hsink, hpath⟩
  cases n with
  | zero =>
    cases hpath with
    | refl =>
      rcases f3 _ hsmem hsink u he with ⟨pu, hpu, hple⟩
      rcases f1 u _ he with h1 | h1
      · exact h1
      · exact ⟨pu, DFN_MAX_PATHLENGTH, hpu, h1, by omega⟩
  | succ n =>
    rcases hbelow n v s hsmem hsink hpath with ⟨pv, hpv, hpvlt⟩
    rcases f1 u v he with h1 | h1
    · exact h1
    · rw [hpv] at h1
      injection h1 with h1
      rw [h1] at hpvlt
      exact absurd hpvlt (lt_irrefl _)

def c8net : DFNet :=
  { components := ["src", "mid", "snk"],
    inConnOf := [("mid", ["src"]), ("snk", ["mid"])],
    outConnOf := [("src", ["mid"]), ("mid", ["snk"])] }

def c8prios : List (String × Int) :=
  match assignEventPriorities c8net 10 with
  | .ok l => l
  | .error _ => []

def c8rank (c : String) : Nat :=
  if c = "src" then 0 else if c = "mid" then 1 else 2

theorem c8edge_enum : ∀ u v, connEdge c8net u v →
    (u = "src" ∧ v = "mid") ∨ (u = "mid" ∧ v = "snk") := by
  intro u v hu
  have hu' : u ∈ (match (if "mid" = v then some ["src"]
      else if "snk" = v then some ["mid"] else none) with
    | some l => l
    | none => ([] : List String)) := hu
  by_cases h1 : "mid" = v
  · rw [if_pos h1] at hu'
    have hu2 : u ∈ ["src"] := hu'
    rcases List.mem_singleton.mp hu2 with rfl
    exact Or.inl ⟨rfl, h1.symm⟩
  · rw [if_neg h1] at hu'
    by_cases h2 : "snk" = v
    · rw [if_pos h2] at hu'
      have hu2 : u ∈ ["mid"] := hu'
      rcases List.mem_singleton.mp hu2 with rfl
      exact Or.inr ⟨rfl, h2.symm⟩
    · rw [if_neg h2] at hu'
      have hu2 : u ∈ ([] : List String) := hu'
      exact absurd hu2 (List.not_mem_nil u)

theorem c8rank_le : ∀ n a b, ConnPath c8net n a b → c8rank a + n ≤ c8rank b := by
  intro n a b hp
  induction hp with
  | refl x => omega
  | step he hr ih =>
    rcases c8edge_enum _ _ he with ⟨h1, h2⟩ | ⟨h1, h2⟩
    · rw [h1, (by decide : c8rank "src" = 0)]
      rw [h2, (by decide : c8rank "mid" = 1)] at ih
      omega
    · rw [h1, (by decide : c8rank "mid" = 1)]
      rw [h2, (by decide : c8rank "snk" = 2)] at ih
      omega

theorem c8_acyclic : ∀ n c, ConnPath c8net (n + 1) c c → False := by
  intro n c hp
  have hr := c8rank_le (n + 1) c c hp
  omega

theorem c8_priorities_increase_downstream_witness :
    assignEventPriorities c8net 10 = .ok c8prios ∧
    (∃ pu pv, alookup c8prios "mid" = some pu ∧ alookup c8prios "snk" = some pv ∧
      pu < pv) := by
  have hdepth : ∀ s, (outConns c8net s).isEmpty = true →
      ∀ n c, ConnPath c8net n c s → (n : Int) ≤ DFN_MAX_PATHLENGTH := by
    intro s _ n c hp
    have h1 := c8rank_le n c s hp
    have h2 : c8rank s ≤ 2 := by
      unfold c8rank
      by_cases e1 : s = "src"
      · rw [if_pos e1]
        omega
      · rw [if_neg e1]
        by_cases e2 : s = "mid"
        · rw [if_pos e2]
          omega
        · rw [if_neg e2]
    have h3 : n ≤ 2 := by omega
    have h4 : (n : Int) ≤ 2 := by exact_mod_cast h3
    unfold DFN_MAX_PATHLENGTH
    omega
  have hclosed : ∀ u v, connEdge c8net u v → v ∈ c8net.components := by
    intro u v he
    rcases c8edge_enum u v he with ⟨_, h2⟩ | ⟨_, h2⟩
    · rw [h2]
      decide
    · rw [h2]
      decide
  have hreach : ∀ v, v ∈ c8net.components →
      ∃ n s, s ∈ c8net.components ∧ (outConns c8net s).isEmpty = true ∧
        ConnPath c8net n v s := by
    intro v hv
    rcases List.mem_cons.mp hv with rfl | hv
    · exact ⟨2, "snk", by decide, rfl, ConnPath.step
        (show connEdge c8net "src" "mid" by decide)
        (ConnPath.step (show connEdge c8net "mid" "snk" by decide)
          (ConnPath.refl "snk"))⟩
    · rcases List.mem_cons.mp hv with rfl | hv
      · exact ⟨1, "snk", by decide, rfl,
          ConnPath.step (show connEdge c8net "mid" "snk" by decide)
            (ConnPath.refl "snk")⟩
      · rcases List.mem_cons.mp hv with rfl | hv
        · exact ⟨0, "snk", by decide, rfl, ConnPath.refl "snk"⟩
        · exact absurd hv (List.not_mem_nil v)
  have hmain := c8_priorities_increase_downstream c8net 10 c8prios rfl
    c8_acyclic hdepth hclosed hreach
  exact ⟨rfl, hmain "mid" "snk" (by decide)⟩

end UtDataflow
